import Mathlib

/-!
# torchtrtc: a shallow embedding of `cpp/bin/torchtrtc/main.cpp`

The command line compiler of Torch-TensorRT is embedded as a state machine.
Strings are lists of characters, tensors are flat lists of rationals, the
external collaborators (file system, module loader, compiler, interpreter)
are oracles collected in `Env`, and every call that leaves `main.cpp`
(a log entry, a load, a compile, a save) is recorded as an `Event`.
-/

namespace Torchtrtc

/-! ## Value types -/

/-- A `std::string`, as the list of its characters. -/
abbrev Str := List Char

/-- The enumeration `torchtrt::DataType`. -/
inductive DataType where
  | kFloat | kHalf | kChar | kInt | kBool | kUnknown
  deriving DecidableEq, Repr

/-- The enumeration `torchtrt::TensorFormat`. -/
inductive TensorFormat where
  | kContiguous | kChannelsLast | kUnknown
  deriving DecidableEq, Repr

/-- The levels of `torchtrt::logging::Level` used by `main.cpp`. -/
inductive Level where
  | kERROR | kWARNING | kINFO | kDEBUG
  deriving DecidableEq, Repr

/-- The enumeration `torchtrt::Device::DeviceType`. -/
inductive DeviceType where
  | kGPU | kDLA
  deriving DecidableEq, Repr

/-- The enumeration `torchtrt::EngineCapability`. -/
inductive EngineCapability where
  | kSTANDARD | kSAFETY | kDLA_STANDALONE
  deriving DecidableEq, Repr

/-- The scalar types `at::ScalarType` that `to_torch_dtype` returns. -/
inductive ScalarType where
  | kFloat | kHalf | kChar | kInt | kBool
  deriving DecidableEq, Repr

/-- The shape arguments handed to a `torchtrt::Input` constructor: one fixed
shape, or the three shapes of a dynamic range in the order they are passed. -/
inductive ShapeSpec where
  | fixed (shape : List Int)
  | range (min_shape opt_shape max_shape : List Int)
  deriving DecidableEq, Repr

/-- A `torchtrt::Input`. The class is declared outside `main.cpp`; the record
keeps the arguments of the constructor call, `none` where the overload used
takes no dtype or no format. -/
structure Input where
  shape : ShapeSpec
  dtype : Option DataType
  format : Option TensorFormat
  deriving DecidableEq, Repr

/-- The member `opt_shape` of an `Input`, read by the threshold check. -/
def Input.opt_shape (i : Input) : List Int :=
  match i.shape with
  | .fixed shape => shape
  | .range _ opt _ => opt

/-- The struct `torchtrt::Device` as far as `main.cpp` writes it. -/
structure Device where
  device_type : DeviceType
  gpu_id : Nat
  dla_core : Nat
  allow_gpu_fallback : Bool
  deriving DecidableEq, Repr

/-- The struct `torchtrt::ts::CompileSpec` as far as `main.cpp` writes it.
`ptq_calibrator` holds the cache path the calibrator was made from. -/
structure CompileSpec where
  inputs : List Input
  debug : Bool
  strict_types : Bool
  disable_tf32 : Bool
  sparse_weights : Bool
  require_full_compilation : Bool
  truncate_long_and_double : Bool
  device : Device
  min_block_size : Nat
  torch_executed_ops : List Str
  torch_executed_modules : List Str
  enabled_precisions : Finset DataType
  ptq_calibrator : Option Str
  capability : EngineCapability
  num_min_timing_iters : Nat
  num_avg_timing_iters : Nat
  workspace_size : Nat
  max_batch_size : Nat
  deriving DecidableEq

/-- A tensor, as the flat list of its elements read as exact rationals. -/
abbrev Tensor := List ℚ

/-! ## Log messages and events -/

/-- The distinct messages `main.cpp` passes to `torchtrt::logging::log`. -/
inductive Msg where
  /-- Message "Max Difference: " followed by the number. -/
  | maxDifference (d : ℚ)
  /-- Message "Acceptable Threshold: " followed by the number. -/
  | acceptableThreshold (t : ℚ)
  /-- Message "Invalid tensor format, options are [ linear | ... ], found: " + str. -/
  | invalidTensorFormat (found : Str)
  /-- Message "Invalid precision, options are [ float | ... ], found: " + dtype_str. -/
  | invalidPrecision (found : Str)
  /-- Message "Shapes need dimensions delimited by comma in parentheses, ...". -/
  | shapeFormat
  /-- Message "Dynamic shapes need three sets of dimensions delimited by semi-colons, ...". -/
  | dynamicShapeCount
  /-- Message "Unable to get current directory". -/
  | unableToGetCwd
  /-- Message "Invalid datatype for input specification " + spec. -/
  | invalidInputDatatype (spec : Str)
  /-- Message "Invalid format for input specification " + spec. -/
  | invalidInputFormat (spec : Str)
  /-- The text of `spec_err_str`. -/
  | specErr
  /-- Message "Parsed Input: " followed by the input. -/
  | parsedInput (i : Input)
  /-- Message "Ops or modules to run in torch were provided but full compilation was requested. ...". -/
  | opsWithFullCompilation
  /-- Message "Int8 precision has been enabled but no calibrator provided. ...". -/
  | int8NoCalibrator
  /-- Message "Invalid precision given for enabled kernel precision, options are ..., found: " + dtype. -/
  | invalidEnabledPrecision (dtype : DataType)
  /-- Message "Invalid device type, options are [ gpu | dla ] found: " + device. -/
  | invalidDeviceType (device : Str)
  /-- Message "Invalid engine capability, options are [ standard | safety | dla_standalone ]". -/
  | invalidEngineCapability
  /-- Message "Error loading the model (path may be incorrect)". -/
  | errorLoadingModel
  /-- Message "Module is not currently supported by Torch-TensorRT". -/
  | moduleNotSupported
  /-- Message "Maximum numerical deviation for output exceeds set threshold (" + threshold + ")". -/
  | thresholdExceeded (t : ℚ)
  /-- Message "Threshold check skipped, numerical precision is not checked". -/
  | thresholdCheckSkipped
  /-- Message "Due to change in operating data type, numerical precision is not checked". -/
  | precisionNotChecked
  deriving DecidableEq

/-- The calls by which `main` acts on the world, in program order. -/
inductive Event where
  /-- A call of `torchtrt::logging::log`. -/
  | log (lvl : Level) (msg : Msg)
  /-- The usage text written by `std::cerr << std::endl << parser`. -/
  | usage
  /-- A call of `torchtrt::logging::set_reportable_log_level`. -/
  | set_reportable_log_level (lvl : Level)
  /-- A call of `torchtrt::set_device`. -/
  | set_device (gpu_id : Nat)
  /-- A call of `read_buf` on the input path. -/
  | read_buf (path : Str)
  /-- A call of `torchtrt::ts::embed_engine_in_new_module`. -/
  | embed_engine_in_new_module (device : Device)
  /-- A call of `torch::jit::load`. -/
  | load (path : Str)
  /-- A call of `torchtrt::ts::check_method_operator_support(mod, "forward")`. -/
  | check_method_operator_support
  /-- A call of `torchtrt::ts::convert_method_to_trt_engine`. -/
  | convert_method_to_trt_engine (settings : CompileSpec)
  /-- The engine written through `std::ofstream out(real_output_path)`. -/
  | write_engine (path : Str)
  /-- A call of `torchtrt::ts::compile`. -/
  | compile (settings : CompileSpec)
  /-- A call of `at::randn(i.opt_shape, ...)` followed by `.to(dtype)`. -/
  | randn (opt_shape : List Int) (dtype : ScalarType)
  /-- The call `mod.forward(jit_inputs_ivalues)`. -/
  | forward_jit
  /-- The call `trt_mod.forward(trt_inputs_ivalues)`. -/
  | forward_trt
  /-- A call of `almostEqual` on result `i`. -/
  | almostEqual (i : Nat)
  /-- A call of `save(real_output_path)` on a module. -/
  | save (path : Str)
  deriving DecidableEq

/-! ## The process monad -/

/-- The observable state of a run: the events so far and the local variable
`compile_settings` of `main` (`none` before its construction). -/
structure St where
  trace : List Event
  compile_settings : Option CompileSpec
  deriving DecidableEq

/-- How a step ends: it yields a value, the process ends with an exit status
(`exit(n)` or `return n` from `main`), or an exception leaves uncaught. -/
inductive Res (α : Type) where
  | ok (a : α)
  | exit (code : Nat)
  | threw
  deriving DecidableEq

/-- A step of the program: a state transformer with an outcome. -/
def Proc (α : Type) : Type := St → Res α × St

/-- A step that yields a value and leaves the state alone. -/
def Proc.pure {α : Type} (a : α) : Proc α := fun s => (Res.ok a, s)

/-- Sequencing: the second step runs only when the first yields a value. -/
def Proc.bind {α β : Type} (m : Proc α) (f : α → Proc β) : Proc β := fun s =>
  match m s with
  | (Res.ok a, s1) => f a s1
  | (Res.exit code, s1) => (Res.exit code, s1)
  | (Res.threw, s1) => (Res.threw, s1)

instance : Monad Proc where
  pure := Proc.pure
  bind := Proc.bind

/-- Records one event. -/
def emit (e : Event) : Proc Unit := fun s =>
  (Res.ok (), { s with trace := s.trace ++ [e] })

/-- The call `torchtrt::logging::log(lvl, msg)`. -/
def log (lvl : Level) (msg : Msg) : Proc Unit := emit (Event.log lvl msg)

/-- The call `exit(code)`, also used for `return code` from `main`. -/
def exit {α : Type} (code : Nat) : Proc α := fun s => (Res.exit code, s)

/-- An exception that nothing in `main.cpp` catches. -/
def throw {α : Type} : Proc α := fun s => (Res.threw, s)

/-- An assignment to a member of `compile_settings`. -/
def modifySettings (f : CompileSpec → CompileSpec) : Proc Unit := fun s =>
  (Res.ok (), { s with compile_settings := s.compile_settings.map f })

/-! ## Fidelity comparison (`checkRtol`, `almostEqual`) -/

/-- The expression `tensor.max()`: the largest element; raises on an empty tensor. -/
def Tensor.max : Tensor → Option ℚ
  | [] => none
  | x :: xs => some (xs.foldl Max.max x)

/-- The expression `tensor.abs()`. -/
def Tensor.abs (t : Tensor) : Tensor := t.map fun x => |x|

/-- The expression `tensor.abs().max().item<float>()`. -/
def absMax (tensor : Tensor) : Proc ℚ :=
  match (Tensor.abs tensor).max with
  | some m => Proc.pure m
  | none => throw

/-- The loop of `checkRtol` over `inputs`, from the running `maxValue`. -/
def checkRtolLoop : List Tensor → ℚ → Proc ℚ
  | [], maxValue => Proc.pure maxValue
  | tensor :: rest, maxValue => do
    let m ← absMax tensor
    checkRtolLoop rest (Max.max m maxValue)

/-- The function `checkRtol(diff, inputs, threshold)`. -/
def checkRtol (diff : Tensor) (inputs : List Tensor) (threshold : ℚ) : Proc Bool := do
  let maxValue ← checkRtolLoop inputs 0
  let d ← absMax diff
  log Level.kDEBUG (Msg.maxDifference d)
  log Level.kDEBUG (Msg.acceptableThreshold threshold)
  let d ← absMax diff
  Proc.pure (decide (d ≤ threshold * maxValue))

/-- The expression `a - b` on tensors of one shape. Operands of different
sizes (broadcasting, or an error of the tensor library) are outside the
model and end the step. -/
def Tensor.sub (a b : Tensor) : Proc Tensor :=
  if a.length = b.length then Proc.pure (List.zipWith (fun x y => x - y) a b) else throw

/-- The function `almostEqual(a, b, threshold)`. -/
def almostEqual (a b : Tensor) (threshold : ℚ) : Proc Bool := do
  let diff ← Tensor.sub a b
  checkRtol diff [a, b] threshold

/-! ## String and stream primitives -/

/-- The value `std::string::npos` of a 64-bit `size_t`. -/
def npos : Nat := 2 ^ 64 - 1

/-- Subtraction `a - b` of two `size_t` values (both below `2 ^ 64`, as
sizes and positions are), wrapping around when `b` exceeds `a`. -/
def subSize (a b : Nat) : Nat := if b ≤ a then a - b else a + 2 ^ 64 - b

/-- The call `s.find(c)`: the index of the first `c`, `none` for `npos`. -/
def find : Str → Char → Option Nat
  | [], _ => none
  | x :: xs, c => if x = c then some 0 else (find xs c).map fun i => i + 1

/-- The call `s.substr(pos, count)`; raises `std::out_of_range` when
`pos > s.size()`. -/
def substr (s : Str) (pos count : Nat) : Proc Str :=
  if pos > s.length then throw else Proc.pure ((s.drop pos).take count)

/-- The test `s.rfind(c, 0) == 0`: the string starts with `c`. -/
def startsWith (s : Str) (c : Char) : Bool :=
  match s with
  | [] => false
  | x :: _ => x == c

/-- The function `std::tolower` in the "C" locale. -/
def tolower (c : Char) : Char :=
  if 65 ≤ c.toNat ∧ c.toNat ≤ 90 then Char.ofNat (c.toNat + 32) else c

/-- The function `std::isspace` in the "C" locale. -/
def isspace (c : Char) : Bool :=
  c == ' ' || c == '\t' || c == '\n' || c == '\x0b' || c == '\x0c' || c == '\r'

/-- The function `std::isdigit`. -/
def isdigit (c : Char) : Bool := decide (48 ≤ c.toNat ∧ c.toNat ≤ 57)

/-- The largest `int64_t`. -/
def INT64_MAX : Int := 2 ^ 63 - 1

/-- The smallest `int64_t`. -/
def INT64_MIN : Int := -(2 ^ 63)

/-- The number written by a run of decimal digits. -/
def digitsValue (ds : Str) : Nat :=
  ds.foldl (fun acc c => 10 * acc + (c.toNat - 48)) 0

/-- The extraction `ss >> dim` into an `int64_t dim` declared without an
initialiser, on the unread characters `ss` of the stream; it returns the
value of `dim` afterwards and the characters left unread.

Leading white space is skipped. At the end of the stream nothing is stored
and `dim` keeps its indeterminate value, `uninit`. Otherwise an optional
sign and the decimal digits after it are read: without a digit `dim` is 0,
out of range it is clamped to the nearest `int64_t`. The error flags the
extraction sets are reset by the `ss.clear()` that follows every extraction
in `parseSingleDim`. -/
def extractInt64 (uninit : Int) (ss : Str) : Int × Str :=
  match ss.dropWhile isspace with
  | [] => (uninit, [])
  | c :: r =>
    let negative := c == '-'
    let b := if c == '-' || c == '+' then r else c :: r
    let ds := b.takeWhile isdigit
    let rest := b.dropWhile isdigit
    if ds.isEmpty then (0, rest)
    else
      let n : Int := digitsValue ds
      if negative then (if n > 2 ^ 63 then INT64_MIN else -n, rest)
      else (if n > INT64_MAX then INT64_MAX else n, rest)

/-! ## Parsers of `main.cpp` -/

/-- The function `parseTensorFormat`. -/
def parseTensorFormat (str : Str) : Proc TensorFormat :=
  let str := str.map tolower
  if str = "linear".toList ∨ str = "nchw".toList ∨ str = "chw".toList
      ∨ str = "contiguous".toList then
    Proc.pure TensorFormat.kContiguous
  else if str = "nhwc".toList ∨ str = "hwc".toList ∨ str = "channels_last".toList then
    Proc.pure TensorFormat.kChannelsLast
  else do
    log Level.kERROR (Msg.invalidTensorFormat str)
    Proc.pure TensorFormat.kUnknown

/-- The function `parseDataType`. -/
def parseDataType (dtype_str : Str) : Proc DataType :=
  let dtype_str := dtype_str.map tolower
  if dtype_str = "float".toList ∨ dtype_str = "float32".toList ∨ dtype_str = "f32".toList
      ∨ dtype_str = "fp32".toList then
    Proc.pure DataType.kFloat
  else if dtype_str = "half".toList ∨ dtype_str = "float16".toList
      ∨ dtype_str = "f16".toList ∨ dtype_str = "fp16".toList then
    Proc.pure DataType.kHalf
  else if dtype_str = "char".toList ∨ dtype_str = "int8".toList ∨ dtype_str = "i8".toList then
    Proc.pure DataType.kChar
  else if dtype_str = "int".toList ∨ dtype_str = "int32".toList ∨ dtype_str = "i32".toList then
    Proc.pure DataType.kInt
  else if dtype_str = "bool".toList ∨ dtype_str = "b".toList then
    Proc.pure DataType.kBool
  else do
    log Level.kERROR (Msg.invalidPrecision dtype_str)
    Proc.pure DataType.kUnknown

/-- The loop of `parseSingleDim` over the characters of `shape_str`, with the
vector `shape` built so far and the unread characters `ss` of the string
stream; `none` when the loop ends without reaching a closing parenthesis. -/
def parseSingleDimLoop (uninit : Int) : Str → List Int → Str → Option (List Int)
  | [], _, _ => none
  | c :: cs, shape, ss =>
    if c = '(' ∨ c = ' ' then parseSingleDimLoop uninit cs shape ss
    else if c = ',' then
      parseSingleDimLoop uninit cs (shape ++ [(extractInt64 uninit ss).1])
        (extractInt64 uninit ss).2
    else if c = ')' then some (shape ++ [(extractInt64 uninit ss).1])
    else parseSingleDimLoop uninit cs shape (ss ++ [c])

/-- The function `parseSingleDim`. -/
def parseSingleDim (uninit : Int) (shape_str : Str) : Proc (List Int) :=
  match parseSingleDimLoop uninit shape_str [] [] with
  | some shape => Proc.pure shape
  | none => do
    log Level.kERROR Msg.shapeFormat
    exit 1

/-- The `while` loop of `parseDynamicDim`: as long as `shape_str` holds a
";", the text before it is parsed and erased together with the delimiter.
Every round erases at least one character, so `shape_str.length` rounds
always suffice; `fuel` counts them down. -/
def parseDynamicDimLoop (uninit : Int) :
    Nat → Str → List (List Int) → Proc (Str × List (List Int))
  | 0, shape_str, shape => Proc.pure (shape_str, shape)
  | fuel + 1, shape_str, shape =>
    match find shape_str ';' with
    | none => Proc.pure (shape_str, shape)
    | some pos => do
      let token ← substr shape_str 0 pos
      let range ← parseSingleDim uninit token
      parseDynamicDimLoop uninit fuel (shape_str.drop (pos + 1)) (shape ++ [range])

/-- The function `parseDynamicDim`. -/
def parseDynamicDim (uninit : Int) (shape_str : Str) : Proc (List (List Int)) := do
  let shape_str ← substr shape_str 1 (subSize shape_str.length 2)
  let (shape_str, shape) ← parseDynamicDimLoop uninit shape_str.length shape_str []
  let range ← parseSingleDim uninit shape_str
  let shape := shape ++ [range]
  if shape.length ≠ 3 then do
    log Level.kERROR Msg.dynamicShapeCount
    exit 1
  else
    Proc.pure shape

/-! ## Command line and environment -/

/-- The parsed command line: what `parser.ParseCLI` leaves in the flag
objects of `main`. An `args::Flag` is the boolean "matched"; an
`args::ValueFlag<T>` is `some v` when matched, and `args::get` of an
unmatched one is the zero value of `T`; an `args::ValueFlagList` or
`args::PositionalList` is the list of its values, matched when non-empty. -/
structure Args where
  verbose : Bool
  warning : Bool
  info : Bool
  build_debuggable_engine : Bool
  use_strict_types : Bool
  allow_gpu_fallback : Bool
  require_full_compilation : Bool
  disable_tf32 : Bool
  sparse_weights : Bool
  enabled_precision : List Str
  device_type : Option Str
  gpu_id : Option Nat
  dla_core : Option Nat
  engine_capability : Option Str
  calibration_cache_file : Option Str
  torch_executed_ops : List Str
  torch_executed_mods : List Str
  min_block_size : Option Nat
  embed_engine : Bool
  num_min_timing_iters : Option Nat
  num_avg_timing_iters : Option Nat
  workspace_size : Option Nat
  max_batch_size : Option Nat
  threshold : Option ℚ
  no_threshold_check : Bool
  truncate_long_and_double : Bool
  save_engine : Bool
  input_path : Str
  output_path : Str
  input_shapes : List Str

/-- The conversion `args::Base::operator bool` followed by the integral
conversion of the boolean, which is what the assignment of a flag object to
an integer member compiles to: 1 when the flag was matched, else 0. -/
def flagAsInteger {α : Type} (flag : Option α) : Nat :=
  if flag.isSome then 1 else 0

/-- The collaborators of `main.cpp` that live outside it. -/
structure Env where
  /-- The indeterminate value of an `int64_t` read before it was written. -/
  uninit : Int
  /-- The result of `getcwd`, `none` when it fails. -/
  cwd : Option Str
  /-- The member initialisers of `torchtrt::ts::CompileSpec`. -/
  default_settings : CompileSpec
  /-- Whether `torch::jit::load(path)` returns a module (else `c10::Error`). -/
  load : Str → Bool
  /-- The result of `check_method_operator_support(mod, "forward")`. -/
  supported : Bool
  /-- Whether `convert_method_to_trt_engine` returns an engine (else it raises). -/
  convert : CompileSpec → Bool
  /-- Whether `torchtrt::ts::compile` returns a module (else it raises). -/
  compile : CompileSpec → Bool
  /-- The tensors of `mod.forward(...)`, `none` when the call raises. -/
  jit_results : Option (List Tensor)
  /-- The tensors of `trt_mod.forward(...)`, `none` when the call raises. -/
  trt_results : Option (List Tensor)

/-- The function `to_torch_dtype`. -/
def to_torch_dtype (dtype : DataType) : ScalarType :=
  match dtype with
  | DataType.kHalf => ScalarType.kHalf
  | DataType.kChar => ScalarType.kChar
  | DataType.kInt => ScalarType.kInt
  | DataType.kBool => ScalarType.kBool
  | _ => ScalarType.kFloat

/-- The function `get_cwd`. -/
def get_cwd (env : Env) : Proc Str :=
  match env.cwd with
  | some current_working_dir => Proc.pure current_working_dir
  | none => do
    log Level.kERROR Msg.unableToGetCwd
    exit 1

/-- The function `resolve_path`. -/
def resolve_path (env : Env) (path : Str) : Proc Str :=
  if !(startsWith path '/') then do
    let cwd ← get_cwd env
    Proc.pure (cwd ++ '/' :: path)
  else
    Proc.pure path

/-! ## `main`: the input specs (lines 357 to 455) -/

/-- The report of an invalid part of an input spec: the error entry, the
usage text, and `exit(1)`. -/
def rejectSpec {α : Type} (msg : Msg) : Proc α := do
  log Level.kERROR msg
  emit Event.usage
  exit 1

/-- The test on the first character of `shapes` that each branch of the loop
over the input specs ends with: a "(" builds an `Input` from one shape, a
"[" from the three of `parseDynamicDim`, anything else is an error. `dtype`
and `format` are the further constructor arguments of the branch. -/
def makeInput (env : Env) (shapes : Str) (dtype : Option DataType)
    (format : Option TensorFormat) : Proc Input :=
  if startsWith shapes '(' then do
    let shape ← parseSingleDim env.uninit shapes
    Proc.pure { shape := ShapeSpec.fixed shape, dtype := dtype, format := format }
  else if startsWith shapes '[' then do
    let dyn_shapes ← parseDynamicDim env.uninit shapes
    Proc.pure { shape := ShapeSpec.range (dyn_shapes.getD 0 []) (dyn_shapes.getD 1 [])
                  (dyn_shapes.getD 2 []),
                dtype := dtype, format := format }
  else
    rejectSpec Msg.specErr

/-- The body of the loop over the input specs: the `Input` that one spec
appends to `ranges`, logged at debug level. -/
def parseInputSpec (env : Env) (spec : Str) : Proc Input := do
  let input ←
    (match find spec '@' with
     | some dtype_delim =>
       match find spec '%' with
       | some format_delim => do
         let shapes ← substr spec 0 dtype_delim
         let dtype ← substr spec (dtype_delim + 1) (subSize format_delim (dtype_delim + 1))
         let format ← substr spec (format_delim + 1) spec.length
         let parsed_dtype ← parseDataType dtype
         if parsed_dtype = DataType.kUnknown then rejectSpec (Msg.invalidInputDatatype spec)
         else do
           let parsed_format ← parseTensorFormat format
           if parsed_format = TensorFormat.kUnknown then
             rejectSpec (Msg.invalidInputFormat spec)
           else makeInput env shapes (some parsed_dtype) (some parsed_format)
       | none => do
         let shapes ← substr spec 0 dtype_delim
         let dtype ← substr spec (dtype_delim + 1) spec.length
         let parsed_dtype ← parseDataType dtype
         if parsed_dtype = DataType.kUnknown then rejectSpec (Msg.invalidInputDatatype spec)
         else makeInput env shapes (some parsed_dtype) none
     | none =>
       match find spec '%' with
       | some format_delim => do
         let shapes ← substr spec 0 format_delim
         let format ← substr spec (format_delim + 1) spec.length
         let parsed_format ← parseTensorFormat format
         if parsed_format = TensorFormat.kUnknown then rejectSpec (Msg.invalidInputFormat spec)
         else makeInput env shapes none (some parsed_format)
       | none => makeInput env spec none none)
  log Level.kDEBUG (Msg.parsedInput input)
  Proc.pure input

/-- The loop over `args::get(input_shapes)`, from the vector `ranges`. -/
def parseInputSpecs (env : Env) : List Str → List Input → Proc (List Input)
  | [], ranges => Proc.pure ranges
  | spec :: rest, ranges => do
    let input ← parseInputSpec env spec
    parseInputSpecs env rest (ranges ++ [input])

/-! ## `main`: the compile settings (lines 349 to 598) -/

/-- The choice of the reportable log level (lines 349 to 355). -/
def setVerbosity (args : Args) : Proc Unit :=
  if args.verbose then emit (Event.set_reportable_log_level Level.kDEBUG)
  else if args.info then emit (Event.set_reportable_log_level Level.kINFO)
  else if args.warning then emit (Event.set_reportable_log_level Level.kERROR)
  else Proc.pure ()

/-- The construction `torchtrt::ts::CompileSpec(ranges)` (line 457): the
member defaults with `inputs` set. -/
def constructSettings (env : Env) (ranges : List Input) : Proc Unit := fun s =>
  (Res.ok (), { s with compile_settings := some { env.default_settings with inputs := ranges } })

/-- The boolean options, the calibration cache path and the calibrator
(lines 459 to 486); it returns `calibration_cache_file_path`. -/
def setFlags (args : Args) (env : Env) : Proc Str := do
  (if args.build_debuggable_engine then modifySettings fun cs => { cs with debug := true }
   else Proc.pure ())
  (if args.use_strict_types then modifySettings fun cs => { cs with strict_types := true }
   else Proc.pure ())
  (if args.allow_gpu_fallback then
     modifySettings fun cs => { cs with device := { cs.device with allow_gpu_fallback := true } }
   else Proc.pure ())
  (if args.disable_tf32 then modifySettings fun cs => { cs with disable_tf32 := true }
   else Proc.pure ())
  (if args.sparse_weights then modifySettings fun cs => { cs with sparse_weights := true }
   else Proc.pure ())
  let calibration_cache_file_path ←
    (match args.calibration_cache_file with
     | some file => resolve_path env file
     | none => Proc.pure [])
  modifySettings fun cs => { cs with require_full_compilation := args.require_full_compilation }
  Proc.pure calibration_cache_file_path

/-- The exclusion lists (lines 488 to 505). The member `min_block_size` is
assigned the flag object itself, not `args::get` of it. -/
def setTorchExecuted (args : Args) : Proc Unit :=
  if !args.torch_executed_ops.isEmpty || !args.torch_executed_mods.isEmpty then do
    (if args.require_full_compilation then do
       log Level.kERROR Msg.opsWithFullCompilation
       exit 1
     else Proc.pure ())
    modifySettings fun cs => { cs with min_block_size := flagAsInteger args.min_block_size }
    modifySettings fun cs =>
      { cs with torch_executed_ops := cs.torch_executed_ops ++ args.torch_executed_ops }
    modifySettings fun cs =>
      { cs with torch_executed_modules := cs.torch_executed_modules ++ args.torch_executed_mods }
  else
    Proc.pure ()

/-- The body of the loop over `args::get(enabled_precision)` for a parsed
token (lines 510 to 530). -/
def enablePrecision (calibrator : Option Str) (dtype : DataType) : Proc Unit :=
  if dtype = DataType.kFloat then
    modifySettings fun cs =>
      { cs with enabled_precisions := insert DataType.kFloat cs.enabled_precisions }
  else if dtype = DataType.kHalf then
    modifySettings fun cs =>
      { cs with enabled_precisions := insert DataType.kHalf cs.enabled_precisions }
  else if dtype = DataType.kChar then do
    modifySettings fun cs =>
      { cs with enabled_precisions := insert DataType.kChar cs.enabled_precisions }
    match calibrator with
    | some path => modifySettings fun cs => { cs with ptq_calibrator := some path }
    | none => log Level.kINFO Msg.int8NoCalibrator
  else do
    log Level.kERROR (Msg.invalidEnabledPrecision dtype)
    emit Event.usage
    exit 1

/-- The loop over `args::get(enabled_precision)` (lines 508 to 531);
`calibrator` is the cache path when `calibration_cache_file` was matched. -/
def setEnabledPrecisions (calibrator : Option Str) : List Str → Proc Unit
  | [] => Proc.pure ()
  | precision :: rest => do
    let dtype ← parseDataType precision
    enablePrecision calibrator dtype
    setEnabledPrecisions calibrator rest

/-- The device options (lines 534 to 556). -/
def setDevice (args : Args) : Proc Unit :=
  match args.device_type with
  | none => Proc.pure ()
  | some device_type => do
    let device := device_type.map tolower
    (match args.gpu_id with
     | some gpu_id => do
       modifySettings fun cs => { cs with device := { cs.device with gpu_id := gpu_id } }
       emit (Event.set_device gpu_id)
     | none => Proc.pure ())
    if device = "gpu".toList then
      modifySettings fun cs =>
        { cs with device := { cs.device with device_type := DeviceType.kGPU } }
    else if device = "dla".toList then do
      modifySettings fun cs =>
        { cs with device := { cs.device with device_type := DeviceType.kDLA } }
      match args.dla_core with
      | some dla_core =>
        modifySettings fun cs => { cs with device := { cs.device with dla_core := dla_core } }
      | none => Proc.pure ()
    else do
      log Level.kERROR (Msg.invalidDeviceType device)
      emit Event.usage
      exit 1

/-- The engine capability (lines 558 to 575). -/
def setCapability (args : Args) : Proc Unit :=
  match args.engine_capability with
  | none => Proc.pure ()
  | some engine_capability =>
    let capability := engine_capability.map tolower
    if capability = "standard".toList then
      modifySettings fun cs => { cs with capability := EngineCapability.kSTANDARD }
    else if capability = "safety".toList then
      modifySettings fun cs => { cs with capability := EngineCapability.kSAFETY }
    else if capability = "dla_standalone".toList then
      modifySettings fun cs => { cs with capability := EngineCapability.kDLA_STANDALONE }
    else do
      log Level.kERROR Msg.invalidEngineCapability
      emit Event.usage
      exit 1

/-- The numeric builder options and the truncation flag (lines 577 to 595). -/
def setBuilderOptions (args : Args) : Proc Unit := do
  (match args.num_min_timing_iters with
   | some n => modifySettings fun cs => { cs with num_min_timing_iters := n }
   | none => Proc.pure ())
  (match args.num_avg_timing_iters with
   | some n => modifySettings fun cs => { cs with num_avg_timing_iters := n }
   | none => Proc.pure ())
  (match args.workspace_size with
   | some n => modifySettings fun cs => { cs with workspace_size := n }
   | none => Proc.pure ())
  (match args.max_batch_size with
   | some n => modifySettings fun cs => { cs with max_batch_size := n }
   | none => Proc.pure ())
  (if args.truncate_long_and_double then
     modifySettings fun cs => { cs with truncate_long_and_double := true }
   else Proc.pure ())

/-- Everything `main` does between parsing the command line and the use of
the input file (lines 211 to 598, `parser.ParseCLI` apart); it returns
`ranges`, `real_input_path` and `real_output_path`. -/
def configure (args : Args) (env : Env) : Proc (List Input × Str × Str) := do
  emit (Event.set_reportable_log_level Level.kWARNING)
  setVerbosity args
  let ranges ← parseInputSpecs env args.input_shapes []
  constructSettings env ranges
  let calibration_cache_file_path ← setFlags args env
  setTorchExecuted args
  setEnabledPrecisions (args.calibration_cache_file.map fun _ => calibration_cache_file_path)
    args.enabled_precision
  setDevice args
  setCapability args
  setBuilderOptions args
  let real_input_path ← resolve_path env args.input_path
  let real_output_path ← resolve_path env args.output_path
  Proc.pure (ranges, real_input_path, real_output_path)

/-! ## `main`: load, compile, compare, save (lines 600 to 699) -/

/-- The loop over `ranges` that draws the sample inputs (lines 645 to 650).
An `Input` built without a dtype carries the default of its class, which is
declared outside `main.cpp`; it is read as one that `to_torch_dtype` maps to
float. -/
def drawInputs : List Input → Proc Unit
  | [] => Proc.pure ()
  | i :: rest => do
    emit (Event.randn i.opt_shape (to_torch_dtype (i.dtype.getD DataType.kUnknown)))
    drawInputs rest

/-- The body of the loop over `trt_results` (lines 676 to 683) for the
result `trt` at index `i`. Reading `jit_results[i]` past the end and
`reshape_as` between tensors of different sizes end the run abnormally. -/
def compareResult (threshold_val : ℚ) (jit_results : List Tensor) (trt : Tensor) (i : Nat) :
    Proc Unit :=
  match jit_results.get? i with
  | none => throw
  | some jit =>
    if trt.length ≠ jit.length then throw
    else do
      emit (Event.almostEqual i)
      let equal ← almostEqual jit trt threshold_val
      if !equal then log Level.kWARNING (Msg.thresholdExceeded threshold_val)
      else Proc.pure ()

/-- The loop over `trt_results` (lines 675 to 684), from index `i`. -/
def compareResults (threshold_val : ℚ) (jit_results : List Tensor) :
    List Tensor → Nat → Proc Unit
  | [], _ => Proc.pure ()
  | trt :: rest, i => do
    compareResult threshold_val jit_results trt i
    compareResults threshold_val jit_results rest (i + 1)

/-- The condition of line 633 under which the outputs are compared. -/
def thresholdCheckEnabled (args : Args) (compile_settings : CompileSpec) : Bool :=
  !args.no_threshold_check &&
    (decide (compile_settings.enabled_precisions.card = 1) &&
      decide (DataType.kFloat ∈ compile_settings.enabled_precisions))

/-- The threshold check and its alternatives (lines 633 to 694). -/
def checkThreshold (args : Args) (env : Env) (compile_settings : CompileSpec)
    (ranges : List Input) : Proc Unit :=
  if thresholdCheckEnabled args compile_settings then do
    let threshold_val : ℚ := args.threshold.getD (2 / 100000)
    drawInputs ranges
    emit Event.forward_jit
    match env.jit_results with
    | none => throw
    | some jit_results => do
      emit Event.forward_trt
      match env.trt_results with
      | none => throw
      | some trt_results => compareResults threshold_val jit_results trt_results 0
  else if args.no_threshold_check then
    log Level.kWARNING Msg.thresholdCheckSkipped
  else
    log Level.kWARNING Msg.precisionNotChecked

/-- The compilation of the loaded module, the threshold check and the save
(lines 631 to 696). -/
def compileAndSave (args : Args) (env : Env) (compile_settings : CompileSpec)
    (ranges : List Input) (real_output_path : Str) : Proc Unit := do
  emit (Event.compile compile_settings)
  (if !env.compile compile_settings then throw else Proc.pure ())
  checkThreshold args env compile_settings ranges
  emit (Event.save real_output_path)

/-- The conversion of the loaded module to an engine written to the output
path (lines 625 to 629). -/
def saveEngine (env : Env) (compile_settings : CompileSpec) (real_output_path : Str) :
    Proc Unit := do
  emit (Event.convert_method_to_trt_engine compile_settings)
  (if !env.convert compile_settings then throw else Proc.pure ())
  emit (Event.write_engine real_output_path)
  exit 0

/-- The check of line 617 that a module to compile in full is supported. -/
def requireSupport (args : Args) (env : Env) : Proc Unit :=
  if args.require_full_compilation then do
    emit Event.check_method_operator_support
    if !env.supported then do
      log Level.kERROR Msg.moduleNotSupported
      exit 1
    else Proc.pure ()
  else Proc.pure ()

/-- The part of `main` that uses the input file (lines 600 to 699), with the
settings, the input list and the two resolved paths. -/
def build (args : Args) (env : Env) (compile_settings : CompileSpec) (ranges : List Input)
    (real_input_path real_output_path : Str) : Proc Unit :=
  if args.embed_engine then do
    emit (Event.read_buf real_input_path)
    emit (Event.embed_engine_in_new_module compile_settings.device)
    emit (Event.save real_output_path)
    exit 0
  else do
    emit (Event.load real_input_path)
    (if !env.load real_input_path then do
       log Level.kERROR Msg.errorLoadingModel
       exit 1
     else Proc.pure ())
    requireSupport args env
    (if args.save_engine then saveEngine env compile_settings real_output_path
     else compileAndSave args env compile_settings ranges real_output_path)
    exit 0

/-- The value of the local variable `compile_settings`. -/
def getSettings : Proc CompileSpec := fun s =>
  match s.compile_settings with
  | some compile_settings => (Res.ok compile_settings, s)
  | none => (Res.threw, s)

/-- The function `main` after `parser.ParseCLI` has succeeded. -/
def main (args : Args) (env : Env) : Proc Unit := do
  let (ranges, real_input_path, real_output_path) ← configure args env
  let compile_settings ← getSettings
  build args env compile_settings ranges real_input_path real_output_path

/-- The state in which `main` starts. -/
def St.init : St := { trace := [], compile_settings := none }

/-! ## Sample command lines and environments -/

/-- The command line `torchtrtc input_path output_path input_shapes...`
without any flag. -/
def Args.positional (input_path output_path : Str) (input_shapes : List Str) : Args where
  verbose := false
  warning := false
  info := false
  build_debuggable_engine := false
  use_strict_types := false
  allow_gpu_fallback := false
  require_full_compilation := false
  disable_tf32 := false
  sparse_weights := false
  enabled_precision := []
  device_type := none
  gpu_id := none
  dla_core := none
  engine_capability := none
  calibration_cache_file := none
  torch_executed_ops := []
  torch_executed_mods := []
  min_block_size := none
  embed_engine := false
  num_min_timing_iters := none
  num_avg_timing_iters := none
  workspace_size := none
  max_batch_size := none
  threshold := none
  no_threshold_check := false
  truncate_long_and_double := false
  save_engine := false
  input_path := input_path
  output_path := output_path
  input_shapes := input_shapes

/-- The command line `torchtrtc /m.ts /o.ts "(3,3,32,32)"`. -/
def Args.sample : Args :=
  Args.positional "/m.ts".toList "/o.ts".toList ["(3,3,32,32)".toList]

/-- The command line `torchtrtc --require-full-compilation
--torch-executed-ops aten::relu /m.ts /o.ts "(3,3,32,32)"`. -/
def Args.fullWithExclusion : Args :=
  { Args.sample with
    require_full_compilation := true
    torch_executed_ops := ["aten::relu".toList] }

/-- The command line `torchtrtc --require-full-compilation /m.ts /o.ts
"(3,3,32,32)"`. -/
def Args.full : Args :=
  { Args.sample with require_full_compilation := true }

/-- The command line `torchtrtc --require-full-compilation --min-block-size 3
/m.ts /o.ts "(3,3,32,32)"`. -/
def Args.fullWithBlockSize : Args :=
  { Args.sample with
    require_full_compilation := true
    min_block_size := some 3 }

/-- The command line `torchtrtc --min-block-size 5 --torch-executed-ops
aten::relu /m.ts /o.ts "(3,3,32,32)"`. -/
def Args.blockSizeWithExclusion : Args :=
  { Args.sample with
    min_block_size := some 5
    torch_executed_ops := ["aten::relu".toList] }

/-- The command line `torchtrtc --min-block-size 5 /m.ts /o.ts "(3,3,32,32)"`. -/
def Args.blockSize : Args :=
  { Args.sample with min_block_size := some 5 }

/-- The command line `torchtrtc -p fp16 /m.ts /o.ts "(3,3,32,32)"`. -/
def Args.half : Args :=
  { Args.sample with enabled_precision := ["fp16".toList] }

/-- The settings of a `CompileSpec` as the library initialises them: float
precision enabled, GPU 0, a minimum block size of 3. -/
def CompileSpec.sample : CompileSpec where
  inputs := []
  debug := false
  strict_types := false
  disable_tf32 := false
  sparse_weights := false
  require_full_compilation := false
  truncate_long_and_double := false
  device := { device_type := DeviceType.kGPU, gpu_id := 0, dla_core := 0,
              allow_gpu_fallback := false }
  min_block_size := 3
  torch_executed_ops := []
  torch_executed_modules := []
  enabled_precisions := {DataType.kFloat}
  ptq_calibrator := none
  capability := EngineCapability.kSTANDARD
  num_min_timing_iters := 2
  num_avg_timing_iters := 1
  workspace_size := 0
  max_batch_size := 0

/-- The input list of the sample command lines: one fixed shape. -/
def Input.sampleRanges : List Input :=
  [{ shape := ShapeSpec.fixed [3, 3, 32, 32], dtype := none, format := none }]

/-- An environment in which every collaborator succeeds and both programs
return the tensors given, `check_method_operator_support` reporting
`supported`. -/
def Env.withSupport (supported : Bool) (jit_results trt_results : List Tensor) : Env where
  uninit := 0
  cwd := some "/home".toList
  default_settings := CompileSpec.sample
  load := fun _ => true
  supported := supported
  convert := fun _ => true
  compile := fun _ => true
  jit_results := some jit_results
  trt_results := some trt_results

/-- An environment in which every collaborator succeeds and both programs
return the tensors given. -/
def Env.sample (jit_results trt_results : List Tensor) : Env where
  uninit := 0
  cwd := some "/home".toList
  default_settings := CompileSpec.sample
  load := fun _ => true
  supported := true
  convert := fun _ => true
  compile := fun _ => true
  jit_results := some jit_results
  trt_results := some trt_results

/-! ## Specification-side notions -/

/-- The absolute values of the elements of a tensor. -/
def absValues (t : Tensor) : Set ℚ := {x | ∃ y ∈ t, x = |y|}

/-- The absolute element-wise differences of two tensors of one shape. -/
def absDifferences (a b : Tensor) : Set ℚ := {x | ∃ p ∈ a.zip b, x = |p.1 - p.2|}

/-- Zero together with the absolute values of all elements of all tensors
of a list. -/
def absValuesWithZero (inputs : List Tensor) : Set ℚ :=
  {x | x = 0 ∨ ∃ t ∈ inputs, x ∈ absValues t}

/-- The strings of a list joined with a separator character between them. -/
def joinWith (sep : Char) : List Str → Str
  | [] => []
  | [g] => g
  | g :: rest => g ++ sep :: joinWith sep rest

/-- A well-formed shape text: an opening parenthesis, one or more non-empty
runs of decimal digits separated by commas, a closing parenthesis. -/
def IsShapeText (g : Str) : Prop :=
  ∃ tokens : List Str, tokens ≠ [] ∧ (∀ t ∈ tokens, t ≠ [] ∧ ∀ c ∈ t, isdigit c = true) ∧
    g = '(' :: joinWith ',' tokens ++ [')']

/-- The shape `parseSingleDim` returns on a text when it returns one. -/
def singleDim (uninit : Int) (shape_str : Str) : List Int :=
  (parseSingleDimLoop uninit shape_str [] []).getD []

/-- The messages of the comparison of the outputs. -/
def Msg.isComparison : Msg → Bool
  | Msg.maxDifference _ => true
  | Msg.acceptableThreshold _ => true
  | Msg.thresholdExceeded _ => true
  | _ => false

/-- The events of the comparison of the outputs: the drawing of sample
inputs, the two forward runs, the calls of `almostEqual` and the log
entries of the comparison. -/
def Event.isComparison : Event → Bool
  | Event.randn _ _ => true
  | Event.forward_jit => true
  | Event.forward_trt => true
  | Event.almostEqual _ => true
  | Event.log _ msg => msg.isComparison
  | _ => false

/-- A log entry at warning level. -/
def Event.isWarning : Event → Bool
  | Event.log Level.kWARNING _ => true
  | _ => false

/-- The verdict of `almostEqual` on a pair of tensors: true when it returns
true. -/
def passes (threshold : ℚ) (jit trt : Tensor) : Bool :=
  decide ((almostEqual jit trt threshold St.init).1 = Res.ok true)

/-- The events of the configuration phase: log entries other than warnings
and other than those of the comparison, the usage text, and the calls that
set the log level and the device. None of them reads the input file, builds
anything or writes a file. -/
def Event.isSetup : Event → Bool
  | Event.log lvl msg => lvl != Level.kWARNING && !msg.isComparison
  | Event.usage => true
  | Event.set_reportable_log_level _ => true
  | Event.set_device _ => true
  | _ => false

/-- The events that build something from the input file or write an output
file: the engine embedding, the conversion to an engine, the compilation,
and the two writes to the output path. -/
def Event.isBuildOrWrite : Event → Bool
  | Event.embed_engine_in_new_module _ => true
  | Event.convert_method_to_trt_engine _ => true
  | Event.write_engine _ => true
  | Event.compile _ => true
  | Event.save _ => true
  | _ => false

/-- The exclusion lists of the settings, where the settings exist, are
`ops` and `mods`. -/
def ExclusionsAre (ops mods : List Str) : Option CompileSpec → Prop :=
  fun o => ∀ cs, o = some cs → cs.torch_executed_ops = ops ∧ cs.torch_executed_modules = mods

/-- The settings exist and have the precision `d` enabled. -/
def HasPrecision (d : DataType) : Option CompileSpec → Prop :=
  fun o => ∃ cs, o = some cs ∧ d ∈ cs.enabled_precisions

/-- The events allowed in the comparison of the outputs. -/
def Comparison : Event → Prop := fun e => e.isComparison = true

/-- The events allowed in the configuration phase. -/
def Setup : Event → Prop := fun e => e.isSetup = true

/-- A relation between the settings before and after a step (`none` where
`compile_settings` is not yet constructed) that holds across no step and
across steps in sequence. -/
class Frame (Q : Option CompileSpec → Option CompileSpec → Prop) : Prop where
  refl : ∀ o, Q o o
  trans : ∀ o1 o2 o3, Q o1 o2 → Q o2 o3 → Q o1 o3

/-- The settings after a step agree with those before it under `proj`. -/
def Keeps {β : Type} (proj : CompileSpec → β) : Option CompileSpec → Option CompileSpec → Prop :=
  fun o1 o2 => o2.map proj = o1.map proj

/-- A property of the settings that holds after a step if it held before. -/
def Preserves (I : Option CompileSpec → Prop) : Option CompileSpec → Option CompileSpec → Prop :=
  fun o1 o2 => I o1 → I o2

/-- A step leaves the settings as they are. -/
def Unchanged : Option CompileSpec → Option CompileSpec → Prop := fun o1 o2 => o2 = o1

/-- No constraint on how a step changes the settings. -/
def AnySettings : Option CompileSpec → Option CompileSpec → Prop := fun _ _ => True

instance Keeps.frame {β : Type} (proj : CompileSpec → β) : Frame (Keeps proj) where
  refl := fun _ => rfl
  trans := fun _ _ _ h1 h2 => by unfold Keeps at *; rw [h2, h1]

instance Preserves.frame (I : Option CompileSpec → Prop) : Frame (Preserves I) where
  refl := fun _ h => h
  trans := fun _ _ _ h1 h2 h => h2 (h1 h)

instance AnySettings.frame : Frame AnySettings where
  refl := fun _ => trivial
  trans := fun _ _ _ _ _ => trivial

instance Unchanged.frame : Frame Unchanged where
  refl := fun _ => rfl
  trans := fun _ _ _ h1 h2 => by unfold Unchanged at *; rw [h2, h1]

/-- A step only appends events that satisfy `P`, and changes the settings
in a way related by `Q`. -/
def Step {α : Type} (P : Event → Prop) (Q : Option CompileSpec → Option CompileSpec → Prop)
    (m : Proc α) : Prop :=
  ∀ s, ∃ evs, (m s).2.trace = s.trace ++ evs ∧ (∀ e ∈ evs, P e) ∧
    Q s.compile_settings (m s).2.compile_settings

/-- The fields of the settings that the claims about `main` speak of. -/
def CompileSpec.core (cs : CompileSpec) :
    List Input × Nat × List Str × List Str × Finset DataType × Nat :=
  (cs.inputs, cs.min_block_size, cs.torch_executed_ops, cs.torch_executed_modules,
    cs.enabled_precisions, cs.device.gpu_id)

/-- A step that, when it ends the process, does so with exit status 1 after
an error entry in the log, and that raises nothing. -/
def FailsByError {α : Type} (m : Proc α) : Prop :=
  ∀ s, (m s).1 ≠ Res.threw ∧
    ∀ code, (m s).1 = Res.exit code →
      code = 1 ∧ ∃ msg, Event.log Level.kERROR msg ∈ (m s).2.trace

/-! ## Specification-side notions: tokens and numerals -/

/-- The value `parseDataType` returns on a string. -/
def dataTypeOf (dtype_str : Str) : DataType :=
  match (parseDataType dtype_str St.init).1 with
  | Res.ok dtype => dtype
  | _ => DataType.kUnknown

/-- The value `parseTensorFormat` returns on a string. -/
def tensorFormatOf (str : Str) : TensorFormat :=
  match (parseTensorFormat str St.init).1 with
  | Res.ok format => format
  | _ => TensorFormat.kUnknown

/-- A string with its ASCII capitals replaced by small letters. -/
def asciiLower (s : Str) : Str := s.map Char.toLower

/-- The names of float precision. -/
def floatNames : List Str := ["float".toList, "float32".toList, "f32".toList, "fp32".toList]

/-- The names of half precision. -/
def halfNames : List Str := ["half".toList, "float16".toList, "f16".toList, "fp16".toList]

/-- The names of 8-bit integer precision. -/
def charNames : List Str := ["char".toList, "int8".toList, "i8".toList]

/-- The names of 32-bit integer precision. -/
def intNames : List Str := ["int".toList, "int32".toList, "i32".toList]

/-- The names of the boolean type. -/
def boolNames : List Str := ["bool".toList, "b".toList]

/-- The names of the contiguous format. -/
def contiguousNames : List Str :=
  ["linear".toList, "nchw".toList, "chw".toList, "contiguous".toList]

/-- The names of the channels-last format. -/
def channelsLastNames : List Str := ["nhwc".toList, "hwc".toList, "channels_last".toList]

/-- The data type a lower-case name stands for, as a table lookup. -/
def lookupDataType (l : Str) : DataType :=
  if l ∈ floatNames then DataType.kFloat
  else if l ∈ halfNames then DataType.kHalf
  else if l ∈ charNames then DataType.kChar
  else if l ∈ intNames then DataType.kInt
  else if l ∈ boolNames then DataType.kBool
  else DataType.kUnknown

/-- The tensor format a lower-case name stands for, as a table lookup. -/
def lookupTensorFormat (l : Str) : TensorFormat :=
  if l ∈ contiguousNames then TensorFormat.kContiguous
  else if l ∈ channelsLastNames then TensorFormat.kChannelsLast
  else TensorFormat.kUnknown

/-- The decimal numeral of a natural number, as `toString` prints it. -/
def decimal (n : Nat) : Str := Nat.toDigits 10 n

/-- The text of a shape: the decimal numerals of its dimensions, separated
by commas, in parentheses. -/
def shapeText (shape : List Nat) : Str := '(' :: joinWith ',' (shape.map decimal) ++ [')']

/-- A text with its spaces removed. -/
def withoutSpaces (text : Str) : Str := text.filter fun c => c != ' '

/-- All names `parseDataType` knows. -/
def dataTypeNames : List Str := floatNames ++ halfNames ++ charNames ++ intNames ++ boolNames

/-- All names `parseTensorFormat` knows. -/
def tensorFormatNames : List Str := contiguousNames ++ channelsLastNames

/-- The example spec of the usage message `spec_err_str` (line 359). -/
def documentedSpec : Str := "(3,3,300,300)@f32%channel_last".toList

/-- The command line `torchtrtc /m.ts /o.ts "(3,3,300,300)@f32%channel_last"`. -/
def Args.documented : Args :=
  Args.positional "/m.ts".toList "/o.ts".toList [documentedSpec]

/-- The dynamic spec of three shapes: their texts joined by ";" in brackets. -/
def dynamicText (min opt max : List Nat) : Str :=
  '[' :: joinWith ';' [shapeText min, shapeText opt, shapeText max] ++ [']']

/-- The command line `torchtrtc /m.ts /o.ts
"[(3,3,100,100);(3,3,200,200);(3,3,300,300)]"`. -/
def Args.dynamic : Args :=
  Args.positional "/m.ts".toList "/o.ts".toList
    ["[(3,3,100,100);(3,3,200,200);(3,3,300,300)]".toList]

/-- An input spec in its parts: the shape text, and the dtype and the format
token when they are given. -/
structure SpecParts where
  shapes : Str
  dtype : Option Str
  format : Option Str

/-- The text of an input spec: the shape, then "@" and the dtype token, then
"%" and the format token. -/
def SpecParts.text (p : SpecParts) : Str :=
  p.shapes ++ (match p.dtype with
    | some d => '@' :: d
    | none => []) ++ (match p.format with
    | some f => '%' :: f
    | none => [])

/-- The `Input` built from the parts of a spec: the shape `parseSingleDim`
returns, with the values of `parseDataType` and `parseTensorFormat` for the
tokens given. -/
def SpecParts.input (uninit : Int) (p : SpecParts) : Input :=
  { shape := ShapeSpec.fixed (singleDim uninit p.shapes)
    dtype := p.dtype.map dataTypeOf
    format := p.format.map tensorFormatOf }

/-- The parts of a spec as the claim takes them: the shape text starts with
"(", holds a ")" and neither "@" nor "%", and the tokens given are known to
`parseDataType` and `parseTensorFormat`. Every well-formed shape text, with
or without spaces after its opening parenthesis, is such a text. -/
def SpecParts.WellFormed (p : SpecParts) : Prop :=
  startsWith p.shapes '(' = true ∧ ')' ∈ p.shapes ∧ '@' ∉ p.shapes ∧ '%' ∉ p.shapes ∧
  p.dtype.map dataTypeOf ≠ some DataType.kUnknown ∧
  p.format.map tensorFormatOf ≠ some TensorFormat.kUnknown

instance (p : SpecParts) : Decidable p.WellFormed := by
  unfold SpecParts.WellFormed
  infer_instance

/-- The parts of the spec "(3, 3, 32, 32)@f16%NHWC". -/
def SpecParts.sample : SpecParts :=
  { shapes := "(3, 3, 32, 32)".toList, dtype := some "f16".toList, format := some "NHWC".toList }

/-- The command line `torchtrtc /m.ts /o.ts "(3, 3, 32, 32)@f16%NHWC"`. -/
def Args.typed : Args :=
  Args.positional "/m.ts".toList "/o.ts".toList ["(3, 3, 32, 32)@f16%NHWC".toList]

/-- The data types that `--enabled-precision` accepts: float, half and char. -/
def DataType.isKernelPrecision : DataType → Bool
  | DataType.kFloat => true
  | DataType.kHalf => true
  | DataType.kChar => true
  | _ => false

/-- The command line `torchtrtc -p fp16 -p int32 -p int8 /m.ts /o.ts
"(3,3,32,32)"`. -/
def Args.badPrecision : Args :=
  { Args.sample with enabled_precision := ["fp16".toList, "int32".toList, "int8".toList] }

/-- The command line `torchtrtc -p FP16 -p i8 -p f32 /m.ts /o.ts "(3,3,32,32)"`. -/
def Args.precisions : Args :=
  { Args.sample with enabled_precision := ["FP16".toList, "i8".toList, "f32".toList] }

/-- The messages of the configuration errors: an input spec that starts with
neither "(" nor "[", a malformed shape, a dynamic spec without three shapes,
an unknown dtype or format token in an input spec, an unknown token of
`--enabled-precision`, `--device-type` or `--engine-capability`, exclusion
lists with `--require-full-compilation`; with them the messages that
`parseDataType` and `parseTensorFormat` log themselves on an unknown token. -/
def Msg.isConfigError : Msg → Bool
  | Msg.specErr => true
  | Msg.shapeFormat => true
  | Msg.dynamicShapeCount => true
  | Msg.invalidInputDatatype _ => true
  | Msg.invalidInputFormat _ => true
  | Msg.invalidPrecision _ => true
  | Msg.invalidTensorFormat _ => true
  | Msg.invalidEnabledPrecision _ => true
  | Msg.invalidDeviceType _ => true
  | Msg.invalidEngineCapability => true
  | Msg.opsWithFullCompilation => true
  | _ => false

/-- A log entry at error level. -/
def Event.isErrorLog : Event → Bool
  | Event.log Level.kERROR _ => true
  | _ => false

/-- A log entry at error level with the message of a configuration error. -/
def Event.isConfigError : Event → Bool
  | Event.log Level.kERROR msg => msg.isConfigError
  | _ => false

/-- A step that, when it yields a value, has appended events to the trace
of which none is a log entry at error level. -/
def OkRun {α : Type} (m : Proc α) : Prop :=
  ∀ s a s1, m s = (Res.ok a, s1) →
    ∃ evs, s1.trace = s.trace ++ evs ∧ ∀ e ∈ evs, e.isErrorLog = false

/-- The command line `torchtrtc /m.ts /o.ts "3,3,32,32"`. -/
def Args.badSpec : Args :=
  Args.positional "/m.ts".toList "/o.ts".toList ["3,3,32,32".toList]

/-- The command line `torchtrtc --device-type tpu /m.ts /o.ts "(3,3,32,32)"`. -/
def Args.badDevice : Args :=
  { Args.sample with device_type := some "tpu".toList }

/-- A call of `torchtrt::set_device`. -/
def Event.isSetDevice : Event → Bool
  | Event.set_device _ => true
  | _ => false

/-- The value of `compile_settings.device.gpu_id` after the device options
(lines 534 to 556), from its value `gpu_id` before them. -/
def selectedGpu (args : Args) (gpu_id : Nat) : Nat :=
  match args.device_type, args.gpu_id with
  | some _, some n => n
  | _, _ => gpu_id

/-- The command line `torchtrtc --gpu-id 1 /m.ts /o.ts "(3,3,32,32)"`. -/
def Args.gpuOnly : Args :=
  { Args.sample with gpu_id := some 1 }

/-- The command line `torchtrtc --device-type gpu --gpu-id 1 /m.ts /o.ts
"(3,3,32,32)"`. -/
def Args.gpuWithType : Args :=
  { Args.sample with
    device_type := some "gpu".toList
    gpu_id := some 1 }

/-- A call of `almostEqual` on an output of the two modules. -/
def Event.isAlmostEqual : Event → Bool
  | Event.almostEqual _ => true
  | _ => false

/-! ## Laws of the process monad -/

@[simp] theorem pure_eq {α : Type} (a : α) : (Pure.pure a : Proc α) = Proc.pure a := rfl

@[simp] theorem bind_eq {α β : Type} (m : Proc α) (f : α → Proc β) :
    (m >>= f) = Proc.bind m f := rfl

@[simp] theorem Proc.pure_apply {α : Type} (a : α) (s : St) : Proc.pure a s = (Res.ok a, s) := rfl

@[simp] theorem exit_apply {α : Type} (code : Nat) (s : St) :
    (exit code : Proc α) s = (Res.exit code, s) := rfl

@[simp] theorem throw_apply {α : Type} (s : St) : (throw : Proc α) s = (Res.threw, s) := rfl

@[simp] theorem emit_apply (e : Event) (s : St) :
    emit e s = (Res.ok (), { s with trace := s.trace ++ [e] }) := rfl

@[simp] theorem log_apply (lvl : Level) (msg : Msg) (s : St) :
    log lvl msg s = (Res.ok (), { s with trace := s.trace ++ [Event.log lvl msg] }) := rfl

@[simp] theorem modifySettings_apply (f : CompileSpec → CompileSpec) (s : St) :
    modifySettings f s = (Res.ok (), { s with compile_settings := s.compile_settings.map f }) :=
  rfl

theorem Proc.bind_apply {α β : Type} (m : Proc α) (f : α → Proc β) (s : St) :
    Proc.bind m f s =
      match m s with
      | (Res.ok a, s1) => f a s1
      | (Res.exit code, s1) => (Res.exit code, s1)
      | (Res.threw, s1) => (Res.threw, s1) := rfl

theorem Proc.bind_ok {α β : Type} {m : Proc α} {f : α → Proc β} {s s1 : St} {a : α}
    (h : m s = (Res.ok a, s1)) : Proc.bind m f s = f a s1 := by
  simp [Proc.bind_apply, h]

theorem Proc.bind_exit {α β : Type} {m : Proc α} {f : α → Proc β} {s s1 : St} {code : Nat}
    (h : m s = (Res.exit code, s1)) : Proc.bind m f s = (Res.exit code, s1) := by
  simp [Proc.bind_apply, h]

theorem Proc.bind_threw {α β : Type} {m : Proc α} {f : α → Proc β} {s s1 : St}
    (h : m s = (Res.threw, s1)) : Proc.bind m f s = (Res.threw, s1) := by
  simp [Proc.bind_apply, h]

/-! ## The comparison rule -/

theorem foldl_max_isGreatest (l : List ℚ) (x : ℚ) :
    IsGreatest {y | y = x ∨ y ∈ l} (l.foldl Max.max x) := by
  induction l generalizing x with
  | nil => exact ⟨Or.inl rfl, fun y hy => by rcases hy with rfl | h; exact le_rfl; simp at h⟩
  | cons a l ih =>
    obtain ⟨hmem, hub⟩ := ih (Max.max x a)
    refine ⟨?_, ?_⟩
    · rcases hmem with h | h
      · rcases max_choice x a with hx | ha
        · exact Or.inl (by rw [List.foldl_cons, h, hx])
        · exact Or.inr (by rw [List.foldl_cons, h, ha]; simp)
      · exact Or.inr (List.mem_cons_of_mem _ h)
    · intro y hy
      rcases hy with rfl | hy
      · exact le_trans (le_max_left _ _) (hub (Or.inl rfl))
      · rcases List.mem_cons.mp hy with rfl | hy
        · exact le_trans (le_max_right _ _) (hub (Or.inl rfl))
        · exact hub (Or.inr hy)

theorem Tensor.max_isGreatest (t : Tensor) (ht : t ≠ []) :
    ∃ m, t.max = some m ∧ IsGreatest {y | y ∈ t} m := by
  cases t with
  | nil => exact absurd rfl ht
  | cons x xs =>
    refine ⟨xs.foldl Max.max x, rfl, ?_⟩
    have h := foldl_max_isGreatest xs x
    refine ⟨?_, ?_⟩
    · rcases h.1 with h1 | h1
      · rw [h1]; exact List.mem_cons_self _ _
      · exact List.mem_cons_of_mem _ h1
    · intro y hy
      rcases List.mem_cons.mp hy with rfl | hy
      · exact h.2 (Or.inl rfl)
      · exact h.2 (Or.inr hy)

theorem absMax_spec (t : Tensor) (ht : t ≠ []) :
    ∃ m, IsGreatest (absValues t) m ∧ ∀ s, absMax t s = (Res.ok m, s) := by
  have hne : Tensor.abs t ≠ [] := by simpa [Tensor.abs] using ht
  obtain ⟨m, hm, hg⟩ := Tensor.max_isGreatest (Tensor.abs t) hne
  refine ⟨m, ?_, fun s => by simp [absMax, hm]⟩
  refine ⟨?_, ?_⟩
  · have := hg.1
    simp only [Tensor.abs, Set.mem_setOf_eq, List.mem_map] at this
    obtain ⟨y, hy, rfl⟩ := this
    exact ⟨y, hy, rfl⟩
  · rintro x ⟨y, hy, rfl⟩
    exact hg.2 (by simp only [Tensor.abs, Set.mem_setOf_eq, List.mem_map]; exact ⟨y, hy, rfl⟩)

theorem checkRtolLoop_spec (inputs : List Tensor) (hin : ∀ t ∈ inputs, t ≠ []) (maxValue : ℚ) :
    ∃ m, IsGreatest {x | x = maxValue ∨ ∃ t ∈ inputs, x ∈ absValues t} m ∧
      ∀ s, checkRtolLoop inputs maxValue s = (Res.ok m, s) := by
  induction inputs generalizing maxValue with
  | nil =>
    refine ⟨maxValue, ⟨Or.inl rfl, ?_⟩, fun s => rfl⟩
    rintro x (rfl | ⟨t, ht, _⟩)
    · exact le_rfl
    · simp at ht
  | cons t rest ih =>
    obtain ⟨mt, hmt, hrun⟩ := absMax_spec t (hin t (List.mem_cons_self _ _))
    obtain ⟨m, hm, hloop⟩ := ih (fun u hu => hin u (List.mem_cons_of_mem _ hu)) (Max.max mt maxValue)
    refine ⟨m, ⟨?_, ?_⟩, fun s => ?_⟩
    · rcases hm.1 with h | ⟨u, hu, hx⟩
      · rcases max_choice mt maxValue with h1 | h1
        · exact Or.inr ⟨t, List.mem_cons_self _ _, by rw [h, h1]; exact hmt.1⟩
        · exact Or.inl (by rw [h, h1])
      · exact Or.inr ⟨u, List.mem_cons_of_mem _ hu, hx⟩
    · rintro x (rfl | ⟨u, hu, hx⟩)
      · exact le_trans (le_max_right _ _) (hm.2 (Or.inl rfl))
      · rcases List.mem_cons.mp hu with rfl | hu
        · exact le_trans (le_trans (hmt.2 hx) (le_max_left _ _)) (hm.2 (Or.inl rfl))
        · exact hm.2 (Or.inr ⟨u, hu, hx⟩)
    · simp [checkRtolLoop, Proc.bind_apply, hrun, hloop]

theorem checkRtol_spec (diff : Tensor) (inputs : List Tensor) (threshold : ℚ)
    (hd : diff ≠ []) (hin : ∀ t ∈ inputs, t ≠ []) :
    ∃ D M, IsGreatest (absValues diff) D ∧ IsGreatest (absValuesWithZero inputs) M ∧
      ∀ s, checkRtol diff inputs threshold s =
        (Res.ok (decide (D ≤ threshold * M)),
          { s with trace := s.trace ++ [Event.log Level.kDEBUG (Msg.maxDifference D),
              Event.log Level.kDEBUG (Msg.acceptableThreshold threshold)] }) := by
  obtain ⟨D, hD, hrunD⟩ := absMax_spec diff hd
  obtain ⟨M, hM, hrunM⟩ := checkRtolLoop_spec inputs hin 0
  refine ⟨D, M, hD, hM, fun s => ?_⟩
  simp [checkRtol, Proc.bind_apply, hrunD, hrunM]

theorem zipWith_sub_eq_map (a b : Tensor) :
    List.zipWith (fun x y => x - y) a b = (a.zip b).map fun p => p.1 - p.2 := by
  induction a generalizing b with
  | nil => simp
  | cons x xs ih =>
    cases b with
    | nil => simp
    | cons y ys => simp [ih]

theorem absValues_sub (a b : Tensor) :
    absValues (List.zipWith (fun x y => x - y) a b) = absDifferences a b := by
  ext x
  rw [zipWith_sub_eq_map]
  simp only [absValues, absDifferences, Set.mem_setOf_eq, List.mem_map]
  constructor
  · rintro ⟨y, ⟨p, hp, rfl⟩, rfl⟩
    exact ⟨p, hp, rfl⟩
  · rintro ⟨p, hp, rfl⟩
    exact ⟨_, ⟨p, hp, rfl⟩, rfl⟩

theorem absValuesWithZero_pair (a b : Tensor) (Ma Mb M : ℚ)
    (ha : IsGreatest (absValues a) Ma) (hb : IsGreatest (absValues b) Mb)
    (hM : IsGreatest (absValuesWithZero [a, b]) M) : M = Max.max Ma Mb := by
  apply le_antisymm
  · rcases hM.1 with h | ⟨t, ht, hx⟩
    · obtain ⟨y, _, hy⟩ := ha.1
      rw [h]
      exact le_trans (by rw [hy]; exact abs_nonneg y) (le_max_left _ _)
    · simp only [List.mem_cons, List.mem_singleton, List.not_mem_nil, or_false] at ht
      rcases ht with rfl | rfl
      · exact le_trans (ha.2 hx) (le_max_left _ _)
      · exact le_trans (hb.2 hx) (le_max_right _ _)
  · apply max_le
    · exact hM.2 (Or.inr ⟨a, by simp, ha.1⟩)
    · exact hM.2 (Or.inr ⟨b, by simp, hb.1⟩)

/-- C1. For non-empty tensors `a` and `b` of one shape and every threshold,
`almostEqual` returns true exactly when the largest absolute difference is
at most the threshold times the larger of the largest absolute elements of
`a` and of `b`; and `checkRtol` on a non-empty `diff` and non-empty inputs
returns true exactly when the largest absolute element of `diff` is at most
the threshold times the largest of 0 and the absolute elements of the inputs. -/
theorem almostEqual_iff_relative_tolerance (a b diff : Tensor) (inputs : List Tensor)
    (threshold : ℚ) (s : St) (ha : a ≠ []) (hab : a.length = b.length)
    (hd : diff ≠ []) (hin : ∀ t ∈ inputs, t ≠ []) :
    (∃ D Ma Mb, IsGreatest (absDifferences a b) D ∧ IsGreatest (absValues a) Ma ∧
        IsGreatest (absValues b) Mb ∧
        (almostEqual a b threshold s).1 = Res.ok (decide (D ≤ threshold * Max.max Ma Mb))) ∧
    (∃ D M, IsGreatest (absValues diff) D ∧ IsGreatest (absValuesWithZero inputs) M ∧
        (checkRtol diff inputs threshold s).1 = Res.ok (decide (D ≤ threshold * M))) := by
  constructor
  · have hb : b ≠ [] := by
      intro h
      rw [h] at hab
      exact ha (List.length_eq_zero.mp hab)
    have hdiff : List.zipWith (fun x y => x - y) a b ≠ [] := by
      cases a with
      | nil => exact absurd rfl ha
      | cons x xs =>
        cases b with
        | nil => exact absurd rfl hb
        | cons y ys => simp
    obtain ⟨D, M, hD, hM, hrun⟩ :=
      checkRtol_spec (List.zipWith (fun x y => x - y) a b) [a, b] threshold hdiff
        (by intro t ht; simp at ht; rcases ht with rfl | rfl <;> assumption)
    obtain ⟨Ma, hMa, _⟩ := absMax_spec a ha
    obtain ⟨Mb, hMb, _⟩ := absMax_spec b hb
    rw [absValues_sub] at hD
    refine ⟨D, Ma, Mb, hD, hMa, hMb, ?_⟩
    rw [← absValuesWithZero_pair a b Ma Mb M hMa hMb hM]
    simp [almostEqual, Tensor.sub, hab, Proc.bind_apply, hrun]
  · obtain ⟨D, M, hD, hM, hrun⟩ := checkRtol_spec diff inputs threshold hd hin
    exact ⟨D, M, hD, hM, by rw [hrun]⟩

/-- The hypotheses of `almostEqual_iff_relative_tolerance` hold of the
tensors (1, -2) and (1, 3). -/
theorem almostEqual_iff_relative_tolerance_witness :
    ([1, -2] : Tensor) ≠ [] ∧ ([1, -2] : Tensor).length = ([1, 3] : Tensor).length ∧
    ([0, -5] : Tensor) ≠ [] ∧ (∀ t ∈ ([[1, -2], [1, 3]] : List Tensor), t ≠ []) ∧
    ((∃ D Ma Mb, IsGreatest (absDifferences [1, -2] [1, 3]) D ∧ IsGreatest (absValues [1, -2]) Ma ∧
        IsGreatest (absValues [1, 3]) Mb ∧
        (almostEqual [1, -2] [1, 3] (1 / 2) St.init).1
          = Res.ok (decide (D ≤ 1 / 2 * Max.max Ma Mb))) ∧
    (∃ D M, IsGreatest (absValues [0, -5]) D ∧
        IsGreatest (absValuesWithZero [[1, -2], [1, 3]]) M ∧
        (checkRtol [0, -5] [[1, -2], [1, 3]] (1 / 2) St.init).1
          = Res.ok (decide (D ≤ 1 / 2 * M)))) :=
  ⟨by simp, by simp, by simp, by simp,
    almostEqual_iff_relative_tolerance [1, -2] [1, 3] [0, -5] [[1, -2], [1, 3]] (1 / 2) St.init
      (by simp) (by simp) (by simp) (by simp)⟩

/-! ## Steps: trace extension and frames -/

section StepRules

variable {α β : Type} {P : Event → Prop} {Q : Option CompileSpec → Option CompileSpec → Prop}

theorem step_pure [Frame Q] (a : α) : Step P Q (Proc.pure a) := fun s =>
  ⟨[], by simp, by simp, Frame.refl _⟩

theorem step_exit [Frame Q] (code : Nat) : Step P Q (exit code : Proc α) := fun s =>
  ⟨[], by simp, by simp, Frame.refl _⟩

theorem step_throw [Frame Q] : Step P Q (throw : Proc α) := fun s =>
  ⟨[], by simp, by simp, Frame.refl _⟩

theorem step_emit [Frame Q] (e : Event) (he : P e) : Step P Q (emit e) := fun s =>
  ⟨[e], by simp, by simpa using he, Frame.refl _⟩

theorem step_log [Frame Q] (lvl : Level) (msg : Msg) (he : P (Event.log lvl msg)) :
    Step P Q (log lvl msg) :=
  step_emit _ he

theorem step_modifySettings (f : CompileSpec → CompileSpec) (hf : ∀ o, Q o (o.map f)) :
    Step P Q (modifySettings f) := fun s =>
  ⟨[], by simp, by simp, hf _⟩

theorem step_bind [Frame Q] {m : Proc α} {f : α → Proc β} (hm : Step P Q m)
    (hf : ∀ a, Step P Q (f a)) : Step P Q (Proc.bind m f) := by
  intro s
  obtain ⟨evs, hs, hP, hQ⟩ := hm s
  rw [Proc.bind_apply]
  rcases hres : m s with ⟨r, s1⟩
  rw [hres] at hs hQ
  simp only at hs hQ
  cases r with
  | ok a =>
    obtain ⟨evs2, hs2, hP2, hQ2⟩ := hf a s1
    refine ⟨evs ++ evs2, ?_, ?_, ?_⟩
    · simp only [hs2, hs, List.append_assoc]
    · intro e he
      rcases List.mem_append.mp he with h | h
      · exact hP e h
      · exact hP2 e h
    · exact Frame.trans _ _ _ hQ hQ2
  | exit code => exact ⟨evs, hs, hP, hQ⟩
  | threw => exact ⟨evs, hs, hP, hQ⟩

theorem step_ite {c : Prop} [Decidable c] {x y : Proc α} (hx : Step P Q x) (hy : Step P Q y) :
    Step P Q (if c then x else y) := by
  split
  · exact hx
  · exact hy

theorem step_weaken {P2 : Event → Prop} {Q2 : Option CompileSpec → Option CompileSpec → Prop}
    {m : Proc α} (hm : Step P Q m) (hP : ∀ e, P e → P2 e) (hQ : ∀ o1 o2, Q o1 o2 → Q2 o1 o2) :
    Step P2 Q2 m := by
  intro s
  obtain ⟨evs, hs, hPe, hQg⟩ := hm s
  exact ⟨evs, hs, fun e he => hP e (hPe e he), hQ _ _ hQg⟩

theorem step_of_unchanged [Frame Q] {m : Proc α} (hm : Step P Unchanged m) : Step P Q m :=
  step_weaken hm (fun _ h => h) (fun o1 o2 h => by
    unfold Unchanged at h
    rw [h]
    exact Frame.refl _)

end StepRules

section FailRules

variable {α β : Type}

theorem fails_pure (a : α) : FailsByError (Proc.pure a) := fun s =>
  ⟨by simp, by simp⟩

theorem fails_emit (e : Event) : FailsByError (emit e) := fun s =>
  ⟨by simp, by simp⟩

theorem fails_log (lvl : Level) (msg : Msg) : FailsByError (log lvl msg) := fun s =>
  ⟨by simp, by simp⟩

theorem fails_modifySettings (f : CompileSpec → CompileSpec) :
    FailsByError (modifySettings f) := fun s =>
  ⟨by simp, by simp⟩

theorem fails_bind {m : Proc α} {f : α → Proc β} (hm : FailsByError m)
    (hf : ∀ a, FailsByError (f a)) : FailsByError (Proc.bind m f) := by
  intro s
  have h1 := hm s
  rw [Proc.bind_apply]
  rcases hres : m s with ⟨r, s1⟩
  rw [hres] at h1
  cases r with
  | ok a => exact hf a s1
  | exit code => simpa using h1
  | threw => exact absurd rfl h1.1

theorem fails_ite {c : Prop} [Decidable c] {x y : Proc α} (hx : FailsByError x)
    (hy : FailsByError y) : FailsByError (if c then x else y) := by
  split
  · exact hx
  · exact hy

/-- An error entry followed by `exit(1)`. -/
theorem fails_error_exit (msg : Msg) :
    FailsByError (Proc.bind (log Level.kERROR msg) fun _ => (exit 1 : Proc α)) := by
  intro s
  simp only [Proc.bind_apply, log_apply, exit_apply, ne_eq, reduceCtorEq, not_false_eq_true,
    Res.exit.injEq, true_and]
  intro code hcode
  exact ⟨hcode.symm, msg, by simp⟩

/-- An error entry followed by the usage text and `exit(1)`. -/
theorem fails_error_usage_exit (msg : Msg) :
    FailsByError (Proc.bind (log Level.kERROR msg) fun _ =>
      Proc.bind (emit Event.usage) fun _ => (exit 1 : Proc α)) := by
  intro s
  simp only [Proc.bind_apply, log_apply, emit_apply, exit_apply, ne_eq, reduceCtorEq,
    not_false_eq_true, Res.exit.injEq, true_and]
  intro code hcode
  exact ⟨hcode.symm, msg, by simp⟩

end FailRules

/-! ## Shape parsers -/

theorem find_eq_none {g : Str} {c : Char} (h : c ∉ g) : find g c = none := by
  induction g with
  | nil => rfl
  | cons x xs ih =>
    have hx : x ≠ c := fun e => h (e ▸ List.mem_cons_self _ _)
    have hxs : c ∉ xs := fun e => h (List.mem_cons_of_mem _ e)
    simp [find, hx, ih hxs]

theorem find_append {g : Str} {c : Char} (rest : Str) (h : c ∉ g) :
    find (g ++ c :: rest) c = some g.length := by
  induction g with
  | nil => simp [find]
  | cons x xs ih =>
    have hx : x ≠ c := fun e => h (e ▸ List.mem_cons_self _ _)
    have hxs : c ∉ xs := fun e => h (List.mem_cons_of_mem _ e)
    simp [find, hx, ih hxs]

theorem find_lt_length {g : Str} {c : Char} {i : Nat} (h : find g c = some i) : i < g.length := by
  induction g generalizing i with
  | nil => simp [find] at h
  | cons x xs ih =>
    by_cases hx : x = c
    · simp [find, hx] at h
      subst h
      simp
    · simp only [find, hx, if_false, Option.map_eq_some'] at h
      obtain ⟨j, hj, rfl⟩ := h
      simpa using ih hj

theorem substr_of_le (s : Str) (pos count : Nat) (h : pos ≤ s.length) :
    substr s pos count = Proc.pure ((s.drop pos).take count) := by
  simp [substr, Nat.not_lt.mpr h]

theorem parseSingleDimLoop_of_mem (uninit : Int) (cs : Str) (h : ')' ∈ cs) (shape : List Int)
    (ss : Str) : ∃ r, parseSingleDimLoop uninit cs shape ss = some r := by
  induction cs generalizing shape ss with
  | nil => simp at h
  | cons c cs ih =>
    unfold parseSingleDimLoop
    by_cases h1 : c = '(' ∨ c = ' '
    · have hc : ')' ∈ cs := by
        rcases List.mem_cons.mp h with e | e
        · rcases h1 with h1 | h1 <;> rw [h1] at e <;> exact absurd e (by decide)
        · exact e
      simp only [h1, if_true]
      exact ih hc _ _
    · simp only [h1, if_false]
      by_cases h2 : c = ','
      · have hc : ')' ∈ cs := by
          rcases List.mem_cons.mp h with e | e
          · rw [h2] at e; exact absurd e (by decide)
          · exact e
        simp only [h2, if_true]
        exact ih hc _ _
      · simp only [h2, if_false]
        by_cases h3 : c = ')'
        · simp only [h3, if_true]
          exact ⟨_, rfl⟩
        · have hc : ')' ∈ cs := by
            rcases List.mem_cons.mp h with e | e
            · exact absurd e.symm h3
            · exact e
          simp only [h3, if_false]
          exact ih hc _ _

theorem parseSingleDimLoop_of_not_mem (uninit : Int) (cs : Str) (h : ')' ∉ cs) (shape : List Int)
    (ss : Str) : parseSingleDimLoop uninit cs shape ss = none := by
  induction cs generalizing shape ss with
  | nil => rfl
  | cons c cs ih =>
    have hc : c ≠ ')' := fun e => h (e ▸ List.mem_cons_self _ _)
    have hcs : ')' ∉ cs := fun e => h (List.mem_cons_of_mem _ e)
    unfold parseSingleDimLoop
    split
    · exact ih hcs _ _
    · split
      · exact ih hcs _ _
      · exact ih hcs _ _

/-- The function `parseSingleDim` returns a shape exactly for the strings
that hold a closing parenthesis, and leaves the state alone then. -/
theorem parseSingleDim_of_mem (uninit : Int) (cs : Str) (h : ')' ∈ cs) (s : St) :
    parseSingleDim uninit cs s = (Res.ok (singleDim uninit cs), s) := by
  obtain ⟨r, hr⟩ := parseSingleDimLoop_of_mem uninit cs h [] []
  simp [parseSingleDim, singleDim, hr]

theorem parseSingleDim_of_not_mem (uninit : Int) (cs : Str) (h : ')' ∉ cs) (s : St) :
    parseSingleDim uninit cs s =
      (Res.exit 1, { s with trace := s.trace ++ [Event.log Level.kERROR Msg.shapeFormat] }) := by
  simp [parseSingleDim, parseSingleDimLoop_of_not_mem uninit cs h, Proc.bind_apply]

theorem joinWith_cons_cons (sep : Char) (g g2 : Str) (rest : List Str) :
    joinWith sep (g :: g2 :: rest) = g ++ sep :: joinWith sep (g2 :: rest) := rfl

theorem length_le_joinWith (sep : Char) (gs : List Str) :
    gs.length ≤ (joinWith sep gs).length + 1 := by
  induction gs with
  | nil => simp
  | cons g rest ih =>
    cases rest with
    | nil => simp
    | cons g2 rest =>
      rw [joinWith_cons_cons]
      simp only [List.length_cons, List.length_append] at ih ⊢
      omega

/-- The `while` loop of `parseDynamicDim` on groups joined by ";": it parses
every group but the last, which it leaves in `shape_str`. -/
theorem parseDynamicDimLoop_joinWith (uninit : Int) (gs : List Str) (hne : gs ≠ [])
    (hg : ∀ g ∈ gs, ')' ∈ g ∧ ';' ∉ g) (fuel : Nat) (hfuel : gs.length ≤ fuel + 1)
    (shape : List (List Int)) :
    ∀ s, parseDynamicDimLoop uninit fuel (joinWith ';' gs) shape s =
      (Res.ok (gs.getLast hne, shape ++ gs.dropLast.map (singleDim uninit)), s) := by
  induction gs generalizing fuel shape with
  | nil => exact absurd rfl hne
  | cons g rest ih =>
    cases rest with
    | nil =>
      intro s
      have hnone : find g ';' = none := find_eq_none (hg g (List.mem_cons_self _ _)).2
      cases fuel with
      | zero => simp [parseDynamicDimLoop, joinWith]
      | succ f => simp [parseDynamicDimLoop, joinWith, hnone]
    | cons g2 rest =>
      cases fuel with
      | zero => simp at hfuel
      | succ f =>
        obtain ⟨hclose, hsemi⟩ := hg g (List.mem_cons_self _ _)
        have hr := parseSingleDim_of_mem uninit g hclose
        have hrun :=
          ih (List.cons_ne_nil _ _) (fun x hx => hg x (List.mem_cons_of_mem _ hx)) f
            (by simp only [List.length_cons] at hfuel ⊢; omega) (shape ++ [singleDim uninit g])
        intro s
        rw [joinWith_cons_cons]
        unfold parseDynamicDimLoop
        simp only [find_append _ hsemi, bind_eq, pure_eq]
        rw [substr_of_le _ _ _ (Nat.zero_le _)]
        simp only [Proc.bind_apply, Proc.pure_apply, List.drop_zero, List.take_left', hr]
        rw [show List.drop (g.length + 1) (g ++ ';' :: joinWith ';' (g2 :: rest))
              = joinWith ';' (g2 :: rest) by
            rw [List.drop_append_eq_append_drop]
            simp]
        rw [hrun]
        simp [List.getLast_cons]

theorem IsShapeText.mem_close {g : Str} (h : IsShapeText g) : ')' ∈ g := by
  obtain ⟨tokens, _, _, rfl⟩ := h
  simp

theorem not_mem_joinWith {c sep : Char} (hsep : c ≠ sep) (gs : List Str)
    (h : ∀ g ∈ gs, c ∉ g) : c ∉ joinWith sep gs := by
  induction gs with
  | nil => simp [joinWith]
  | cons g rest ih =>
    cases rest with
    | nil => simpa [joinWith] using h g (List.mem_cons_self _ _)
    | cons g2 rest =>
      rw [joinWith_cons_cons]
      simp only [List.mem_append, List.mem_cons, not_or]
      exact ⟨h g (List.mem_cons_self _ _), hsep,
        ih (fun x hx => h x (List.mem_cons_of_mem _ hx))⟩

theorem IsShapeText.not_mem {g : Str} (h : IsShapeText g) {c : Char} (h1 : c ≠ '(')
    (h2 : c ≠ ')') (h3 : c ≠ ',') (h4 : isdigit c = false) : c ∉ g := by
  obtain ⟨tokens, _, hdig, rfl⟩ := h
  have hj : c ∉ joinWith ',' tokens := by
    apply not_mem_joinWith h3
    intro t ht hmem
    have := (hdig t ht).2 _ hmem
    rw [h4] at this
    exact absurd this (by decide)
  simp only [List.mem_cons, List.mem_append, List.not_mem_nil, or_false, not_or]
  exact ⟨⟨h1, hj⟩, h2⟩

theorem IsShapeText.not_mem_semicolon {g : Str} (h : IsShapeText g) : ';' ∉ g :=
  h.not_mem (by decide) (by decide) (by decide) (by decide)

/-- What `parseDynamicDim` does on "[" g1 ";" ... ";" gn "]" when every
group holds a closing parenthesis and no semicolon. -/
theorem parseDynamicDim_joinWith (uninit : Int) (gs : List Str) (hne : gs ≠ [])
    (hg : ∀ g ∈ gs, ')' ∈ g ∧ ';' ∉ g) :
    ∀ s, parseDynamicDim uninit ('[' :: joinWith ';' gs ++ [']']) s =
      if gs.length = 3 then (Res.ok (gs.map (singleDim uninit)), s)
      else (Res.exit 1,
        { s with trace := s.trace ++ [Event.log Level.kERROR Msg.dynamicShapeCount] }) := by
  have hloop :=
    parseDynamicDimLoop_joinWith uninit gs hne hg (joinWith ';' gs).length
      (length_le_joinWith ';' gs) []
  have hr := parseSingleDim_of_mem uninit (gs.getLast hne) (hg _ (List.getLast_mem hne)).1
  have hmap : gs.dropLast.map (singleDim uninit) ++ [singleDim uninit (gs.getLast hne)]
      = gs.map (singleDim uninit) := by
    conv_rhs => rw [← List.dropLast_append_getLast hne]
    simp
  have hlen : (gs.dropLast.map (singleDim uninit)).length + 1 = gs.length := by
    rw [← List.length_map gs (singleDim uninit), ← hmap]
    simp
  intro s
  have hsub : substr ('[' :: joinWith ';' gs ++ [']']) 1
      (subSize ('[' :: joinWith ';' gs ++ [']']).length 2) = Proc.pure (joinWith ';' gs) := by
    rw [substr_of_le _ _ _ (by simp)]
    have h2 : subSize ('[' :: joinWith ';' gs ++ [']']).length 2 = (joinWith ';' gs).length := by
      simp [subSize]
    rw [h2]
    simp
  unfold parseDynamicDim
  simp only [bind_eq, pure_eq]
  rw [hsub]
  simp only [Proc.bind_apply, Proc.pure_apply, hloop, hr, List.nil_append, List.length_append,
    List.length_singleton, hlen, hmap]
  by_cases h3 : gs.length = 3
  · simp [h3]
  · simp [h3, Proc.bind_apply]

/-- C5. For a dynamic shape spec "[" g1 ";" ... ";" gn "]" of n >= 1
well-formed shape texts, `parseDynamicDim` returns a result exactly when
n = 3, and the result then holds three shapes; for every other n it logs
the error on the number of shapes and ends the process with exit status 1. -/
theorem parseDynamicDim_three_shapes (uninit : Int) (gs : List Str) (s : St) (hne : gs ≠ [])
    (hg : ∀ g ∈ gs, IsShapeText g) :
    ((∃ shape, (parseDynamicDim uninit ('[' :: joinWith ';' gs ++ [']']) s).1 = Res.ok shape)
        ↔ gs.length = 3) ∧
    (gs.length = 3 → ∃ shape : List (List Int), shape.length = 3 ∧
        parseDynamicDim uninit ('[' :: joinWith ';' gs ++ [']']) s = (Res.ok shape, s)) ∧
    (gs.length ≠ 3 →
      parseDynamicDim uninit ('[' :: joinWith ';' gs ++ [']']) s =
        (Res.exit 1,
          { s with trace := s.trace ++ [Event.log Level.kERROR Msg.dynamicShapeCount] })) := by
  have hrun := parseDynamicDim_joinWith uninit gs hne
    (fun g hgm => ⟨(hg g hgm).mem_close, (hg g hgm).not_mem_semicolon⟩)
  refine ⟨⟨?_, ?_⟩, ?_, ?_⟩
  · rintro ⟨sh, hsh⟩
    by_contra h3
    rw [hrun s, if_neg h3] at hsh
    exact absurd hsh (by simp)
  · intro h3
    exact ⟨gs.map (singleDim uninit), by rw [hrun s, if_pos h3]⟩
  · intro h3
    exact ⟨gs.map (singleDim uninit), by rw [List.length_map, h3], by rw [hrun s, if_pos h3]⟩
  · intro h3
    rw [hrun s, if_neg h3]

/-- The hypotheses of `parseDynamicDim_three_shapes` hold of the groups of
"[(3,3,100,100);(3,3,200,200);(3,3,300,300)]". -/
theorem parseDynamicDim_three_shapes_witness :
    (["(3,3,100,100)".toList, "(3,3,200,200)".toList, "(3,3,300,300)".toList] : List Str) ≠ [] ∧
    (∀ g ∈ (["(3,3,100,100)".toList, "(3,3,200,200)".toList, "(3,3,300,300)".toList] : List Str),
      IsShapeText g) ∧
    (∃ shape : List (List Int), shape.length = 3 ∧
      parseDynamicDim 0 "[(3,3,100,100);(3,3,200,200);(3,3,300,300)]".toList St.init
        = (Res.ok shape, St.init)) := by
  have hg : ∀ g ∈ (["(3,3,100,100)".toList, "(3,3,200,200)".toList, "(3,3,300,300)".toList]
      : List Str), IsShapeText g := by
    intro g hmem
    simp only [List.mem_cons, List.mem_singleton, List.not_mem_nil, or_false] at hmem
    rcases hmem with rfl | rfl | rfl
    · exact ⟨["3".toList, "3".toList, "100".toList, "100".toList], by decide, by decide, by decide⟩
    · exact ⟨["3".toList, "3".toList, "200".toList, "200".toList], by decide, by decide, by decide⟩
    · exact ⟨["3".toList, "3".toList, "300".toList, "300".toList], by decide, by decide, by decide⟩
  exact ⟨by decide, hg,
    (parseDynamicDim_three_shapes 0 _ St.init (by decide) hg).2.1 (by decide)⟩

/-! ## The input specs -/

/-- C6 fails on the code. The spec
"[(3,3,300,300);(3,3,200,200);(3,3,100,100)]", whose minimum exceeds its
optimum and its maximum, is accepted by the loop over the input
specs: the three shapes are passed on as an `Input` in the order written,
and `main` hands that `Input` to the compiler and saves the result. -/
theorem descending_range_accepted :
    ¬ ((300 : Int) ≤ 200 ∧ (200 : Int) ≤ 100) ∧
    (parseInputSpecs (Env.sample [] [])
        ["[(3,3,300,300);(3,3,200,200);(3,3,100,100)]".toList] [] St.init).1
      = Res.ok [{ shape := ShapeSpec.range [3, 3, 300, 300] [3, 3, 200, 200] [3, 3, 100, 100],
                  dtype := none, format := none }] ∧
    Event.compile { CompileSpec.sample with
        inputs := [{ shape := ShapeSpec.range [3, 3, 300, 300] [3, 3, 200, 200] [3, 3, 100, 100],
                     dtype := none, format := none }] }
      ∈ (main (Args.positional "/m.ts".toList "/o.ts".toList
            ["[(3,3,300,300);(3,3,200,200);(3,3,100,100)]".toList])
          (Env.sample [] []) St.init).2.trace ∧
    (main (Args.positional "/m.ts".toList "/o.ts".toList
          ["[(3,3,300,300);(3,3,200,200);(3,3,100,100)]".toList])
        (Env.sample [] []) St.init).1 = Res.exit 0 := by
  refine ⟨by decide, by decide, by decide, by decide⟩

/-- The body of the loop over the input specs on three well-formed shape
texts separated by semicolons in brackets. -/
theorem parseInputSpec_dynamic (env : Env) (g1 g2 g3 : Str) (s : St)
    (h1 : IsShapeText g1) (h2 : IsShapeText g2) (h3 : IsShapeText g3) :
    parseInputSpec env ('[' :: joinWith ';' [g1, g2, g3] ++ [']']) s =
      (Res.ok { shape := ShapeSpec.range (singleDim env.uninit g1) (singleDim env.uninit g2)
                  (singleDim env.uninit g3), dtype := none, format := none },
        { s with trace := s.trace ++ [Event.log Level.kDEBUG (Msg.parsedInput
            { shape := ShapeSpec.range (singleDim env.uninit g1) (singleDim env.uninit g2)
                (singleDim env.uninit g3), dtype := none, format := none })] }) := by
  have hg : ∀ g ∈ [g1, g2, g3], IsShapeText g := by
    intro g hmem
    simp only [List.mem_cons, List.mem_singleton, List.not_mem_nil, or_false] at hmem
    rcases hmem with rfl | rfl | rfl <;> assumption
  have hnot : ∀ c : Char, c ≠ '(' → c ≠ ')' → c ≠ ',' → isdigit c = false → c ≠ ';' →
      c ≠ '[' → c ≠ ']' → c ∉ ('[' :: joinWith ';' [g1, g2, g3] ++ [']']) := by
    intro c c1 c2 c3 c4 c5 c6 c7
    have hj : c ∉ joinWith ';' [g1, g2, g3] :=
      not_mem_joinWith c5 _ (fun g hgm => (hg g hgm).not_mem c1 c2 c3 c4)
    simp only [List.mem_cons, List.mem_append, List.not_mem_nil, or_false, not_or]
    exact ⟨⟨c6, hj⟩, c7⟩
  have hat := find_eq_none (hnot '@' (by decide) (by decide) (by decide) (by decide) (by decide)
    (by decide) (by decide))
  have hpc := find_eq_none (hnot '%' (by decide) (by decide) (by decide) (by decide) (by decide)
    (by decide) (by decide))
  have hdyn := parseDynamicDim_joinWith env.uninit [g1, g2, g3] (by simp)
    (fun g hgm => ⟨(hg g hgm).mem_close, (hg g hgm).not_mem_semicolon⟩)
  simp only [List.length_cons, List.length_nil, if_true] at hdyn
  have hp : startsWith ('[' :: joinWith ';' [g1, g2, g3] ++ [']']) '(' = false := by
    simp [startsWith]
  have hb : startsWith ('[' :: joinWith ';' [g1, g2, g3] ++ [']']) '[' = true := by
    simp [startsWith]
  generalize ('[' :: joinWith ';' [g1, g2, g3] ++ [']']) = spec at hat hpc hdyn hp hb ⊢
  have hmk : makeInput env spec none none s =
      (Res.ok { shape := ShapeSpec.range (singleDim env.uninit g1) (singleDim env.uninit g2)
                  (singleDim env.uninit g3), dtype := none, format := none }, s) := by
    unfold makeInput
    rw [hp, hb]
    simp [Proc.bind_apply, hdyn]
  unfold parseInputSpec
  simp only [hat, hpc, bind_eq, pure_eq, Proc.bind_apply, hmk, log_apply, Proc.pure_apply]

/-- C6, as the code has it. For every dynamic input spec "[" min ";" opt ";"
max "]" of three well-formed shape texts, whatever the order of their
dimensions, the loop over the input specs rejects nothing: the spec yields
the `Input` whose minimum, optimal and maximum shapes are the first, second
and third shape as `parseSingleDim` reads them, and one debug log entry. -/
theorem dynamic_spec_passed_on_unchecked (env : Env) (g1 g2 g3 : Str) (s : St)
    (h1 : IsShapeText g1) (h2 : IsShapeText g2) (h3 : IsShapeText g3) :
    parseInputSpec env ('[' :: joinWith ';' [g1, g2, g3] ++ [']']) s =
      (Res.ok { shape := ShapeSpec.range (singleDim env.uninit g1) (singleDim env.uninit g2)
                  (singleDim env.uninit g3), dtype := none, format := none },
        { s with trace := s.trace ++ [Event.log Level.kDEBUG (Msg.parsedInput
            { shape := ShapeSpec.range (singleDim env.uninit g1) (singleDim env.uninit g2)
                (singleDim env.uninit g3), dtype := none, format := none })] }) :=
  parseInputSpec_dynamic env g1 g2 g3 s h1 h2 h3

/-- The hypotheses of `dynamic_spec_passed_on_unchecked` hold of the three
shape texts of "[(3,3,300,300);(3,3,200,200);(3,3,100,100)]". -/
theorem dynamic_spec_passed_on_unchecked_witness :
    IsShapeText "(3,3,300,300)".toList ∧ IsShapeText "(3,3,200,200)".toList ∧
    IsShapeText "(3,3,100,100)".toList ∧
    (parseInputSpec (Env.sample [] []) "[(3,3,300,300);(3,3,200,200);(3,3,100,100)]".toList
        St.init).1 =
      Res.ok { shape := ShapeSpec.range (singleDim 0 "(3,3,300,300)".toList)
                 (singleDim 0 "(3,3,200,200)".toList) (singleDim 0 "(3,3,100,100)".toList),
               dtype := none, format := none } := by
  have h1 : IsShapeText "(3,3,300,300)".toList :=
    ⟨["3".toList, "3".toList, "300".toList, "300".toList], by decide, by decide, by decide⟩
  have h2 : IsShapeText "(3,3,200,200)".toList :=
    ⟨["3".toList, "3".toList, "200".toList, "200".toList], by decide, by decide, by decide⟩
  have h3 : IsShapeText "(3,3,100,100)".toList :=
    ⟨["3".toList, "3".toList, "100".toList, "100".toList], by decide, by decide, by decide⟩
  exact ⟨h1, h2, h3,
    congrArg Prod.fst (dynamic_spec_passed_on_unchecked (Env.sample [] []) _ _ _ St.init h1 h2 h3)⟩

/-! ## The configuration phase: events, outcomes, frames -/

theorem step_parseDataType (str : Str) : Step Setup Unchanged (parseDataType str) := by
  unfold parseDataType
  simp only [bind_eq, pure_eq]
  repeat' first
    | apply step_pure
    | (apply step_log; rfl)
    | apply step_ite

theorem fails_parseDataType (str : Str) : FailsByError (parseDataType str) := by
  unfold parseDataType
  simp only [bind_eq, pure_eq]
  repeat' first
    | apply fails_pure
    | apply fails_log
    | apply fails_ite
    | apply fails_bind
    | intro _

theorem step_parseTensorFormat (str : Str) : Step Setup Unchanged (parseTensorFormat str) := by
  unfold parseTensorFormat
  simp only [bind_eq, pure_eq]
  repeat' first
    | apply step_pure
    | (apply step_log; rfl)
    | apply step_ite

theorem fails_parseTensorFormat (str : Str) : FailsByError (parseTensorFormat str) := by
  unfold parseTensorFormat
  simp only [bind_eq, pure_eq]
  repeat' first
    | apply fails_pure
    | apply fails_log
    | apply fails_ite
    | apply fails_bind
    | intro _

theorem step_parseSingleDim (uninit : Int) (str : Str) :
    Step Setup Unchanged (parseSingleDim uninit str) := by
  unfold parseSingleDim
  split
  · exact step_pure _
  · simp only [bind_eq]
    exact step_bind (step_log _ _ rfl) (fun _ => step_exit _)

theorem fails_parseSingleDim (uninit : Int) (str : Str) :
    FailsByError (parseSingleDim uninit str) := by
  unfold parseSingleDim
  split
  · exact fails_pure _
  · simp only [bind_eq]
    exact fails_error_exit _

theorem step_substr (s : Str) (pos count : Nat) : Step Setup Unchanged (substr s pos count) := by
  unfold substr
  exact step_ite step_throw (step_pure _)

theorem step_parseDynamicDimLoop (uninit : Int) (fuel : Nat) (str : Str)
    (shape : List (List Int)) :
    Step Setup Unchanged (parseDynamicDimLoop uninit fuel str shape) := by
  induction fuel generalizing str shape with
  | zero => exact step_pure _
  | succ f ih =>
    unfold parseDynamicDimLoop
    split
    · exact step_pure _
    · simp only [bind_eq]
      exact step_bind (step_substr _ _ _) fun _ =>
        step_bind (step_parseSingleDim _ _) fun _ => ih _ _

theorem fails_parseDynamicDimLoop (uninit : Int) (fuel : Nat) (str : Str)
    (shape : List (List Int)) :
    FailsByError (parseDynamicDimLoop uninit fuel str shape) := by
  induction fuel generalizing str shape with
  | zero => exact fails_pure _
  | succ f ih =>
    unfold parseDynamicDimLoop
    split
    · exact fails_pure _
    · simp only [bind_eq]
      rw [substr_of_le _ _ _ (Nat.zero_le _)]
      exact fails_bind (fails_pure _) fun _ =>
        fails_bind (fails_parseSingleDim _ _) fun _ => ih _ _

theorem step_parseDynamicDim (uninit : Int) (str : Str) :
    Step Setup Unchanged (parseDynamicDim uninit str) := by
  unfold parseDynamicDim
  simp only [bind_eq, pure_eq]
  refine step_bind (step_substr _ _ _) fun _ =>
    step_bind (step_parseDynamicDimLoop _ _ _ _) fun _ =>
      step_bind (step_parseSingleDim _ _) fun _ => ?_
  exact step_ite (step_bind (step_log _ _ rfl) fun _ => step_exit _) (step_pure _)

theorem fails_parseDynamicDim (uninit : Int) (str : Str) (hstr : str ≠ []) :
    FailsByError (parseDynamicDim uninit str) := by
  unfold parseDynamicDim
  simp only [bind_eq, pure_eq]
  rw [substr_of_le _ _ _ (by cases str with
    | nil => exact absurd rfl hstr
    | cons c cs => simp)]
  refine fails_bind (fails_pure _) fun _ =>
    fails_bind (fails_parseDynamicDimLoop _ _ _ _) fun _ =>
      fails_bind (fails_parseSingleDim _ _) fun _ => ?_
  exact fails_ite (fails_error_exit _) (fails_pure _)

theorem step_rejectSpec {α : Type} (msg : Msg) (hmsg : msg.isComparison = false) :
    Step Setup Unchanged (rejectSpec msg : Proc α) := by
  unfold rejectSpec
  simp only [bind_eq]
  exact step_bind (step_log _ _ (by simp [Setup, Event.isSetup, hmsg])) fun _ =>
    step_bind (step_emit _ rfl) fun _ => step_exit _

theorem fails_rejectSpec {α : Type} (msg : Msg) : FailsByError (rejectSpec msg : Proc α) := by
  unfold rejectSpec
  simp only [bind_eq]
  exact fails_error_usage_exit _

theorem step_makeInput (env : Env) (shapes : Str) (dtype : Option DataType)
    (format : Option TensorFormat) : Step Setup Unchanged (makeInput env shapes dtype format) := by
  unfold makeInput
  simp only [bind_eq, pure_eq]
  exact step_ite (step_bind (step_parseSingleDim _ _) fun _ => step_pure _)
    (step_ite (step_bind (step_parseDynamicDim _ _) fun _ => step_pure _)
      (step_rejectSpec _ rfl))

theorem fails_makeInput (env : Env) (shapes : Str) (dtype : Option DataType)
    (format : Option TensorFormat) : FailsByError (makeInput env shapes dtype format) := by
  unfold makeInput
  simp only [bind_eq, pure_eq]
  refine fails_ite (fails_bind (fails_parseSingleDim _ _) fun _ => fails_pure _) ?_
  split
  · rename_i h
    have hne : shapes ≠ [] := by
      intro e
      rw [e] at h
      simp [startsWith] at h
    exact fails_bind (fails_parseDynamicDim _ _ hne) fun _ => fails_pure _
  · exact fails_rejectSpec _

theorem step_parseInputSpec (env : Env) (spec : Str) :
    Step Setup Unchanged (parseInputSpec env spec) := by
  unfold parseInputSpec
  simp only [bind_eq, pure_eq]
  refine step_bind (Q := Unchanged) ?_ fun _ => step_bind (step_log _ _ rfl) fun _ => step_pure _
  split <;> split <;>
    repeat' first
      | exact step_substr _ _ _
      | exact step_parseDataType _
      | exact step_parseTensorFormat _
      | exact step_makeInput _ _ _ _
      | exact step_rejectSpec _ rfl
      | apply step_ite
      | apply step_bind
      | intro _

theorem fails_parseInputSpec (env : Env) (spec : Str) :
    FailsByError (parseInputSpec env spec) := by
  unfold parseInputSpec
  simp only [bind_eq, pure_eq]
  refine fails_bind ?_ fun _ => fails_bind (fails_log _ _) fun _ => fails_pure _
  split <;> split
  · rename_i _ d hd _ f hf
    rw [substr_of_le _ _ _ (Nat.zero_le _), substr_of_le _ _ _ (find_lt_length hd),
      substr_of_le _ _ _ (find_lt_length hf)]
    repeat' first
      | exact fails_pure _
      | exact fails_parseDataType _
      | exact fails_parseTensorFormat _
      | exact fails_makeInput _ _ _ _
      | exact fails_rejectSpec _
      | apply fails_ite
      | apply fails_bind
      | intro _
  · rename_i _ d hd _ hf
    rw [substr_of_le _ _ _ (Nat.zero_le _), substr_of_le _ _ _ (find_lt_length hd)]
    repeat' first
      | exact fails_pure _
      | exact fails_parseDataType _
      | exact fails_makeInput _ _ _ _
      | exact fails_rejectSpec _
      | apply fails_ite
      | apply fails_bind
      | intro _
  · rename_i _ hd _ f hf
    rw [substr_of_le _ _ _ (Nat.zero_le _), substr_of_le _ _ _ (find_lt_length hf)]
    repeat' first
      | exact fails_pure _
      | exact fails_parseTensorFormat _
      | exact fails_makeInput _ _ _ _
      | exact fails_rejectSpec _
      | apply fails_ite
      | apply fails_bind
      | intro _
  · exact fails_makeInput _ _ _ _

theorem step_parseInputSpecs (env : Env) (specs : List Str) (ranges : List Input) :
    Step Setup Unchanged (parseInputSpecs env specs ranges) := by
  induction specs generalizing ranges with
  | nil => exact step_pure _
  | cons spec rest ih =>
    unfold parseInputSpecs
    simp only [bind_eq]
    exact step_bind (step_parseInputSpec _ _) fun _ => ih _

theorem fails_parseInputSpecs (env : Env) (specs : List Str) (ranges : List Input) :
    FailsByError (parseInputSpecs env specs ranges) := by
  induction specs generalizing ranges with
  | nil => exact fails_pure _
  | cons spec rest ih =>
    unfold parseInputSpecs
    simp only [bind_eq]
    exact fails_bind (fails_parseInputSpec _ _) fun _ => ih _


theorem step_resolve_path (env : Env) (path : Str) :
    Step Setup Unchanged (resolve_path env path) := by
  unfold resolve_path get_cwd
  simp only [bind_eq, pure_eq]
  repeat' first
    | exact step_pure _
    | exact step_exit _
    | (apply step_log; rfl)
    | apply step_ite
    | apply step_bind
    | split
    | intro _

theorem fails_resolve_path (env : Env) (path : Str) : FailsByError (resolve_path env path) := by
  unfold resolve_path get_cwd
  simp only [bind_eq, pure_eq]
  repeat' first
    | exact fails_pure _
    | exact fails_error_exit _
    | apply fails_ite
    | apply fails_bind
    | split
    | intro _

theorem step_setVerbosity (args : Args) : Step Setup Unchanged (setVerbosity args) := by
  unfold setVerbosity
  repeat' first
    | exact step_pure _
    | (apply step_emit; rfl)
    | apply step_ite

theorem fails_setVerbosity (args : Args) : FailsByError (setVerbosity args) := by
  unfold setVerbosity
  repeat' first
    | exact fails_pure _
    | exact fails_emit _
    | apply fails_ite

theorem step_constructSettings (env : Env) (ranges : List Input) :
    Step Setup AnySettings (constructSettings env ranges) := fun s =>
  ⟨[], by simp [constructSettings], by simp, trivial⟩

theorem fails_constructSettings (env : Env) (ranges : List Input) :
    FailsByError (constructSettings env ranges) := fun s =>
  ⟨by simp [constructSettings], by simp [constructSettings]⟩

theorem step_setFlags (args : Args) (env : Env) :
    Step Setup (Keeps CompileSpec.core) (setFlags args env) := by
  unfold setFlags
  simp only [bind_eq, pure_eq]
  repeat' first
    | exact step_pure _
    | (apply step_modifySettings; intro o; cases o <;> rfl)
    | exact step_of_unchanged (step_resolve_path _ _)
    | apply step_ite
    | apply step_bind
    | split
    | intro _

theorem fails_setFlags (args : Args) (env : Env) : FailsByError (setFlags args env) := by
  unfold setFlags
  simp only [bind_eq, pure_eq]
  repeat' first
    | exact fails_pure _
    | exact fails_modifySettings _
    | exact fails_resolve_path _ _
    | apply fails_ite
    | apply fails_bind
    | split
    | intro _

theorem step_setTorchExecuted (args : Args) :
    Step Setup (Keeps fun cs => (cs.inputs, cs.enabled_precisions, cs.device.gpu_id))
      (setTorchExecuted args) := by
  unfold setTorchExecuted
  simp only [bind_eq, pure_eq]
  repeat' first
    | exact step_pure _
    | exact step_exit _
    | (apply step_log; rfl)
    | (apply step_modifySettings; intro o; cases o <;> rfl)
    | apply step_ite
    | apply step_bind
    | intro _

theorem fails_setTorchExecuted (args : Args) : FailsByError (setTorchExecuted args) := by
  unfold setTorchExecuted
  simp only [bind_eq, pure_eq]
  repeat' first
    | exact fails_pure _
    | exact fails_modifySettings _
    | exact fails_error_exit _
    | apply fails_ite
    | apply fails_bind
    | intro _

theorem step_enablePrecision (calibrator : Option Str) (dtype : DataType) :
    Step Setup (Keeps fun cs => (cs.inputs, cs.min_block_size, cs.torch_executed_ops,
      cs.torch_executed_modules, cs.device.gpu_id)) (enablePrecision calibrator dtype) := by
  unfold enablePrecision
  simp only [bind_eq, pure_eq]
  repeat' first
    | exact step_pure _
    | exact step_exit _
    | (apply step_log; rfl)
    | (apply step_emit; rfl)
    | (apply step_modifySettings; intro o; cases o <;> rfl)
    | apply step_ite
    | apply step_bind
    | split
    | intro _

theorem fails_enablePrecision (calibrator : Option Str) (dtype : DataType) :
    FailsByError (enablePrecision calibrator dtype) := by
  unfold enablePrecision
  simp only [bind_eq, pure_eq]
  repeat' first
    | exact fails_pure _
    | exact fails_modifySettings _
    | exact fails_log _ _
    | exact fails_error_usage_exit _
    | apply fails_ite
    | apply fails_bind
    | split
    | intro _

theorem step_setEnabledPrecisions (calibrator : Option Str) (tokens : List Str) :
    Step Setup (Keeps fun cs => (cs.inputs, cs.min_block_size, cs.torch_executed_ops,
      cs.torch_executed_modules, cs.device.gpu_id)) (setEnabledPrecisions calibrator tokens) := by
  induction tokens with
  | nil => exact step_pure _
  | cons precision rest ih =>
    unfold setEnabledPrecisions
    simp only [bind_eq]
    exact step_bind (step_of_unchanged (step_parseDataType _)) fun _ =>
      step_bind (step_enablePrecision _ _) fun _ => ih

theorem fails_setEnabledPrecisions (calibrator : Option Str) (tokens : List Str) :
    FailsByError (setEnabledPrecisions calibrator tokens) := by
  induction tokens with
  | nil => exact fails_pure _
  | cons precision rest ih =>
    unfold setEnabledPrecisions
    simp only [bind_eq]
    exact fails_bind (fails_parseDataType _) fun _ =>
      fails_bind (fails_enablePrecision _ _) fun _ => ih

theorem step_setDevice (args : Args) :
    Step Setup (Keeps fun cs => (cs.inputs, cs.min_block_size, cs.torch_executed_ops,
      cs.torch_executed_modules, cs.enabled_precisions)) (setDevice args) := by
  unfold setDevice
  simp only [bind_eq, pure_eq]
  repeat' first
    | exact step_pure _
    | exact step_exit _
    | (apply step_log; rfl)
    | (apply step_emit; rfl)
    | (apply step_modifySettings; intro o; cases o <;> rfl)
    | apply step_ite
    | apply step_bind
    | split
    | intro _

theorem fails_setDevice (args : Args) : FailsByError (setDevice args) := by
  unfold setDevice
  simp only [bind_eq, pure_eq]
  repeat' first
    | exact fails_pure _
    | exact fails_modifySettings _
    | exact fails_emit _
    | exact fails_error_usage_exit _
    | apply fails_ite
    | apply fails_bind
    | split
    | intro _

theorem step_setCapability (args : Args) :
    Step Setup (Keeps CompileSpec.core) (setCapability args) := by
  unfold setCapability
  simp only [bind_eq, pure_eq]
  repeat' first
    | exact step_pure _
    | exact step_exit _
    | (apply step_log; rfl)
    | (apply step_emit; rfl)
    | (apply step_modifySettings; intro o; cases o <;> rfl)
    | apply step_ite
    | apply step_bind
    | split
    | intro _

theorem fails_setCapability (args : Args) : FailsByError (setCapability args) := by
  unfold setCapability
  simp only [bind_eq, pure_eq]
  repeat' first
    | exact fails_pure _
    | exact fails_modifySettings _
    | exact fails_error_usage_exit _
    | apply fails_ite
    | apply fails_bind
    | split

theorem step_setBuilderOptions (args : Args) :
    Step Setup (Keeps CompileSpec.core) (setBuilderOptions args) := by
  unfold setBuilderOptions
  simp only [bind_eq, pure_eq]
  repeat' first
    | exact step_pure _
    | (apply step_modifySettings; intro o; cases o <;> rfl)
    | apply step_ite
    | apply step_bind
    | split
    | intro _

theorem fails_setBuilderOptions (args : Args) : FailsByError (setBuilderOptions args) := by
  unfold setBuilderOptions
  simp only [bind_eq, pure_eq]
  repeat' first
    | exact fails_pure _
    | exact fails_modifySettings _
    | apply fails_ite
    | apply fails_bind
    | split
    | intro _

theorem step_any {α : Type} {P : Event → Prop}
    {Q : Option CompileSpec → Option CompileSpec → Prop} {m : Proc α} (hm : Step P Q m) :
    Step P AnySettings m :=
  step_weaken hm (fun _ h => h) (fun _ _ _ => trivial)

/-- The configuration phase appends only set-up events: it loads nothing,
builds nothing and writes no file. -/
theorem step_configure (args : Args) (env : Env) :
    Step Setup AnySettings (configure args env) := by
  unfold configure
  simp only [bind_eq, pure_eq]
  refine step_bind (step_emit _ rfl) fun _ => ?_
  refine step_bind (step_any (step_setVerbosity _)) fun _ => ?_
  refine step_bind (step_any (step_parseInputSpecs _ _ _)) fun _ => ?_
  refine step_bind (step_constructSettings _ _) fun _ => ?_
  refine step_bind (step_any (step_setFlags _ _)) fun _ => ?_
  refine step_bind (step_any (step_setTorchExecuted _)) fun _ => ?_
  refine step_bind (step_any (step_setEnabledPrecisions _ _)) fun _ => ?_
  refine step_bind (step_any (step_setDevice _)) fun _ => ?_
  refine step_bind (step_any (step_setCapability _)) fun _ => ?_
  refine step_bind (step_any (step_setBuilderOptions _)) fun _ => ?_
  refine step_bind (step_any (step_resolve_path _ _)) fun _ => ?_
  exact step_bind (step_any (step_resolve_path _ _)) fun _ => step_pure _

/-- The configuration phase raises nothing, and when it ends the process it
does so with exit status 1 after an error entry in the log. -/
theorem fails_configure (args : Args) (env : Env) : FailsByError (configure args env) := by
  unfold configure
  simp only [bind_eq, pure_eq]
  refine fails_bind (fails_emit _) fun _ => ?_
  refine fails_bind (fails_setVerbosity _) fun _ => ?_
  refine fails_bind (fails_parseInputSpecs _ _ _) fun _ => ?_
  refine fails_bind (fails_constructSettings _ _) fun _ => ?_
  refine fails_bind (fails_setFlags _ _) fun _ => ?_
  refine fails_bind (fails_setTorchExecuted _) fun _ => ?_
  refine fails_bind (fails_setEnabledPrecisions _ _) fun _ => ?_
  refine fails_bind (fails_setDevice _) fun _ => ?_
  refine fails_bind (fails_setCapability _) fun _ => ?_
  refine fails_bind (fails_setBuilderOptions _) fun _ => ?_
  refine fails_bind (fails_resolve_path _ _) fun _ => ?_
  exact fails_bind (fails_resolve_path _ _) fun _ => fails_pure _


/-! ## `main`: the shape of a run -/

theorem step_run {α : Type} {P : Event → Prop}
    {Q : Option CompileSpec → Option CompileSpec → Prop} {m : Proc α} (hm : Step P Q m)
    {s s1 : St} {r : Res α} (h : m s = (r, s1)) :
    ∃ evs, s1.trace = s.trace ++ evs ∧ (∀ e ∈ evs, P e) ∧
      Q s.compile_settings s1.compile_settings := by
  have := hm s
  rw [h] at this
  exact this

theorem keeps_some {β : Type} {proj : CompileSpec → β} {o1 o2 : Option CompileSpec}
    {c1 : CompileSpec} (h : Keeps proj o1 o2) (h1 : o1 = some c1) :
    ∃ c2, o2 = some c2 ∧ proj c2 = proj c1 := by
  unfold Keeps at h
  subst h1
  cases o2 with
  | none => simp at h
  | some c2 => exact ⟨c2, rfl, by simpa using h⟩

theorem unchanged_some {o1 o2 : Option CompileSpec} {c1 : CompileSpec} (h : Unchanged o1 o2)
    (h1 : o1 = some c1) : o2 = some c1 := by
  unfold Unchanged at h
  rw [h, h1]

theorem Proc.bind_eq_ok {α β : Type} {m : Proc α} {f : α → Proc β} {s s2 : St} {b : β} :
    Proc.bind m f s = (Res.ok b, s2) ↔ ∃ a s1, m s = (Res.ok a, s1) ∧ f a s1 = (Res.ok b, s2) := by
  rw [Proc.bind_apply]
  rcases hres : m s with ⟨r, s1⟩
  cases r with
  | ok a =>
    simp only [Prod.mk.injEq, Res.ok.injEq]
    constructor
    · intro h
      exact ⟨a, s1, ⟨rfl, rfl⟩, h⟩
    · rintro ⟨_, _, ⟨rfl, rfl⟩, h⟩
      exact h
  | exit code => simp
  | threw => simp

/-- A run of the configuration phase that does not end the process went
through each of its parts; the settings it leaves are those the loop over
the enabled precisions left, up to the device, the capability and the
builder options. -/
theorem configure_ok {args : Args} {env : Env} {s sf : St} {ranges : List Input} {inp out : Str}
    (h : configure args env s = (Res.ok (ranges, inp, out), sf)) :
    ∃ s3 s5 s6 s7 cal,
      parseInputSpecs env args.input_shapes [] (setVerbosity args
        { s with trace := s.trace ++ [Event.set_reportable_log_level Level.kWARNING] }).2
          = (Res.ok ranges, s3) ∧
      setFlags args env { s3 with compile_settings := some { env.default_settings with
        inputs := ranges } } = (Res.ok cal, s5) ∧
      setTorchExecuted args s5 = (Res.ok (), s6) ∧
      setEnabledPrecisions (args.calibration_cache_file.map fun _ => cal) args.enabled_precision s6
        = (Res.ok (), s7) ∧
      Keeps (fun cs => (cs.inputs, cs.min_block_size, cs.torch_executed_ops,
        cs.torch_executed_modules, cs.enabled_precisions)) s7.compile_settings
          sf.compile_settings := by
  unfold configure at h
  simp only [bind_eq, pure_eq, Proc.bind_eq_ok, emit_apply, Proc.pure_apply, Prod.mk.injEq,
    Res.ok.injEq] at h
  obtain ⟨_, s1, ⟨_, rfl⟩, _, s2, h2, rg, s3, h3, _, s4, h4, cal, s5, h5, _, s6, h6, _, s7, h7,
    _, s8, h8, _, s9, h9, _, s10, h10, i1, s11, h11, o1, s12, h12, ⟨hr, _, _⟩, hs⟩ := h
  subst hr hs
  have e2 : s2 = (setVerbosity args
      { s with trace := s.trace ++ [Event.set_reportable_log_level Level.kWARNING] }).2 := by
    rw [h2]
  subst e2
  have e4 : s4 = { s3 with compile_settings := some { env.default_settings with
      inputs := rg } } := by
    simp only [constructSettings, Prod.mk.injEq, true_and] at h4
    exact h4.symm
  subst e4
  refine ⟨s3, s5, s6, s7, cal, h3, h5, h6, h7, ?_⟩
  obtain ⟨_, _, _, k8⟩ := step_run (step_setDevice args) h8
  obtain ⟨_, _, _, k9⟩ := step_run (step_setCapability args) h9
  obtain ⟨_, _, _, k10⟩ := step_run (step_setBuilderOptions args) h10
  obtain ⟨_, _, _, k11⟩ := step_run (step_resolve_path env _) h11
  obtain ⟨_, _, _, k12⟩ := step_run (step_resolve_path env _) h12
  unfold Keeps Unchanged CompileSpec.core at *
  rw [k12, k11]
  have a10 := congrArg (Option.map fun c : List Input × Nat × List Str × List Str
     × Finset DataType × Nat => (c.1, c.2.1, c.2.2.1, c.2.2.2.1, c.2.2.2.2.1)) k10
  have a9 := congrArg (Option.map fun c : List Input × Nat × List Str × List Str
     × Finset DataType × Nat => (c.1, c.2.1, c.2.2.1, c.2.2.2.1, c.2.2.2.2.1)) k9
  simp only [Option.map_map] at a10 a9
  exact a10.trans (a9.trans k8)


theorem keeps_comp {β γ : Type} {proj : CompileSpec → β} (g : β → γ)
    {o1 o2 : Option CompileSpec} (h : Keeps proj o1 o2) : Keeps (fun cs => g (proj cs)) o1 o2 := by
  unfold Keeps at *
  have := congrArg (Option.map g) h
  simpa [Option.map_map, Function.comp] using this

/-- After a run of the configuration phase that does not end the process,
`compile_settings` exists and its `inputs` are the parsed input specs. -/
theorem configure_settings {args : Args} {env : Env} {s sf : St} {ranges : List Input}
    {inp out : Str} (h : configure args env s = (Res.ok (ranges, inp, out), sf)) :
    ∃ cs, sf.compile_settings = some cs ∧ cs.inputs = ranges := by
  obtain ⟨s3, s5, s6, s7, cal, _, h5, h6, h7, k⟩ := configure_ok h
  obtain ⟨_, _, _, k5⟩ := step_run (step_setFlags args env) h5
  obtain ⟨_, _, _, k6⟩ := step_run (step_setTorchExecuted args) h6
  obtain ⟨_, _, _, k7⟩ := step_run (step_setEnabledPrecisions _ _) h7
  obtain ⟨c5, e5, p5⟩ := keeps_some (keeps_comp (fun c => c.1) k5) rfl
  obtain ⟨c6, e6, p6⟩ := keeps_some (keeps_comp (fun c => c.1) k6) e5
  obtain ⟨c7, e7, p7⟩ := keeps_some (keeps_comp (fun c => c.1) k7) e6
  obtain ⟨c8, e8, p8⟩ := keeps_some (keeps_comp (fun c => c.1) k) e7
  refine ⟨c8, e8, ?_⟩
  simp only [CompileSpec.core] at p5 p6 p7 p8
  rw [p8, p7, p6, p5]

theorem main_of_configure_ok {args : Args} {env : Env} {s sf : St} {ranges : List Input}
    {inp out : Str} {cs : CompileSpec}
    (h : configure args env s = (Res.ok (ranges, inp, out), sf))
    (hcs : sf.compile_settings = some cs) :
    main args env s = build args env cs ranges inp out sf := by
  unfold main
  simp only [bind_eq, Proc.bind_apply, h, getSettings, hcs]

theorem main_of_configure_exit {args : Args} {env : Env} {s sf : St} {code : Nat}
    (h : configure args env s = (Res.exit code, sf)) :
    main args env s = (Res.exit code, sf) := by
  unfold main
  simp only [bind_eq, Proc.bind_apply, h]

/-- The trace of the configuration phase, started with an empty trace, holds
set-up events only. -/
theorem configure_trace_setup {args : Args} {env : Env} {r : Res (List Input × Str × Str)}
    {sf : St} (h : configure args env St.init = (r, sf)) : ∀ e ∈ sf.trace, Setup e := by
  obtain ⟨evs, htr, hP, _⟩ := step_run (step_configure args env) h
  intro e he
  rw [htr] at he
  simp only [St.init, List.nil_append] at he
  exact hP e he


/-! ## Full compilation and the exclusion lists -/

/-- With `--require-full-compilation` and an exclusion list, the exclusion
step logs its error and ends the process. -/
theorem setTorchExecuted_conflict (args : Args) (hrfc : args.require_full_compilation = true)
    (hex : args.torch_executed_ops ≠ [] ∨ args.torch_executed_mods ≠ []) (s : St) :
    setTorchExecuted args s =
      (Res.exit 1,
        { s with trace := s.trace ++ [Event.log Level.kERROR Msg.opsWithFullCompilation] }) := by
  have hc : (!args.torch_executed_ops.isEmpty || !args.torch_executed_mods.isEmpty) = true := by
    rcases hex with h | h
    · cases hl : args.torch_executed_ops with
      | nil => exact absurd hl h
      | cons x xs => simp
    · cases hl : args.torch_executed_mods with
      | nil => exact absurd hl h
      | cons x xs => simp
  unfold setTorchExecuted
  rw [if_pos hc]
  simp [hrfc, Proc.bind_apply]

theorem preserves_of_keeps_exclusions {ops mods : List Str} {o1 o2 : Option CompileSpec}
    (h : Keeps (fun cs => (cs.torch_executed_ops, cs.torch_executed_modules)) o1 o2) :
    Preserves (ExclusionsAre ops mods) o1 o2 := by
  intro hI cs2 h2
  unfold Keeps at h
  subst h2
  cases o1 with
  | none => simp at h
  | some cs1 =>
    simp only [Option.map_some', Option.some.injEq, Prod.mk.injEq] at h
    obtain ⟨a, b⟩ := hI cs1 rfl
    exact ⟨h.1.trans a, h.2.trans b⟩

theorem step_configure_conflict (args : Args) (env : Env)
    (hrfc : args.require_full_compilation = true)
    (hex : args.torch_executed_ops ≠ [] ∨ args.torch_executed_mods ≠ []) :
    Step Setup (Preserves (ExclusionsAre env.default_settings.torch_executed_ops
      env.default_settings.torch_executed_modules)) (configure args env) := by
  have hT : Step Setup (Preserves (ExclusionsAre env.default_settings.torch_executed_ops
      env.default_settings.torch_executed_modules)) (setTorchExecuted args) := by
    intro s
    rw [setTorchExecuted_conflict args hrfc hex s]
    exact ⟨[_], rfl, by intro e he; simp at he; subst he; rfl, fun h => h⟩
  have hC : ∀ ranges, Step Setup (Preserves (ExclusionsAre env.default_settings.torch_executed_ops
      env.default_settings.torch_executed_modules)) (constructSettings env ranges) := by
    intro ranges s
    refine ⟨[], by simp [constructSettings], by simp, fun _ cs hcs => ?_⟩
    simp only [constructSettings, Option.some.injEq] at hcs
    subst hcs
    exact ⟨rfl, rfl⟩
  unfold configure
  simp only [bind_eq, pure_eq]
  refine step_bind (step_emit _ rfl) fun _ => ?_
  refine step_bind (step_of_unchanged (step_setVerbosity _)) fun _ => ?_
  refine step_bind (step_of_unchanged (step_parseInputSpecs _ _ _)) fun _ => ?_
  refine step_bind (hC _) fun _ => ?_
  refine step_bind (step_weaken (step_setFlags _ _) (fun _ h => h) fun _ _ h =>
    preserves_of_keeps_exclusions (keeps_comp (fun c => (c.2.2.1, c.2.2.2.1)) h)) fun _ => ?_
  refine step_bind hT fun _ => ?_
  refine step_bind (step_weaken (step_setEnabledPrecisions _ _) (fun _ h => h) fun _ _ h =>
    preserves_of_keeps_exclusions (keeps_comp (fun c => (c.2.2.1, c.2.2.2.1)) h)) fun _ => ?_
  refine step_bind (step_weaken (step_setDevice _) (fun _ h => h) fun _ _ h =>
    preserves_of_keeps_exclusions (keeps_comp (fun c => (c.2.2.1, c.2.2.2.1)) h)) fun _ => ?_
  refine step_bind (step_weaken (step_setCapability _) (fun _ h => h) fun _ _ h =>
    preserves_of_keeps_exclusions (keeps_comp (fun c => (c.2.2.1, c.2.2.2.1)) h)) fun _ => ?_
  refine step_bind (step_weaken (step_setBuilderOptions _) (fun _ h => h) fun _ _ h =>
    preserves_of_keeps_exclusions (keeps_comp (fun c => (c.2.2.1, c.2.2.2.1)) h)) fun _ => ?_
  refine step_bind (step_of_unchanged (step_resolve_path _ _)) fun _ => ?_
  exact step_bind (step_of_unchanged (step_resolve_path _ _)) fun _ => step_pure _

theorem setup_not_build {e : Event} (h : Setup e) : e.isBuildOrWrite = false := by
  cases e <;> first | rfl | (exact absurd h (by simp [Setup, Event.isSetup]))

/-- With `--require-full-compilation` and an exclusion list, `main` ends in
the configuration phase, with exit status 1, after an error entry, and with
set-up events only. -/
theorem main_of_conflict (args : Args) (env : Env)
    (hrfc : args.require_full_compilation = true)
    (hex : args.torch_executed_ops ≠ [] ∨ args.torch_executed_mods ≠ []) :
    ∃ sf, main args env St.init = (Res.exit 1, sf) ∧
      configure args env St.init = (Res.exit 1, sf) ∧
      (∃ msg, Event.log Level.kERROR msg ∈ sf.trace) ∧ ∀ e ∈ sf.trace, Setup e := by
  rcases hres : configure args env St.init with ⟨r, sf⟩
  have hfail := fails_configure args env St.init
  rw [hres] at hfail
  have hsetup : ∀ e ∈ sf.trace, Setup e := configure_trace_setup hres
  cases r with
  | ok v =>
    obtain ⟨ranges, inp, out⟩ := v
    obtain ⟨s3, s5, s6, s7, cal, _, _, h6, _⟩ := configure_ok hres
    rw [setTorchExecuted_conflict args hrfc hex] at h6
    simp at h6
  | threw => exact absurd rfl hfail.1
  | exit code =>
    obtain ⟨hcode, herr⟩ := hfail.2 code rfl
    subst hcode
    exact ⟨sf, main_of_configure_exit hres, rfl, herr, hsetup⟩

/-- C7. With `--require-full-compilation` and at least one entry of
`--torch-executed-ops` or `--torch-executed-mods`, `main` ends with exit
status 1 after an error entry in the log; its trace holds set-up events
only, so the module is neither loaded nor compiled nor is anything
written; and the exclusion lists of the settings, where the settings were
constructed, are still those of their construction. -/
theorem exclusions_with_full_compilation_rejected (args : Args) (env : Env)
    (hrfc : args.require_full_compilation = true)
    (hex : args.torch_executed_ops ≠ [] ∨ args.torch_executed_mods ≠ []) :
    (main args env St.init).1 = Res.exit 1 ∧
    (∃ msg, Event.log Level.kERROR msg ∈ (main args env St.init).2.trace) ∧
    (∀ e ∈ (main args env St.init).2.trace, e.isSetup = true) ∧
    (∀ path, Event.load path ∉ (main args env St.init).2.trace) ∧
    (∀ e ∈ (main args env St.init).2.trace, e.isBuildOrWrite = false) ∧
    (∀ cs, (main args env St.init).2.compile_settings = some cs →
      cs.torch_executed_ops = env.default_settings.torch_executed_ops ∧
      cs.torch_executed_modules = env.default_settings.torch_executed_modules) := by
  obtain ⟨sf, hmain, hcfg, herr, hsetup⟩ := main_of_conflict args env hrfc hex
  obtain ⟨evs, htr, hP, hQ⟩ := step_run (step_configure_conflict args env hrfc hex) hcfg
  rw [hmain]
  refine ⟨rfl, herr, hsetup, ?_, fun e he => setup_not_build (hsetup e he), ?_⟩
  · intro path hmem
    exact absurd (hsetup _ hmem) (by simp [Setup, Event.isSetup])
  · intro cs hcs
    exact hQ (fun c hc => by simp [St.init] at hc) cs hcs

/-- The hypotheses of `exclusions_with_full_compilation_rejected` hold of
the command line `--require-full-compilation --torch-executed-ops
aten::relu /m.ts /o.ts "(3,3,32,32)"`, whose run ends with the error on
the exclusion lists. -/
theorem exclusions_with_full_compilation_rejected_witness :
    Args.fullWithExclusion.require_full_compilation = true ∧
    (Args.fullWithExclusion.torch_executed_ops ≠ [] ∨
      Args.fullWithExclusion.torch_executed_mods ≠ []) ∧
    (main Args.fullWithExclusion (Env.sample [] []) St.init).1 = Res.exit 1 ∧
    (main Args.fullWithExclusion (Env.sample [] []) St.init).2.trace.getLast?
      = some (Event.log Level.kERROR Msg.opsWithFullCompilation) :=
  ⟨rfl, Or.inl (by decide),
    (exclusions_with_full_compilation_rejected Args.fullWithExclusion (Env.sample [] []) rfl
      (Or.inl (by decide))).1,
    by decide⟩

/-! ## The part of `main` after the configuration -/

theorem build_load_failed {args : Args} {env : Env} {cs : CompileSpec} {ranges : List Input}
    {inp out : Str} (hembed : args.embed_engine = false) (hload : env.load inp = false) (s : St) :
    build args env cs ranges inp out s =
      (Res.exit 1, { s with trace := s.trace ++
        [Event.load inp, Event.log Level.kERROR Msg.errorLoadingModel] }) := by
  unfold build
  simp [hembed, hload, Proc.bind_apply]

theorem build_unsupported {args : Args} {env : Env} {cs : CompileSpec} {ranges : List Input}
    {inp out : Str} (hembed : args.embed_engine = false) (hload : env.load inp = true)
    (hrfc : args.require_full_compilation = true) (hsup : env.supported = false) (s : St) :
    build args env cs ranges inp out s =
      (Res.exit 1, { s with trace := s.trace ++
        [Event.load inp, Event.check_method_operator_support,
          Event.log Level.kERROR Msg.moduleNotSupported] }) := by
  unfold build requireSupport
  simp [hembed, hload, hrfc, hsup, Proc.bind_apply]

/-- The events between the configuration and the threshold check in compile
mode: the load, the support check when full compilation is required, and
the compilation. -/
theorem build_compile {args : Args} {env : Env} {cs : CompileSpec} {ranges : List Input}
    {inp out : Str} (hembed : args.embed_engine = false) (hsave : args.save_engine = false)
    (hload : env.load inp = true)
    (hsup : args.require_full_compilation = true → env.supported = true)
    (hcomp : env.compile cs = true) (s : St) :
    build args env cs ranges inp out s =
      match checkThreshold args env cs ranges { s with trace := s.trace ++
          (Event.load inp :: (if args.require_full_compilation then
            [Event.check_method_operator_support] else []) ++ [Event.compile cs]) } with
      | (Res.ok _, s3) => (Res.exit 0, { s3 with trace := s3.trace ++ [Event.save out] })
      | (Res.exit code, s3) => (Res.exit code, s3)
      | (Res.threw, s3) => (Res.threw, s3) := by
  unfold build requireSupport compileAndSave
  cases hrfc : args.require_full_compilation with
  | false =>
    simp only [hembed, hsave, hload, hcomp, Proc.bind_apply, bind_eq, pure_eq, emit_apply,
      Proc.pure_apply, Bool.false_eq_true, if_false, Bool.not_true, List.append_assoc,
      List.singleton_append, List.nil_append, exit_apply]
    rcases checkThreshold args env cs ranges _ with ⟨r, s3⟩
    cases r <;> rfl
  | true =>
    have := hsup hrfc
    simp only [hembed, hsave, hload, hcomp, this, Proc.bind_apply, bind_eq, pure_eq, emit_apply,
      Proc.pure_apply, Bool.false_eq_true, if_false, if_true, Bool.not_true, List.append_assoc,
      List.singleton_append, List.nil_append, exit_apply, List.cons_append]
    rcases checkThreshold args env cs ranges _ with ⟨r, s3⟩
    cases r <;> rfl

/-- C10. With `--require-full-compilation`, without `--embed-engine`, and
with `check_method_operator_support` reporting false, `main` ends with exit
status 1 after an error entry in the log; no conversion, compilation or
embedding is called and nothing is written; and when the run reaches the
support check, its last event is the error that the module is not supported. -/
theorem unsupported_module_fails_hard (args : Args) (env : Env)
    (hrfc : args.require_full_compilation = true) (hembed : args.embed_engine = false)
    (hsup : env.supported = false) :
    (main args env St.init).1 = Res.exit 1 ∧
    (∃ msg, Event.log Level.kERROR msg ∈ (main args env St.init).2.trace) ∧
    (∀ e ∈ (main args env St.init).2.trace, e.isBuildOrWrite = false) ∧
    (Event.check_method_operator_support ∈ (main args env St.init).2.trace →
      (main args env St.init).2.trace.getLast?
        = some (Event.log Level.kERROR Msg.moduleNotSupported)) := by
  rcases hres : configure args env St.init with ⟨r, sf⟩
  have hfail := fails_configure args env St.init
  rw [hres] at hfail
  have hsetup : ∀ e ∈ sf.trace, Setup e := configure_trace_setup hres
  cases r with
  | threw => exact absurd rfl hfail.1
  | exit code =>
    obtain ⟨hcode, herr⟩ := hfail.2 code rfl
    rw [main_of_configure_exit hres]
    subst hcode
    refine ⟨rfl, herr, fun e he => setup_not_build (hsetup e he), ?_⟩
    intro hmem
    exact absurd (hsetup _ hmem) (by simp [Setup, Event.isSetup])
  | ok v =>
    obtain ⟨ranges, inp, out⟩ := v
    obtain ⟨cs, hcs, _⟩ := configure_settings hres
    rw [main_of_configure_ok hres hcs]
    cases hload : env.load inp with
    | false =>
      rw [build_load_failed hembed hload]
      refine ⟨rfl, ⟨Msg.errorLoadingModel, by simp⟩, ?_, ?_⟩
      · intro e he
        simp only [List.mem_append, List.mem_cons, List.not_mem_nil, or_false] at he
        rcases he with he | rfl | rfl
        · exact setup_not_build (hsetup e he)
        · rfl
        · rfl
      · intro hmem
        simp only [List.mem_append, List.mem_cons, List.not_mem_nil, or_false, reduceCtorEq]
          at hmem
        exact absurd (hsetup _ hmem) (by simp [Setup, Event.isSetup])
    | true =>
      rw [build_unsupported hembed hload hrfc hsup]
      refine ⟨rfl, ⟨Msg.moduleNotSupported, by simp⟩, ?_, ?_⟩
      · intro e he
        simp only [List.mem_append, List.mem_cons, List.not_mem_nil, or_false] at he
        rcases he with he | rfl | rfl | rfl
        · exact setup_not_build (hsetup e he)
        · rfl
        · rfl
        · rfl
      · intro _
        simp

/-- The hypotheses of `unsupported_module_fails_hard` hold of the command
line `--require-full-compilation /m.ts /o.ts "(3,3,32,32)"` on a module
with an unsupported operator. -/
theorem unsupported_module_fails_hard_witness :
    Args.full.require_full_compilation = true ∧ Args.full.embed_engine = false ∧
    (Env.withSupport false [] []).supported = false ∧
    (main Args.full (Env.withSupport false [] []) St.init).1 = Res.exit 1 ∧
    Event.check_method_operator_support ∈
      (main Args.full (Env.withSupport false [] []) St.init).2.trace :=
  ⟨rfl, rfl, rfl,
    (unsupported_module_fails_hard Args.full (Env.withSupport false [] []) rfl rfl rfl).1,
    by decide⟩


/-! ## The threshold check -/

theorem thresholdCheckEnabled_iff (args : Args) (cs : CompileSpec) :
    thresholdCheckEnabled args cs = true ↔
      (args.no_threshold_check = false ∧ cs.enabled_precisions = {DataType.kFloat}) := by
  unfold thresholdCheckEnabled
  simp only [Bool.and_eq_true, Bool.not_eq_true', decide_eq_true_eq]
  constructor
  · rintro ⟨h1, h2, h3⟩
    refine ⟨h1, ?_⟩
    obtain ⟨a, ha⟩ := Finset.card_eq_one.mp h2
    rw [ha] at h3 ⊢
    rw [Finset.mem_singleton.mp h3]
  · rintro ⟨h1, h2⟩
    rw [h2]
    exact ⟨h1, rfl, Finset.mem_singleton_self _⟩

theorem drawInputs_run (ranges : List Input) (s : St) :
    ∃ evs, drawInputs ranges s = (Res.ok (), { s with trace := s.trace ++ evs }) ∧
      (∀ e ∈ evs, Comparison e) ∧ ∀ e ∈ evs, e.isWarning = false := by
  induction ranges generalizing s with
  | nil => exact ⟨[], by simp [drawInputs], by simp, by simp⟩
  | cons i rest ih =>
    obtain ⟨evs, h, hc, hw⟩ := ih { s with trace := s.trace ++
      [Event.randn i.opt_shape (to_torch_dtype (i.dtype.getD DataType.kUnknown))] }
    refine ⟨Event.randn i.opt_shape (to_torch_dtype (i.dtype.getD DataType.kUnknown)) :: evs,
      by simp [drawInputs, Proc.bind_apply, h], ?_, ?_⟩
    · intro e he
      rcases List.mem_cons.mp he with rfl | he
      · rfl
      · exact hc e he
    · intro e he
      rcases List.mem_cons.mp he with rfl | he
      · rfl
      · exact hw e he

theorem step_absMax (t : Tensor) : Step Comparison Unchanged (absMax t) := by
  unfold absMax
  split
  · exact step_pure _
  · exact step_throw

theorem step_checkRtolLoop (inputs : List Tensor) (maxValue : ℚ) :
    Step Comparison Unchanged (checkRtolLoop inputs maxValue) := by
  induction inputs generalizing maxValue with
  | nil => exact step_pure _
  | cons t rest ih =>
    unfold checkRtolLoop
    simp only [bind_eq]
    exact step_bind (step_absMax _) fun _ => ih _

theorem step_almostEqual (a b : Tensor) (threshold : ℚ) :
    Step Comparison Unchanged (almostEqual a b threshold) := by
  unfold almostEqual checkRtol Tensor.sub
  simp only [bind_eq, pure_eq]
  repeat' first
    | exact step_pure _
    | exact step_throw
    | exact step_absMax _
    | exact step_checkRtolLoop _ _
    | (apply step_log; rfl)
    | apply step_ite
    | apply step_bind
    | intro _

theorem step_compareResult (threshold_val : ℚ) (jit_results : List Tensor) (trt : Tensor)
    (i : Nat) : Step Comparison Unchanged (compareResult threshold_val jit_results trt i) := by
  unfold compareResult
  simp only [bind_eq, pure_eq]
  repeat' first
    | exact step_pure _
    | exact step_throw
    | exact step_almostEqual _ _ _
    | (apply step_log; rfl)
    | (apply step_emit; rfl)
    | apply step_ite
    | apply step_bind
    | split
    | intro _

theorem step_compareResults (threshold_val : ℚ) (jit_results trt_results : List Tensor)
    (i : Nat) : Step Comparison Unchanged (compareResults threshold_val jit_results trt_results i) := by
  induction trt_results generalizing i with
  | nil => exact step_pure _
  | cons t rest ih =>
    unfold compareResults
    simp only [bind_eq]
    exact step_bind (step_compareResult _ _ _ _) fun _ => ih _

/-- What `checkThreshold` does when the comparison is not enabled: one
advisory warning, nothing else. -/
theorem checkThreshold_disabled {args : Args} {env : Env} {cs : CompileSpec}
    {ranges : List Input} (h : thresholdCheckEnabled args cs = false) (s : St) :
    checkThreshold args env cs ranges s =
      (Res.ok (), { s with trace := s.trace ++ [Event.log Level.kWARNING
        (if args.no_threshold_check then Msg.thresholdCheckSkipped
          else Msg.precisionNotChecked)] }) := by
  unfold checkThreshold
  cases hn : args.no_threshold_check <;> simp [h, hn]

/-- What `checkThreshold` does when the comparison is enabled: it appends
events of the comparison only, the forward run of the original module among
them, and the forward run of the compiled module when the first succeeds. -/
theorem checkThreshold_enabled (args : Args) (env : Env) (cs : CompileSpec)
    (ranges : List Input) (h : thresholdCheckEnabled args cs = true) (s : St) :
    ∃ evs, (checkThreshold args env cs ranges s).2.trace = s.trace ++ evs ∧
      (∀ e ∈ evs, Comparison e) ∧ Event.forward_jit ∈ evs ∧
      (env.jit_results.isSome = true → Event.forward_trt ∈ evs) := by
  obtain ⟨evs, hdraw, hc, _⟩ := drawInputs_run ranges s
  unfold checkThreshold
  simp only [h, if_true, bind_eq, Proc.bind_apply, hdraw, emit_apply]
  cases hj : env.jit_results with
  | none =>
    refine ⟨evs ++ [Event.forward_jit], by simp, ?_, by simp, by simp⟩
    intro e he
    rcases List.mem_append.mp he with he | he
    · exact hc e he
    · simp only [List.mem_singleton] at he
      subst he
      rfl
  | some js =>
    cases ht : env.trt_results with
    | none =>
      refine ⟨evs ++ [Event.forward_jit, Event.forward_trt], by simp [Proc.bind_apply], ?_,
        by simp, by simp⟩
      intro e he
      rcases List.mem_append.mp he with he | he
      · exact hc e he
      · simp only [List.mem_cons, List.mem_singleton, List.not_mem_nil, or_false] at he
        rcases he with rfl | rfl <;> rfl
    | some ts =>
      simp only []
      obtain ⟨evs2, htr, hc2, _⟩ := step_compareResults (args.threshold.getD (2 / 100000)) js ts 0
        { s with trace := s.trace ++ evs ++ [Event.forward_jit] ++ [Event.forward_trt] }
      refine ⟨evs ++ [Event.forward_jit, Event.forward_trt] ++ evs2, ?_, ?_, by simp, by simp⟩
      · simp only [Proc.bind_apply, emit_apply, List.append_assoc, List.singleton_append,
          List.cons_append, List.nil_append] at htr ⊢
        exact htr
      · intro e he
        rcases List.mem_append.mp he with he | he
        · rcases List.mem_append.mp he with he | he
          · exact hc e he
          · simp only [List.mem_cons, List.mem_singleton, List.not_mem_nil, or_false] at he
            rcases he with rfl | rfl <;> rfl
        · exact hc2 e he

theorem setup_not_comparison {e : Event} (h : Setup e) : e.isComparison = false := by
  cases e with
  | log lvl msg =>
    simp only [Setup, Event.isSetup, Bool.and_eq_true, Bool.not_eq_true'] at h
    exact h.2
  | _ => first | rfl | (exact absurd h (by simp [Setup, Event.isSetup]))

theorem setup_not_warning {e : Event} (h : Setup e) : e.isWarning = false := by
  cases e with
  | log lvl msg =>
    cases lvl <;> first | rfl | (exact absurd h (by simp [Setup, Event.isSetup]))
  | _ => rfl

/-- The trace of a run in compile mode: the set-up events, the load, the
support check when full compilation is required, the compilation, and what
the threshold check appends; a save and exit status 0 follow when the
threshold check returns. -/
theorem main_compile_mode {args : Args} {env : Env} {ranges : List Input} {inp out : Str}
    {sf : St} {cs : CompileSpec}
    (hembed : args.embed_engine = false) (hsave : args.save_engine = false)
    (hcfg : configure args env St.init = (Res.ok (ranges, inp, out), sf))
    (hcs : sf.compile_settings = some cs) (hload : env.load inp = true)
    (hsup : args.require_full_compilation = true → env.supported = true)
    (hcomp : env.compile cs = true) :
    ∃ pre, (∀ e ∈ pre, e.isComparison = false ∧ e.isWarning = false) ∧ Event.compile cs ∈ pre ∧
      main args env St.init =
        match checkThreshold args env cs ranges { sf with trace := pre } with
        | (Res.ok _, s3) => (Res.exit 0, { s3 with trace := s3.trace ++ [Event.save out] })
        | (Res.exit code, s3) => (Res.exit code, s3)
        | (Res.threw, s3) => (Res.threw, s3) := by
  have hsetup : ∀ e ∈ sf.trace, Setup e := configure_trace_setup hcfg
  refine ⟨sf.trace ++ (Event.load inp :: (if args.require_full_compilation then
      [Event.check_method_operator_support] else []) ++ [Event.compile cs]), ?_, by simp, ?_⟩
  · intro e he
    rcases List.mem_append.mp he with he | he
    · exact ⟨setup_not_comparison (hsetup e he), setup_not_warning (hsetup e he)⟩
    · cases hr : args.require_full_compilation <;> rw [hr] at he <;>
        simp only [Bool.false_eq_true, if_false, if_true, List.cons_append, List.nil_append,
          List.mem_cons, List.mem_singleton, List.not_mem_nil, or_false] at he
      · rcases he with rfl | rfl <;> exact ⟨rfl, rfl⟩
      · rcases he with rfl | rfl | rfl <;> exact ⟨rfl, rfl⟩
  · refine (main_of_configure_ok hcfg hcs).trans
      ((build_compile hembed hsave hload hsup hcomp _).trans ?_)
    rcases checkThreshold args env cs ranges _ with ⟨r, s3⟩
    cases r <;> rfl

/-- The run in compile mode when the comparison is not enabled: after the
compilation, one advisory warning, the save, exit status 0. -/
theorem main_compile_mode_disabled {args : Args} {env : Env} {ranges : List Input}
    {inp out : Str} {sf : St} {cs : CompileSpec}
    (hembed : args.embed_engine = false) (hsave : args.save_engine = false)
    (hcfg : configure args env St.init = (Res.ok (ranges, inp, out), sf))
    (hcs : sf.compile_settings = some cs) (hload : env.load inp = true)
    (hsup : args.require_full_compilation = true → env.supported = true)
    (hcomp : env.compile cs = true) (hdis : thresholdCheckEnabled args cs = false) :
    ∃ pre, (∀ e ∈ pre, e.isComparison = false ∧ e.isWarning = false) ∧ Event.compile cs ∈ pre ∧
      main args env St.init =
        (Res.exit 0, { sf with trace := pre ++ [Event.log Level.kWARNING
          (if args.no_threshold_check then Msg.thresholdCheckSkipped
            else Msg.precisionNotChecked), Event.save out] }) := by
  obtain ⟨pre, hpre, hmem, hmain⟩ := main_compile_mode hembed hsave hcfg hcs hload hsup hcomp
  refine ⟨pre, hpre, hmem, ?_⟩
  rw [hmain, checkThreshold_disabled hdis]
  simp

/-- The forward runs in compile mode: `main` runs the original module and,
when that returns, the compiled one, exactly when `--no-threshold-check` is
absent and the enabled precisions are exactly float; in every other case
its trace holds no event of the comparison and holds an advisory warning. -/
theorem comparison_forward_runs (args : Args) (env : Env) (ranges : List Input)
    (inp out : Str) (sf : St) (cs : CompileSpec)
    (hembed : args.embed_engine = false) (hsave : args.save_engine = false)
    (hcfg : configure args env St.init = (Res.ok (ranges, inp, out), sf))
    (hcs : sf.compile_settings = some cs) (hload : env.load inp = true)
    (hsup : args.require_full_compilation = true → env.supported = true)
    (hcomp : env.compile cs = true) :
    Event.compile cs ∈ (main args env St.init).2.trace ∧
    ((args.no_threshold_check = false ∧ cs.enabled_precisions = {DataType.kFloat}) ↔
      Event.forward_jit ∈ (main args env St.init).2.trace) ∧
    ((args.no_threshold_check = false ∧ cs.enabled_precisions = {DataType.kFloat}) →
      env.jit_results.isSome = true → Event.forward_trt ∈ (main args env St.init).2.trace) ∧
    (¬ (args.no_threshold_check = false ∧ cs.enabled_precisions = {DataType.kFloat}) →
      (∀ e ∈ (main args env St.init).2.trace, e.isComparison = false) ∧
      (Event.log Level.kWARNING Msg.thresholdCheckSkipped ∈ (main args env St.init).2.trace ∨
        Event.log Level.kWARNING Msg.precisionNotChecked ∈ (main args env St.init).2.trace)) := by
  obtain ⟨pre, hpre, hmem, hmain⟩ := main_compile_mode hembed hsave hcfg hcs hload hsup hcomp
  rw [hmain]
  have hoff : ¬ (args.no_threshold_check = false ∧ cs.enabled_precisions = {DataType.kFloat}) →
      (match checkThreshold args env cs ranges { sf with trace := pre } with
        | (Res.ok _, s3) => (Res.exit 0, { s3 with trace := s3.trace ++ [Event.save out] })
        | (Res.exit code, s3) => (Res.exit code, s3)
        | (Res.threw, s3) => (Res.threw, s3) : Res Unit × St).2.trace =
        pre ++ [Event.log Level.kWARNING (if args.no_threshold_check then Msg.thresholdCheckSkipped
          else Msg.precisionNotChecked), Event.save out] := by
    intro hg
    have hdis : thresholdCheckEnabled args cs = false := by
      rw [← Bool.not_eq_true, thresholdCheckEnabled_iff]
      exact hg
    rw [checkThreshold_disabled hdis]
    simp
  by_cases hg : args.no_threshold_check = false ∧ cs.enabled_precisions = {DataType.kFloat}
  · have hen := (thresholdCheckEnabled_iff args cs).mpr hg
    obtain ⟨evs, htr, _, hj, ht⟩ := checkThreshold_enabled args env cs ranges hen
      { sf with trace := pre }
    have hsub : ∀ e ∈ pre ++ evs,
        e ∈ (match checkThreshold args env cs ranges { sf with trace := pre } with
          | (Res.ok _, s3) => (Res.exit 0, { s3 with trace := s3.trace ++ [Event.save out] })
          | (Res.exit code, s3) => (Res.exit code, s3)
          | (Res.threw, s3) => (Res.threw, s3) : Res Unit × St).2.trace := by
      intro e he
      rcases hchk : checkThreshold args env cs ranges { sf with trace := pre } with ⟨r, s3⟩
      rw [hchk] at htr
      simp only at htr
      cases r <;> simp only [htr, List.mem_append] at he ⊢
      · exact Or.inl he
      · exact he
      · exact he
    refine ⟨hsub _ (List.mem_append_left _ hmem), ⟨fun _ => hsub _ (List.mem_append_right _ hj),
      fun _ => hg⟩, fun _ hs => hsub _ (List.mem_append_right _ (ht hs)), fun hn => absurd hg hn⟩
  · rw [hoff hg]
    refine ⟨by simp [hmem], ⟨fun h => absurd h hg, ?_⟩, fun h => absurd h hg, fun _ => ⟨?_, ?_⟩⟩
    · intro hmemj
      simp only [List.mem_append, List.mem_cons, List.mem_singleton, List.not_mem_nil, or_false,
        reduceCtorEq] at hmemj
      exact absurd (hpre _ hmemj).1 (by simp [Event.isComparison])
    · intro e he
      simp only [List.mem_append, List.mem_cons, List.mem_singleton, List.not_mem_nil,
        or_false] at he
      rcases he with he | rfl | rfl
      · exact (hpre e he).1
      · cases args.no_threshold_check <;> rfl
      · rfl
    · cases args.no_threshold_check
      · right
        simp
      · left
        simp

/-! ## Reduced precision -/

theorem parseDataType_fst (str : Str) (s : St) :
    (parseDataType str s).1 = (parseDataType str St.init).1 := by
  simp only [parseDataType, bind_eq, pure_eq]
  split_ifs <;> rfl

theorem step_enablePrecision_grows (d : DataType) (calibrator : Option Str) (dtype : DataType) :
    Step Setup (Preserves (HasPrecision d)) (enablePrecision calibrator dtype) := by
  unfold enablePrecision
  simp only [bind_eq, pure_eq]
  repeat' first
    | exact step_pure _
    | exact step_exit _
    | (apply step_log; rfl)
    | (apply step_emit; rfl)
    | (apply step_modifySettings; rintro o ⟨c, rfl, hc⟩; exact ⟨_, rfl, by simp [hc]⟩)
    | apply step_ite
    | apply step_bind
    | split
    | intro _

theorem step_setEnabledPrecisions_grows (d : DataType) (calibrator : Option Str)
    (tokens : List Str) :
    Step Setup (Preserves (HasPrecision d)) (setEnabledPrecisions calibrator tokens) := by
  induction tokens with
  | nil => exact step_pure _
  | cons precision rest ih =>
    unfold setEnabledPrecisions
    simp only [bind_eq]
    exact step_bind (step_of_unchanged (step_parseDataType _)) fun _ =>
      step_bind (step_enablePrecision_grows _ _ _) fun _ => ih

theorem enablePrecision_inserts {d : DataType} (hd : d = DataType.kHalf ∨ d = DataType.kChar)
    (calibrator : Option Str) {s s1 : St} {c : CompileSpec}
    (h : enablePrecision calibrator d s = (Res.ok (), s1)) (hc : s.compile_settings = some c) :
    HasPrecision d s1.compile_settings := by
  unfold enablePrecision at h
  rcases hd with rfl | rfl
  · simp only [reduceCtorEq, if_false, if_true, modifySettings_apply, Prod.mk.injEq, true_and] at h
    subst h
    simp only [hc, Option.map_some', HasPrecision]
    exact ⟨_, rfl, by simp⟩
  · cases calibrator with
    | none =>
      simp only [reduceCtorEq, if_false, if_true, bind_eq, Proc.bind_apply, modifySettings_apply,
        log_apply, Prod.mk.injEq, true_and] at h
      subst h
      simp only [hc, Option.map_some', HasPrecision]
      exact ⟨_, rfl, by simp⟩
    | some path =>
      simp only [reduceCtorEq, if_false, if_true, bind_eq, Proc.bind_apply, modifySettings_apply,
        Prod.mk.injEq, true_and] at h
      subst h
      simp only [hc, Option.map_some', HasPrecision]
      exact ⟨_, rfl, by simp⟩

/-- A precision token that names half or int8 precision leaves that precision
enabled after the loop over the tokens. -/
theorem setEnabledPrecisions_has {d : DataType} (hd : d = DataType.kHalf ∨ d = DataType.kChar)
    (calibrator : Option Str) (tokens : List Str) {p : Str} (hp : p ∈ tokens)
    (hpd : (parseDataType p St.init).1 = Res.ok d) {s s1 : St} {c : CompileSpec}
    (h : setEnabledPrecisions calibrator tokens s = (Res.ok (), s1))
    (hc : s.compile_settings = some c) : HasPrecision d s1.compile_settings := by
  induction tokens generalizing s c with
  | nil => simp at hp
  | cons tok rest ih =>
    unfold setEnabledPrecisions at h
    simp only [bind_eq, Proc.bind_eq_ok] at h
    obtain ⟨dt, sa, ha, _, sb, hb, hrest⟩ := h
    obtain ⟨_, _, _, ka⟩ := step_run (step_parseDataType tok) ha
    have hca := unchanged_some ka hc
    rcases List.mem_cons.mp hp with rfl | hp
    · have hdt : dt = d := by
        have := parseDataType_fst p s
        rw [ha, hpd] at this
        simpa using this
      subst hdt
      have hins := enablePrecision_inserts hd calibrator hb hca
      obtain ⟨_, _, _, kr⟩ := step_run (step_setEnabledPrecisions_grows dt calibrator rest) hrest
      exact kr hins
    · obtain ⟨_, _, _, kb⟩ := step_run (step_enablePrecision calibrator dt) hb
      obtain ⟨cb, hcb, _⟩ := keeps_some kb hca
      exact ih hp hrest hcb

/-- After a configuration that does not end the process, every precision
token that names half or int8 precision is among the enabled precisions. -/
theorem configure_has_precision {args : Args} {env : Env} {s sf : St} {ranges : List Input}
    {inp out : Str} {cs : CompileSpec}
    (h : configure args env s = (Res.ok (ranges, inp, out), sf))
    (hcs : sf.compile_settings = some cs) {p : Str} (hp : p ∈ args.enabled_precision)
    {d : DataType} (hpd : (parseDataType p St.init).1 = Res.ok d)
    (hd : d = DataType.kHalf ∨ d = DataType.kChar) : d ∈ cs.enabled_precisions := by
  obtain ⟨s3, s5, s6, s7, cal, _, h5, h6, h7, k⟩ := configure_ok h
  obtain ⟨_, _, _, k5⟩ := step_run (step_setFlags args env) h5
  obtain ⟨_, _, _, k6⟩ := step_run (step_setTorchExecuted args) h6
  obtain ⟨c5, e5, _⟩ := keeps_some k5 rfl
  obtain ⟨c6, e6, _⟩ := keeps_some k6 e5
  obtain ⟨c7, e7, hmem⟩ := setEnabledPrecisions_has hd _ _ hp hpd h7 e6
  obtain ⟨c8, e8, p8⟩ := keeps_some k e7
  rw [hcs] at e8
  simp only [Option.some.injEq] at e8
  subst e8
  simp only [Prod.mk.injEq] at p8
  rw [p8.2.2.2.2]
  exact hmem

/-- C3. In compile mode, when some `--enabled-precision` token names half or
int8 precision, whatever the initial content of the enabled precisions: no
event of the comparison occurs (no forward run, no call of `almostEqual`),
an advisory warning is logged, and the run ends by saving the compiled
module to the output path with exit status 0. -/
theorem reduced_precision_skips_comparison (args : Args) (env : Env) (ranges : List Input)
    (inp out : Str) (sf : St) (cs : CompileSpec) (p : Str) (d : DataType)
    (hembed : args.embed_engine = false) (hsave : args.save_engine = false)
    (hcfg : configure args env St.init = (Res.ok (ranges, inp, out), sf))
    (hcs : sf.compile_settings = some cs) (hload : env.load inp = true)
    (hsup : args.require_full_compilation = true → env.supported = true)
    (hcomp : env.compile cs = true)
    (hp : p ∈ args.enabled_precision) (hpd : (parseDataType p St.init).1 = Res.ok d)
    (hd : d = DataType.kHalf ∨ d = DataType.kChar) :
    (main args env St.init).1 = Res.exit 0 ∧
    (∀ e ∈ (main args env St.init).2.trace, e.isComparison = false) ∧
    (∀ i, Event.almostEqual i ∉ (main args env St.init).2.trace) ∧
    (Event.log Level.kWARNING Msg.thresholdCheckSkipped ∈ (main args env St.init).2.trace ∨
      Event.log Level.kWARNING Msg.precisionNotChecked ∈ (main args env St.init).2.trace) ∧
    Event.compile cs ∈ (main args env St.init).2.trace ∧
    (main args env St.init).2.trace.getLast? = some (Event.save out) := by
  have hmem : d ∈ cs.enabled_precisions := configure_has_precision hcfg hcs hp hpd hd
  have hg : ¬ (args.no_threshold_check = false ∧ cs.enabled_precisions = {DataType.kFloat}) := by
    rintro ⟨_, h⟩
    rw [h, Finset.mem_singleton] at hmem
    rcases hd with h1 | h1 <;> rw [h1] at hmem <;> exact absurd hmem (by decide)
  have hdis : thresholdCheckEnabled args cs = false := by
    rw [← Bool.not_eq_true, thresholdCheckEnabled_iff]
    exact hg
  obtain ⟨pre, hpre, hc, hmain⟩ :=
    main_compile_mode_disabled hembed hsave hcfg hcs hload hsup hcomp hdis
  rw [hmain]
  have hnone : ∀ e ∈ pre ++ [Event.log Level.kWARNING
      (if args.no_threshold_check then Msg.thresholdCheckSkipped
        else Msg.precisionNotChecked), Event.save out], e.isComparison = false := by
    intro e he
    simp only [List.mem_append, List.mem_cons, List.mem_singleton, List.not_mem_nil,
      or_false] at he
    rcases he with he | rfl | rfl
    · exact (hpre e he).1
    · cases args.no_threshold_check <;> rfl
    · rfl
  refine ⟨rfl, hnone, ?_, ?_, by simp [hc], by simp⟩
  · intro i hi
    exact absurd (hnone _ hi) (by simp [Event.isComparison])
  · cases args.no_threshold_check
    · right
      simp
    · left
      simp

/-- The hypotheses of `reduced_precision_skips_comparison` hold of the
command line `torchtrtc -p fp16 /m.ts /o.ts "(3,3,32,32)"`. -/
theorem reduced_precision_skips_comparison_witness :
    Args.half.embed_engine = false ∧ Args.half.save_engine = false ∧
    configure Args.half (Env.sample [] []) St.init =
      (Res.ok (Input.sampleRanges, "/m.ts".toList, "/o.ts".toList),
        (configure Args.half (Env.sample [] []) St.init).2) ∧
    (configure Args.half (Env.sample [] []) St.init).2.compile_settings =
      some { CompileSpec.sample with
        inputs := Input.sampleRanges
        enabled_precisions := {DataType.kHalf, DataType.kFloat} } ∧
    (Env.sample [] []).load "/m.ts".toList = true ∧
    (Args.half.require_full_compilation = true → (Env.sample [] []).supported = true) ∧
    (Env.sample [] []).compile { CompileSpec.sample with
        inputs := Input.sampleRanges
        enabled_precisions := {DataType.kHalf, DataType.kFloat} } = true ∧
    "fp16".toList ∈ Args.half.enabled_precision ∧
    (parseDataType "fp16".toList St.init).1 = Res.ok DataType.kHalf ∧
    (DataType.kHalf = DataType.kHalf ∨ DataType.kHalf = DataType.kChar) ∧
    (main Args.half (Env.sample [] []) St.init).1 = Res.exit 0 :=
  have hcfg : configure Args.half (Env.sample [] []) St.init =
      (Res.ok (Input.sampleRanges, "/m.ts".toList, "/o.ts".toList),
        (configure Args.half (Env.sample [] []) St.init).2) := Prod.ext (by decide) rfl
  have hcs : (configure Args.half (Env.sample [] []) St.init).2.compile_settings =
      some { CompileSpec.sample with
        inputs := Input.sampleRanges
        enabled_precisions := {DataType.kHalf, DataType.kFloat} } := by decide
  ⟨rfl, rfl, hcfg, hcs, rfl, fun _ => rfl, rfl, by decide, by decide, Or.inl rfl,
    (reduced_precision_skips_comparison Args.half (Env.sample [] []) Input.sampleRanges
      "/m.ts".toList "/o.ts".toList (configure Args.half (Env.sample [] []) St.init).2
      { CompileSpec.sample with
        inputs := Input.sampleRanges
        enabled_precisions := {DataType.kHalf, DataType.kFloat} }
      "fp16".toList DataType.kHalf rfl rfl hcfg hcs rfl (fun _ => rfl) rfl (by decide) (by decide)
      (Or.inl rfl)).1⟩

/-! ## The minimum block size -/

/-- C8 fails on the code. The command line `--require-full-compilation
--min-block-size 3 /m.ts /o.ts "(3,3,32,32)"` is not rejected: the module is loaded, checked,
compiled and saved, and `main` returns 0. -/
theorem full_compilation_with_block_size_accepted :
    Args.fullWithBlockSize.require_full_compilation = true ∧
    Args.fullWithBlockSize.min_block_size = some 3 ∧
    (main Args.fullWithBlockSize (Env.sample [] []) St.init).1 = Res.exit 0 ∧
    Event.load "/m.ts".toList ∈ (main Args.fullWithBlockSize (Env.sample [] []) St.init).2.trace ∧
    Event.compile { CompileSpec.sample with
        inputs := Input.sampleRanges
        require_full_compilation := true }
      ∈ (main Args.fullWithBlockSize (Env.sample [] []) St.init).2.trace ∧
    Event.save "/o.ts".toList ∈ (main Args.fullWithBlockSize (Env.sample [] []) St.init).2.trace := by
  refine ⟨rfl, rfl, by decide, by decide, by decide, by decide⟩

/-- C8, as the code has it. With `--require-full-compilation` and
`--min-block-size`, `main` ends with exit status 1 before the module is
loaded or compiled when an exclusion list is given as well; without an
exclusion list the combination is no error: the exit status of the run, and
whether the module is loaded and compiled, are those of the same command
line without `--min-block-size`. -/
theorem full_compilation_with_block_size (args : Args) (env : Env) (n : Nat)
    (hrfc : args.require_full_compilation = true) (hmbs : args.min_block_size = some n) :
    ((args.torch_executed_ops ≠ [] ∨ args.torch_executed_mods ≠ []) →
      (main args env St.init).1 = Res.exit 1 ∧
      (∃ msg, Event.log Level.kERROR msg ∈ (main args env St.init).2.trace) ∧
      (∀ path, Event.load path ∉ (main args env St.init).2.trace) ∧
      (∀ e ∈ (main args env St.init).2.trace, e.isBuildOrWrite = false)) ∧
    ((args.torch_executed_ops = [] ∧ args.torch_executed_mods = []) →
      (main args env St.init).1 = (main { args with min_block_size := none } env St.init).1 ∧
      (∀ path, Event.load path ∈ (main args env St.init).2.trace ↔
        Event.load path ∈ (main { args with min_block_size := none } env St.init).2.trace) ∧
      ((∃ cs, Event.compile cs ∈ (main args env St.init).2.trace) ↔
        ∃ cs, Event.compile cs ∈
          (main { args with min_block_size := none } env St.init).2.trace)) := by
  constructor
  · intro hex
    obtain ⟨sf, hmain, _, herr, hsetup⟩ := main_of_conflict args env hrfc hex
    rw [hmain]
    refine ⟨rfl, herr, ?_, fun e he => setup_not_build (hsetup e he)⟩
    intro path hmem
    exact absurd (hsetup _ hmem) (by simp [Setup, Event.isSetup])
  · rintro ⟨h1, h2⟩
    have heq : main args env = main { args with min_block_size := none } env := by
      cases args
      simp only at h1 h2 hmbs
      subst h1 h2 hmbs
      rfl
    rw [← heq]
    exact ⟨rfl, fun _ => Iff.rfl, Iff.rfl⟩

/-- The hypotheses of `full_compilation_with_block_size` hold of the command
line `--require-full-compilation --min-block-size 3 /m.ts /o.ts "(3,3,32,32)"`,
whose run ends with exit status 0. -/
theorem full_compilation_with_block_size_witness :
    Args.fullWithBlockSize.require_full_compilation = true ∧
    Args.fullWithBlockSize.min_block_size = some 3 ∧
    (main Args.fullWithBlockSize (Env.sample [] []) St.init).1 =
      (main { Args.fullWithBlockSize with min_block_size := none } (Env.sample [] []) St.init).1 ∧
    (main Args.fullWithBlockSize (Env.sample [] []) St.init).1 = Res.exit 0 :=
  ⟨rfl, rfl,
    ((full_compilation_with_block_size Args.fullWithBlockSize (Env.sample [] []) 3 rfl rfl).2
      ⟨rfl, rfl⟩).1, by decide⟩

/-- C9 at a failing input. With `--min-block-size 5 --torch-executed-ops
aten::relu`, the settings handed to the compiler have a minimum block size
of 1, the flag object converted to an integer, not 5; and with
`--min-block-size 5` alone they keep the default of the settings, here 3. -/
theorem min_block_size_not_applied :
    Args.blockSizeWithExclusion.min_block_size = some 5 ∧
    Event.compile { CompileSpec.sample with
        inputs := Input.sampleRanges
        min_block_size := 1
        torch_executed_ops := ["aten::relu".toList] }
      ∈ (main Args.blockSizeWithExclusion (Env.sample [] []) St.init).2.trace ∧
    Args.blockSize.min_block_size = some 5 ∧
    Event.compile { CompileSpec.sample with
        inputs := Input.sampleRanges
        min_block_size := 3 }
      ∈ (main Args.blockSize (Env.sample [] []) St.init).2.trace := by
  refine ⟨rfl, by decide, rfl, by decide⟩

/-- The minimum block size handed on by every configuration that does not
end the process: with an exclusion list it is 1 or 0, as the flag was or
was not given, whatever its argument; without one it is the default of the
settings, whatever the flag. -/
theorem configure_min_block_size {args : Args} {env : Env} {s sf : St} {ranges : List Input}
    {inp out : Str} {cs : CompileSpec}
    (h : configure args env s = (Res.ok (ranges, inp, out), sf))
    (hcs : sf.compile_settings = some cs) :
    cs.min_block_size =
      if (!args.torch_executed_ops.isEmpty || !args.torch_executed_mods.isEmpty) = true then
        flagAsInteger args.min_block_size
      else env.default_settings.min_block_size := by
  obtain ⟨s3, s5, s6, s7, cal, _, h5, h6, h7, k⟩ := configure_ok h
  obtain ⟨_, _, _, k5⟩ := step_run (step_setFlags args env) h5
  obtain ⟨_, _, _, k7⟩ := step_run (step_setEnabledPrecisions _ _) h7
  obtain ⟨c5, e5, p5⟩ := keeps_some k5 rfl
  have h6' : ∃ c6, s6.compile_settings = some c6 ∧ c6.min_block_size =
      if (!args.torch_executed_ops.isEmpty || !args.torch_executed_mods.isEmpty) = true then
        flagAsInteger args.min_block_size
      else c5.min_block_size := by
    unfold setTorchExecuted at h6
    split at h6
    · rename_i hc
      cases hr : args.require_full_compilation with
      | true => simp [hr, Proc.bind_apply] at h6
      | false =>
        simp only [hr, Bool.false_eq_true, if_false, bind_eq, Proc.bind_apply, Proc.pure_apply,
          modifySettings_apply, Prod.mk.injEq, true_and] at h6
        subst h6
        simp only [e5, Option.map_some', Option.some.injEq, exists_eq_left', hc, if_true]
    · rename_i hc
      simp only [Proc.pure_apply, Prod.mk.injEq, true_and] at h6
      subst h6
      exact ⟨c5, e5, by simp [hc]⟩
  obtain ⟨c6, e6, p6⟩ := h6'
  obtain ⟨c7, e7, p7⟩ := keeps_some k7 e6
  obtain ⟨c8, e8, p8⟩ := keeps_some k e7
  rw [hcs] at e8
  simp only [Option.some.injEq] at e8
  subst e8
  simp only [CompileSpec.core, Prod.mk.injEq] at p5 p7 p8
  rw [p8.2.1, p7.2.1, p6, p5.2.1]

/-! ## A failed comparison is not fatal -/

theorem almostEqual_run (jit trt : Tensor) (threshold : ℚ) (hj : jit ≠ [])
    (hlen : trt.length = jit.length) (s : St) :
    ∃ evs, almostEqual jit trt threshold s =
        (Res.ok (passes threshold jit trt), { s with trace := s.trace ++ evs }) ∧
      (∀ e ∈ evs, Comparison e) ∧ ∀ e ∈ evs, e.isWarning = false := by
  have ht : trt ≠ [] := by
    intro h
    rw [h] at hlen
    exact hj (List.length_eq_zero.mp hlen.symm)
  have hdiff : List.zipWith (fun x y => x - y) jit trt ≠ [] := by
    cases jit with
    | nil => exact absurd rfl hj
    | cons x xs =>
      cases trt with
      | nil => exact absurd rfl ht
      | cons y ys => simp
  obtain ⟨D, M, _, _, hrun⟩ :=
    checkRtol_spec (List.zipWith (fun x y => x - y) jit trt) [jit, trt] threshold hdiff
      (by intro t ht; simp at ht; rcases ht with rfl | rfl <;> assumption)
  have hae : ∀ s, almostEqual jit trt threshold s =
      (Res.ok (decide (D ≤ threshold * M)),
        { s with trace := s.trace ++ [Event.log Level.kDEBUG (Msg.maxDifference D),
          Event.log Level.kDEBUG (Msg.acceptableThreshold threshold)] }) := by
    intro s
    simp [almostEqual, Tensor.sub, hlen.symm, Proc.bind_apply, hrun]
  have hp : passes threshold jit trt = decide (D ≤ threshold * M) := by
    unfold passes
    rw [hae]
    by_cases h : D ≤ threshold * M <;> simp [h]
  refine ⟨_, by rw [hae s, hp], ?_, ?_⟩
  · intro e he
    simp only [List.mem_cons, List.mem_singleton, List.not_mem_nil, or_false] at he
    rcases he with rfl | rfl <;> rfl
  · intro e he
    simp only [List.mem_cons, List.mem_singleton, List.not_mem_nil, or_false] at he
    rcases he with rfl | rfl <;> rfl

theorem compareResult_run (threshold_val : ℚ) (jit_results : List Tensor) (trt jit : Tensor)
    (i : Nat) (hget : jit_results.get? i = some jit) (hj : jit ≠ [])
    (hlen : trt.length = jit.length) (s : St) :
    ∃ evs, compareResult threshold_val jit_results trt i s =
        (Res.ok (), { s with trace := s.trace ++ evs }) ∧
      (∀ e ∈ evs, Comparison e) ∧
      evs.countP Event.isWarning = (if passes threshold_val jit trt then 0 else 1) ∧
      ∀ e ∈ evs, e.isWarning = true →
        e = Event.log Level.kWARNING (Msg.thresholdExceeded threshold_val) := by
  obtain ⟨evs, hrun, hc, hw⟩ := almostEqual_run jit trt threshold_val hj hlen
    { s with trace := s.trace ++ [Event.almostEqual i] }
  have hcount : evs.countP Event.isWarning = 0 := by
    rw [List.countP_eq_zero]
    intro e he
    simp [hw e he]
  unfold compareResult
  simp only [hget, hlen, ne_eq, not_true_eq_false, if_false, bind_eq, Proc.bind_apply, emit_apply,
    hrun]
  cases hpass : passes threshold_val jit trt with
  | true =>
    refine ⟨Event.almostEqual i :: evs, by simp, ?_, ?_, ?_⟩
    · intro e he
      rcases List.mem_cons.mp he with rfl | he
      · rfl
      · exact hc e he
    · simp [List.countP_cons, hcount, Event.isWarning]
    · intro e he hwe
      rcases List.mem_cons.mp he with rfl | he
      · simp [Event.isWarning] at hwe
      · rw [hw e he] at hwe
        simp at hwe
  | false =>
    refine ⟨Event.almostEqual i :: evs ++
      [Event.log Level.kWARNING (Msg.thresholdExceeded threshold_val)], by simp, ?_, ?_, ?_⟩
    · intro e he
      rcases List.mem_append.mp he with he | he
      · rcases List.mem_cons.mp he with rfl | he
        · rfl
        · exact hc e he
      · simp only [List.mem_singleton] at he
        subst he
        rfl
    · simp [List.countP_cons, List.countP_append, hcount, Event.isWarning]
    · intro e he hwe
      rcases List.mem_append.mp he with he | he
      · rcases List.mem_cons.mp he with rfl | he
        · simp [Event.isWarning] at hwe
        · rw [hw e he] at hwe
          simp at hwe
      · simpa using he

/-- The loop over the results, when every comparison yields a verdict: it
returns, and logs one warning for each pair that does not pass. -/
theorem compareResults_run (threshold_val : ℚ) (jit_results : List Tensor)
    (trt_results : List Tensor) (i : Nat)
    (hlen : trt_results.length ≤ (jit_results.drop i).length)
    (hpair : ∀ p ∈ (jit_results.drop i).zip trt_results, p.1 ≠ [] ∧ p.2.length = p.1.length)
    (s : St) :
    ∃ evs, compareResults threshold_val jit_results trt_results i s =
        (Res.ok (), { s with trace := s.trace ++ evs }) ∧
      (∀ e ∈ evs, Comparison e) ∧
      evs.countP Event.isWarning =
        ((jit_results.drop i).zip trt_results).countP
          (fun p => !passes threshold_val p.1 p.2) ∧
      ∀ e ∈ evs, e.isWarning = true →
        e = Event.log Level.kWARNING (Msg.thresholdExceeded threshold_val) := by
  induction trt_results generalizing i s with
  | nil => exact ⟨[], by simp [compareResults], by simp, by simp, by simp⟩
  | cons trt rest ih =>
    have hi : i < jit_results.length := by
      simp only [List.length_cons, List.length_drop] at hlen
      omega
    have hdrop : jit_results.drop i = jit_results[i] :: jit_results.drop (i + 1) :=
      List.drop_eq_getElem_cons hi
    have hget : jit_results.get? i = some jit_results[i] := by
      simp [List.getElem?_eq_getElem hi]
    rw [hdrop] at hlen hpair
    obtain ⟨hj, hl⟩ := hpair (jit_results[i], trt)
      (by rw [List.zip_cons_cons]; exact List.mem_cons_self _ _)
    obtain ⟨evs1, hrun1, hc1, hn1, hw1⟩ :=
      compareResult_run threshold_val jit_results trt jit_results[i] i hget hj hl s
    obtain ⟨evs2, hrun2, hc2, hn2, hw2⟩ :=
      ih (i + 1) (by simp only [List.length_cons] at hlen; omega)
        (fun p hp => hpair p (by simp only [List.zip_cons_cons, List.mem_cons]; exact Or.inr hp))
        { s with trace := s.trace ++ evs1 }
    refine ⟨evs1 ++ evs2, ?_, ?_, ?_, ?_⟩
    · unfold compareResults
      simp only [bind_eq, Proc.bind_apply, hrun1, hrun2, List.append_assoc]
    · intro e he
      rcases List.mem_append.mp he with he | he
      · exact hc1 e he
      · exact hc2 e he
    · rw [hdrop, List.zip_cons_cons, List.countP_cons, List.countP_append, hn1, hn2]
      cases passes threshold_val jit_results[i] trt <;> simp [Nat.add_comm]
    · intro e he
      rcases List.mem_append.mp he with he | he
      · exact hw1 e he
      · exact hw2 e he

/-- The threshold check, when it is enabled and every comparison yields a
verdict: it returns, with one warning for each output that does not pass. -/
theorem checkThreshold_run (args : Args) (env : Env) (cs : CompileSpec) (ranges : List Input)
    {jit_results trt_results : List Tensor} (h : thresholdCheckEnabled args cs = true)
    (hj : env.jit_results = some jit_results) (ht : env.trt_results = some trt_results)
    (hlen : trt_results.length ≤ jit_results.length)
    (hpair : ∀ p ∈ jit_results.zip trt_results, p.1 ≠ [] ∧ p.2.length = p.1.length) (s : St) :
    ∃ evs, checkThreshold args env cs ranges s =
        (Res.ok (), { s with trace := s.trace ++ evs }) ∧
      evs.countP Event.isWarning =
        (jit_results.zip trt_results).countP
          (fun p => !passes (args.threshold.getD (2 / 100000)) p.1 p.2) ∧
      ∀ e ∈ evs, e.isWarning = true →
        e = Event.log Level.kWARNING (Msg.thresholdExceeded (args.threshold.getD (2 / 100000))) := by
  obtain ⟨evs1, hdraw, _, hw1⟩ := drawInputs_run ranges s
  obtain ⟨evs2, hrun, _, hn2, hw2⟩ :=
    compareResults_run (args.threshold.getD (2 / 100000)) jit_results trt_results 0
      (by simpa using hlen) (by simpa using hpair)
      { s with trace := s.trace ++ evs1 ++ [Event.forward_jit] ++ [Event.forward_trt] }
  have hcount : evs1.countP Event.isWarning = 0 := by
    rw [List.countP_eq_zero]
    intro e he
    simp [hw1 e he]
  refine ⟨evs1 ++ [Event.forward_jit, Event.forward_trt] ++ evs2, ?_, ?_, ?_⟩
  · unfold checkThreshold
    simp only [h, if_true, bind_eq, Proc.bind_apply, hdraw, emit_apply, hj, ht, hrun]
    simp
  · simp only [List.drop_zero] at hn2
    simp [List.countP_append, List.countP_cons, hcount, hn2, Event.isWarning]
  · intro e he hwe
    rcases List.mem_append.mp he with he | he
    · rcases List.mem_append.mp he with he | he
      · rw [hw1 e he] at hwe
        simp at hwe
      · simp only [List.mem_cons, List.mem_singleton, List.not_mem_nil, or_false] at he
        rcases he with rfl | rfl <;> simp [Event.isWarning] at hwe
    · exact hw2 e he hwe

/-- C4. In compile mode with the comparison enabled, whatever the verdict
on each output: `main` returns exit status 0 and its last event is the save
of the compiled module to the output path; the warnings in its log are one
entry on the exceeded threshold for each output whose comparison fails, and
nothing else. -/
theorem failed_comparison_not_fatal (args : Args) (env : Env) (ranges : List Input)
    (inp out : Str) (sf : St) (cs : CompileSpec) (jit_results trt_results : List Tensor)
    (hembed : args.embed_engine = false) (hsave : args.save_engine = false)
    (hcfg : configure args env St.init = (Res.ok (ranges, inp, out), sf))
    (hcs : sf.compile_settings = some cs) (hload : env.load inp = true)
    (hsup : args.require_full_compilation = true → env.supported = true)
    (hcomp : env.compile cs = true)
    (hcheck : args.no_threshold_check = false ∧ cs.enabled_precisions = {DataType.kFloat})
    (hj : env.jit_results = some jit_results) (ht : env.trt_results = some trt_results)
    (hlen : trt_results.length ≤ jit_results.length)
    (hpair : ∀ p ∈ jit_results.zip trt_results, p.1 ≠ [] ∧ p.2.length = p.1.length) :
    (main args env St.init).1 = Res.exit 0 ∧
    (main args env St.init).2.trace.getLast? = some (Event.save out) ∧
    Event.compile cs ∈ (main args env St.init).2.trace ∧
    (main args env St.init).2.trace.countP Event.isWarning =
      (jit_results.zip trt_results).countP
        (fun p => !passes (args.threshold.getD (2 / 100000)) p.1 p.2) ∧
    ∀ e ∈ (main args env St.init).2.trace, e.isWarning = true →
      e = Event.log Level.kWARNING (Msg.thresholdExceeded (args.threshold.getD (2 / 100000))) := by
  obtain ⟨pre, hpre, hmem, hmain⟩ := main_compile_mode hembed hsave hcfg hcs hload hsup hcomp
  have hen := (thresholdCheckEnabled_iff args cs).mpr hcheck
  obtain ⟨evs, hrun, hn, hw⟩ := checkThreshold_run args env cs ranges hen hj ht hlen hpair
    { sf with trace := pre }
  have hcount : pre.countP Event.isWarning = 0 := by
    rw [List.countP_eq_zero]
    intro e he
    simp [(hpre e he).2]
  rw [hmain, hrun]
  refine ⟨rfl, by simp, by simp [hmem], ?_, ?_⟩
  · simp [List.countP_append, hcount, hn, Event.isWarning]
  · intro e he hwe
    simp only [List.mem_append, List.mem_singleton] at he
    rcases he with (he | he) | rfl
    · rw [(hpre e he).2] at hwe
      simp at hwe
    · exact hw e he hwe
    · simp [Event.isWarning] at hwe

theorem passes_sample : passes (2 / 100000) [1, 2] [1, 3] = false := by
  simp [passes, almostEqual, Tensor.sub, checkRtol, checkRtolLoop, absMax, Tensor.abs, Tensor.max,
    Proc.bind_apply, St.init]
  norm_num [abs_of_nonneg, abs_of_neg]

/-- The hypotheses of `failed_comparison_not_fatal` hold of the command line
`torchtrtc /m.ts /o.ts "(3,3,32,32)"` on a module whose outputs (1, 2) and
(1, 3) differ beyond the threshold. -/
theorem failed_comparison_not_fatal_witness :
    Args.sample.embed_engine = false ∧ Args.sample.save_engine = false ∧
    configure Args.sample (Env.sample [[1, 2]] [[1, 3]]) St.init =
      (Res.ok (Input.sampleRanges, "/m.ts".toList, "/o.ts".toList),
        (configure Args.sample (Env.sample [[1, 2]] [[1, 3]]) St.init).2) ∧
    (configure Args.sample (Env.sample [[1, 2]] [[1, 3]]) St.init).2.compile_settings =
      some { CompileSpec.sample with inputs := Input.sampleRanges } ∧
    (Env.sample [[1, 2]] [[1, 3]]).load "/m.ts".toList = true ∧
    (Args.sample.require_full_compilation = true →
      (Env.sample [[1, 2]] [[1, 3]]).supported = true) ∧
    (Env.sample [[1, 2]] [[1, 3]]).compile
      { CompileSpec.sample with inputs := Input.sampleRanges } = true ∧
    (Args.sample.no_threshold_check = false ∧
      ({ CompileSpec.sample with inputs := Input.sampleRanges } : CompileSpec).enabled_precisions
        = {DataType.kFloat}) ∧
    (Env.sample [[1, 2]] [[1, 3]]).jit_results = some [[1, 2]] ∧
    (Env.sample [[1, 2]] [[1, 3]]).trt_results = some [[1, 3]] ∧
    ([[1, 3]] : List Tensor).length ≤ ([[1, 2]] : List Tensor).length ∧
    (∀ p ∈ ([[1, 2]] : List Tensor).zip ([[1, 3]] : List Tensor), p.1 ≠ [] ∧ p.2.length = p.1.length) ∧
    (main Args.sample (Env.sample [[1, 2]] [[1, 3]]) St.init).1 = Res.exit 0 ∧
    (main Args.sample (Env.sample [[1, 2]] [[1, 3]]) St.init).2.trace.getLast?
      = some (Event.save "/o.ts".toList) ∧
    (main Args.sample (Env.sample [[1, 2]] [[1, 3]]) St.init).2.trace.countP Event.isWarning
      = 1 :=
  have hcfg : configure Args.sample (Env.sample [[1, 2]] [[1, 3]]) St.init =
      (Res.ok (Input.sampleRanges, "/m.ts".toList, "/o.ts".toList),
        (configure Args.sample (Env.sample [[1, 2]] [[1, 3]]) St.init).2) :=
    Prod.ext (by decide) rfl
  have hcs : (configure Args.sample (Env.sample [[1, 2]] [[1, 3]]) St.init).2.compile_settings =
      some { CompileSpec.sample with inputs := Input.sampleRanges } := by decide
  have hpair : ∀ p ∈ ([[1, 2]] : List Tensor).zip ([[1, 3]] : List Tensor),
      p.1 ≠ [] ∧ p.2.length = p.1.length := by
    intro p hp
    simp only [List.zip_cons_cons, List.zip_nil_right, List.mem_singleton] at hp
    subst hp
    exact ⟨by simp, rfl⟩
  have h := failed_comparison_not_fatal Args.sample (Env.sample [[1, 2]] [[1, 3]])
    Input.sampleRanges "/m.ts".toList "/o.ts".toList
    (configure Args.sample (Env.sample [[1, 2]] [[1, 3]]) St.init).2
    { CompileSpec.sample with inputs := Input.sampleRanges } [[1, 2]] [[1, 3]]
    rfl rfl hcfg hcs rfl (fun _ => rfl) rfl ⟨rfl, rfl⟩ rfl rfl (by simp) hpair
  ⟨rfl, rfl, hcfg, hcs, rfl, fun _ => rfl, rfl, ⟨rfl, rfl⟩, rfl, rfl, by simp, hpair, h.1, h.2.1,
    h.2.2.2.1.trans (by
      have hthr : Args.sample.threshold.getD (2 / 100000) = (2 / 100000 : ℚ) := rfl
      rw [hthr]
      simp [List.countP_cons, passes_sample])⟩

/-! ## The token tables of `parseDataType` and `parseTensorFormat` -/

theorem tolower_eq_toLower (c : Char) : tolower c = c.toLower := by
  unfold tolower Char.toLower
  rfl

theorem map_tolower_eq (s : Str) : s.map tolower = asciiLower s := by
  unfold asciiLower
  congr 1

theorem asciiLower_idem (s : Str) : asciiLower (asciiLower s) = asciiLower s := by
  unfold asciiLower
  rw [List.map_map]
  apply List.map_congr_left
  intro c _
  show Char.toLower (Char.toLower c) = Char.toLower c
  unfold Char.toLower
  by_cases h : c.toNat ≥ 65 ∧ c.toNat ≤ 90
  · have h2 : ¬ ((Char.ofNat (c.toNat + 32)).toNat ≥ 65 ∧ (Char.ofNat (c.toNat + 32)).toNat ≤ 90) := by
      obtain ⟨h1, h3⟩ := h
      generalize c.toNat = n at h1 h3
      interval_cases n <;> decide
    simp only [h, and_self, if_true, h2, if_false]
  · simp only [h, if_false]

/-- The run of `parseDataType` in terms of the table lookup on the
lower-cased string: the value found, and an error entry exactly for
`kUnknown`. -/
theorem parseDataType_run (str : Str) (s : St) :
    parseDataType str s =
      (Res.ok (lookupDataType (asciiLower str)),
        if lookupDataType (asciiLower str) = DataType.kUnknown then
          { s with trace := s.trace ++
              [Event.log Level.kERROR (Msg.invalidPrecision (asciiLower str))] }
        else s) := by
  unfold parseDataType lookupDataType
  simp only [map_tolower_eq]
  generalize asciiLower str = l
  simp only [floatNames, halfNames, charNames, intNames, boolNames, List.mem_cons,
    List.mem_singleton, List.not_mem_nil, or_false]
  split_ifs <;> first | rfl | simp_all

/-- The run of `parseTensorFormat` in terms of the table lookup on the
lower-cased string. -/
theorem parseTensorFormat_run (str : Str) (s : St) :
    parseTensorFormat str s =
      (Res.ok (lookupTensorFormat (asciiLower str)),
        if lookupTensorFormat (asciiLower str) = TensorFormat.kUnknown then
          { s with trace := s.trace ++
              [Event.log Level.kERROR (Msg.invalidTensorFormat (asciiLower str))] }
        else s) := by
  unfold parseTensorFormat lookupTensorFormat
  simp only [map_tolower_eq]
  generalize asciiLower str = l
  simp only [contiguousNames, channelsLastNames, List.mem_cons,
    List.mem_singleton, List.not_mem_nil, or_false]
  split_ifs <;> first | rfl | simp_all

/-- The table of data types sends each list of names to its type and
everything else to `kUnknown`. -/
theorem lookupDataType_iff (l : Str) :
    (lookupDataType l = DataType.kFloat ↔ l ∈ floatNames) ∧
    (lookupDataType l = DataType.kHalf ↔ l ∈ halfNames) ∧
    (lookupDataType l = DataType.kChar ↔ l ∈ charNames) ∧
    (lookupDataType l = DataType.kInt ↔ l ∈ intNames) ∧
    (lookupDataType l = DataType.kBool ↔ l ∈ boolNames) ∧
    (lookupDataType l = DataType.kUnknown ↔ l ∉ dataTypeNames) := by
  unfold lookupDataType dataTypeNames
  simp only [floatNames, halfNames, charNames, intNames, boolNames, List.mem_cons,
    List.mem_singleton, List.not_mem_nil, or_false, List.mem_append]
  split_ifs with h1 h2 h3 h4 h5
  · rcases h1 with h | h | h | h <;> subst h <;> decide
  · rcases h2 with h | h | h | h <;> subst h <;> decide
  · rcases h3 with h | h | h <;> subst h <;> decide
  · rcases h4 with h | h | h <;> subst h <;> decide
  · rcases h5 with h | h <;> subst h <;> decide
  · simp only [reduceCtorEq, false_iff, true_iff]
    tauto

/-- The table of tensor formats sends each list of names to its format and
everything else to `kUnknown`. -/
theorem lookupTensorFormat_iff (l : Str) :
    (lookupTensorFormat l = TensorFormat.kContiguous ↔ l ∈ contiguousNames) ∧
    (lookupTensorFormat l = TensorFormat.kChannelsLast ↔ l ∈ channelsLastNames) ∧
    (lookupTensorFormat l = TensorFormat.kUnknown ↔ l ∉ tensorFormatNames) := by
  unfold lookupTensorFormat tensorFormatNames
  simp only [contiguousNames, channelsLastNames, List.mem_cons,
    List.mem_singleton, List.not_mem_nil, or_false, List.mem_append]
  split_ifs with h1 h2
  · rcases h1 with h | h | h | h <;> subst h <;> decide
  · rcases h2 with h | h | h <;> subst h <;> decide
  · simp only [reduceCtorEq, false_iff, true_iff]
    tauto

/-- C16: `parseDataType` is a total lookup on the ASCII-lower-cased string
`l`: it returns a value for every string, `kFloat` exactly when `l` is one of
float, float32, f32, fp32, `kHalf` exactly for half, float16, f16, fp16,
`kChar` exactly for char, int8, i8, `kInt` exactly for int, int32, i32,
`kBool` exactly for bool, b, and `kUnknown` exactly for every other string;
an error naming `l` is logged in the last case and nothing is logged
otherwise; the run on `s` is the run on the lower-cased `s`. -/
theorem parseDataType_case_insensitive_lookup (s : Str) (st : St) :
    (parseDataType s st).1 = Res.ok (lookupDataType (asciiLower s)) ∧
    ((parseDataType s st).1 = Res.ok DataType.kFloat ↔ asciiLower s ∈ floatNames) ∧
    ((parseDataType s st).1 = Res.ok DataType.kHalf ↔ asciiLower s ∈ halfNames) ∧
    ((parseDataType s st).1 = Res.ok DataType.kChar ↔ asciiLower s ∈ charNames) ∧
    ((parseDataType s st).1 = Res.ok DataType.kInt ↔ asciiLower s ∈ intNames) ∧
    ((parseDataType s st).1 = Res.ok DataType.kBool ↔ asciiLower s ∈ boolNames) ∧
    ((parseDataType s st).1 = Res.ok DataType.kUnknown ↔ asciiLower s ∉ dataTypeNames) ∧
    (parseDataType s st).2 =
      (if asciiLower s ∈ dataTypeNames then st
       else { st with trace := st.trace ++
                [Event.log Level.kERROR (Msg.invalidPrecision (asciiLower s))] }) ∧
    parseDataType s st = parseDataType (asciiLower s) st := by
  obtain ⟨h1, h2, h3, h4, h5, h6⟩ := lookupDataType_iff (asciiLower s)
  have hrun := parseDataType_run s st
  refine ⟨by rw [hrun], ?_, ?_, ?_, ?_, ?_, ?_, ?_, ?_⟩
  · rw [hrun, ← h1]; simp
  · rw [hrun, ← h2]; simp
  · rw [hrun, ← h3]; simp
  · rw [hrun, ← h4]; simp
  · rw [hrun, ← h5]; simp
  · rw [hrun, ← h6]; simp
  · rw [hrun]
    by_cases h : asciiLower s ∈ dataTypeNames
    · have : lookupDataType (asciiLower s) ≠ DataType.kUnknown := fun hu => h6.mp hu h
      simp [h, this]
    · have : lookupDataType (asciiLower s) = DataType.kUnknown := h6.mpr h
      simp [h, this]
  · rw [hrun, parseDataType_run (asciiLower s) st, asciiLower_idem]

/-- C17: `parseTensorFormat` is a total lookup on the ASCII-lower-cased
string `l`: it returns a value for every string, `kContiguous` exactly when
`l` is one of linear, nchw, chw, contiguous, `kChannelsLast` exactly for nhwc,
hwc, channels_last, and `kUnknown` exactly for every other string; an error
naming `l` is logged in the last case and nothing is logged otherwise. -/
theorem parseTensorFormat_case_insensitive_lookup (s : Str) (st : St) :
    (parseTensorFormat s st).1 = Res.ok (lookupTensorFormat (asciiLower s)) ∧
    ((parseTensorFormat s st).1 = Res.ok TensorFormat.kContiguous ↔
      asciiLower s ∈ contiguousNames) ∧
    ((parseTensorFormat s st).1 = Res.ok TensorFormat.kChannelsLast ↔
      asciiLower s ∈ channelsLastNames) ∧
    ((parseTensorFormat s st).1 = Res.ok TensorFormat.kUnknown ↔
      asciiLower s ∉ tensorFormatNames) ∧
    (parseTensorFormat s st).2 =
      (if asciiLower s ∈ tensorFormatNames then st
       else { st with trace := st.trace ++
                [Event.log Level.kERROR (Msg.invalidTensorFormat (asciiLower s))] }) := by
  obtain ⟨h1, h2, h3⟩ := lookupTensorFormat_iff (asciiLower s)
  have hrun := parseTensorFormat_run s st
  refine ⟨by rw [hrun], ?_, ?_, ?_, ?_⟩
  · rw [hrun, ← h1]; simp
  · rw [hrun, ← h2]; simp
  · rw [hrun, ← h3]; simp
  · rw [hrun]
    by_cases h : asciiLower s ∈ tensorFormatNames
    · have : lookupTensorFormat (asciiLower s) ≠ TensorFormat.kUnknown := fun hu => h3.mp hu h
      simp [h, this]
    · have : lookupTensorFormat (asciiLower s) = TensorFormat.kUnknown := h3.mpr h
      simp [h, this]

/-- C18: the format name of the usage message is not accepted:
`parseTensorFormat("channel_last")` logs an error and returns `kUnknown`, the
example spec "(3,3,300,300)@f32%channel_last" of the usage message is
rejected with the invalid-format error, the usage text and exit status 1,
and a command line with that spec ends with exit status 1 after these
entries, without loading the module. -/
theorem documented_format_rejected :
    parseTensorFormat "channel_last".toList St.init =
      (Res.ok TensorFormat.kUnknown,
        { St.init with trace :=
            [Event.log Level.kERROR (Msg.invalidTensorFormat "channel_last".toList)] }) ∧
    (∀ env : Env, parseInputSpec env documentedSpec St.init =
      (Res.exit 1,
        { St.init with trace :=
            [Event.log Level.kERROR (Msg.invalidTensorFormat "channel_last".toList),
             Event.log Level.kERROR (Msg.invalidInputFormat documentedSpec),
             Event.usage] })) ∧
    main Args.documented (Env.sample [] []) St.init =
      (Res.exit 1,
        { St.init with trace :=
            [Event.set_reportable_log_level Level.kWARNING,
             Event.log Level.kERROR (Msg.invalidTensorFormat "channel_last".toList),
             Event.log Level.kERROR (Msg.invalidInputFormat documentedSpec),
             Event.usage] }) := by
  exact ⟨by decide, fun env => rfl, by decide⟩

/-! ## Decimal numerals and the round trip of shapes -/

theorem digitChar_spec (d : Nat) (h : d < 10) :
    isdigit (Nat.digitChar d) = true ∧ (Nat.digitChar d).toNat - 48 = d := by
  interval_cases d <;> exact ⟨by decide, by decide⟩

/-- The digits `Nat.toDigitsCore` puts before its accumulator: a non-empty
run of decimal digits whose value, read from the left, is `n`. -/
theorem toDigitsCore_spec (fuel : Nat) : ∀ (n : Nat) (acc : Str), n < fuel →
    ∃ ds : Str, Nat.toDigitsCore 10 fuel n acc = ds ++ acc ∧ ds ≠ [] ∧
      (∀ c ∈ ds, isdigit c = true) ∧
      ∀ a0, ds.foldl (fun acc c => 10 * acc + (c.toNat - 48)) a0 = a0 * 10 ^ ds.length + n := by
  induction fuel with
  | zero => intro n acc h; omega
  | succ fuel ih =>
    intro n acc h
    have hd := digitChar_spec (n % 10) (Nat.mod_lt _ (by norm_num))
    unfold Nat.toDigitsCore
    by_cases h0 : n / 10 = 0
    · refine ⟨[Nat.digitChar (n % 10)], by simp [h0], by simp, ?_, ?_⟩
      · intro c hc
        rw [List.mem_singleton.mp hc]
        exact hd.1
      · intro a0
        simp only [List.foldl_cons, List.foldl_nil, hd.2, List.length_singleton, pow_one]
        have := Nat.div_add_mod n 10
        omega
    · have hlt : n / 10 < fuel := by omega
      obtain ⟨ds, h1, h2, h3, h4⟩ := ih (n / 10) (Nat.digitChar (n % 10) :: acc) hlt
      refine ⟨ds ++ [Nat.digitChar (n % 10)], by simp [h0, h1], by simp, ?_, ?_⟩
      · intro c hc
        rcases List.mem_append.mp hc with hc | hc
        · exact h3 c hc
        · rw [List.mem_singleton.mp hc]
          exact hd.1
      · intro a0
        simp only [List.foldl_append, List.foldl_cons, List.foldl_nil, h4, hd.2,
          List.length_append, List.length_singleton, pow_succ]
        have := Nat.div_add_mod n 10
        ring_nf
        omega

/-- The numeral of `n` is a non-empty run of decimal digits of value `n`. -/
theorem decimal_spec (n : Nat) :
    decimal n ≠ [] ∧ (∀ c ∈ decimal n, isdigit c = true) ∧ digitsValue (decimal n) = n := by
  obtain ⟨ds, h1, h2, h3, h4⟩ := toDigitsCore_spec (n + 1) n [] (Nat.lt_succ_self n)
  have hd : decimal n = ds := by
    unfold decimal Nat.toDigits
    simpa using h1
  rw [hd]
  refine ⟨h2, h3, ?_⟩
  unfold digitsValue
  simpa using h4 0

theorem isdigit_not_special {c : Char} (h : isdigit c = true) :
    isspace c = false ∧ c ≠ '-' ∧ c ≠ '+' ∧ c ≠ '(' ∧ c ≠ ' ' ∧ c ≠ ',' ∧ c ≠ ')' := by
  refine ⟨?_, ?_, ?_, ?_, ?_, ?_, ?_⟩
  · unfold isdigit at h
    unfold isspace
    have h1 := of_decide_eq_true h
    have e : ∀ d : Char, (c == d) = true → c.toNat = d.toNat := fun d hd => by
      rw [beq_iff_eq.mp hd]
    by_contra hs
    simp only [Bool.not_eq_false, Bool.or_eq_true] at hs
    rcases hs with ((((hs | hs) | hs) | hs) | hs) | hs <;>
      · have := e _ hs
        revert this
        intro this
        have h48 := h1.1
        rw [this] at h48
        revert h48
        decide
  all_goals
    intro e
    subst e
    revert h
    decide

/-- The extraction of an `int64_t` from a stream that holds a run of digits of
a value in range: the value, and nothing left unread. -/
theorem extractInt64_digits (uninit : Int) (ds : Str) (hne : ds ≠ [])
    (hd : ∀ c ∈ ds, isdigit c = true) (hfit : digitsValue ds < 2 ^ 63) :
    extractInt64 uninit ds = ((digitsValue ds : Int), []) := by
  cases ds with
  | nil => exact absurd rfl hne
  | cons c r =>
    obtain ⟨hs, hm, hp, _⟩ := isdigit_not_special (hd c (List.mem_cons_self _ _))
    have htake : (c :: r).takeWhile isdigit = c :: r :=
      List.takeWhile_eq_self_iff.mpr hd
    have hdrop : (c :: r).dropWhile isdigit = [] :=
      List.dropWhile_eq_nil_iff.mpr hd
    have hsp : (c :: r).dropWhile isspace = c :: r := by
      simp [List.dropWhile_cons, hs]
    have hle : ¬ ((digitsValue (c :: r) : Int) > INT64_MAX) := by
      unfold INT64_MAX
      omega
    have hpl : (c == '+') = false := by simp [hp]
    have hneg : (c == '-') = false := by simp [hm]
    unfold extractInt64
    rw [hsp]
    simp only [hneg, hpl, Bool.or_self, Bool.false_eq_true, if_false, htake, hdrop, List.isEmpty_cons, hle]

/-- The loop of `parseSingleDim` skips spaces wherever they stand. -/
theorem parseSingleDimLoop_withoutSpaces (uninit : Int) (text : Str) :
    ∀ (shape : List Int) (ss : Str),
      parseSingleDimLoop uninit (withoutSpaces text) shape ss =
        parseSingleDimLoop uninit text shape ss := by
  induction text with
  | nil => intro shape ss; rfl
  | cons c cs ih =>
    intro shape ss
    by_cases hc : c = ' '
    · subst hc
      have : withoutSpaces (' ' :: cs) = withoutSpaces cs := by
        simp [withoutSpaces]
      rw [this, ih]
      conv_rhs => unfold parseSingleDimLoop
      simp
    · have : withoutSpaces (c :: cs) = c :: withoutSpaces cs := by
        simp [withoutSpaces, hc]
      rw [this]
      unfold parseSingleDimLoop
      simp only [ih]

/-- The loop of `parseSingleDim` moves a run of digits into the stream. -/
theorem parseSingleDimLoop_digits (uninit : Int) (ds rest : Str)
    (hd : ∀ c ∈ ds, isdigit c = true) :
    ∀ (shape : List Int) (ss : Str),
      parseSingleDimLoop uninit (ds ++ rest) shape ss =
        parseSingleDimLoop uninit rest shape (ss ++ ds) := by
  induction ds with
  | nil => intro shape ss; simp
  | cons c cs ih =>
    intro shape ss
    obtain ⟨_, _, _, h1, h2, h3, h4⟩ := isdigit_not_special (hd c (List.mem_cons_self _ _))
    rw [List.cons_append]
    conv_lhs => unfold parseSingleDimLoop
    simp only [h1, h2, h3, h4, or_self, if_false]
    rw [ih (fun x hx => hd x (List.mem_cons_of_mem _ hx))]
    simp

/-- The loop of `parseSingleDim` on runs of digits separated by commas and
closed by a parenthesis: the values of the runs, in order. -/
theorem parseSingleDimLoop_tokens (uninit : Int) (tokens : List Str) (hne : tokens ≠ [])
    (htok : ∀ t ∈ tokens, t ≠ [] ∧ (∀ c ∈ t, isdigit c = true) ∧ digitsValue t < 2 ^ 63) :
    ∀ shape : List Int,
      parseSingleDimLoop uninit (joinWith ',' tokens ++ [')']) shape [] =
        some (shape ++ tokens.map fun t => (digitsValue t : Int)) := by
  induction tokens with
  | nil => exact absurd rfl hne
  | cons t rest ih =>
    intro shape
    obtain ⟨h1, h2, h3⟩ := htok t (List.mem_cons_self _ _)
    have hex := extractInt64_digits uninit t h1 h2 h3
    cases rest with
    | nil =>
      show parseSingleDimLoop uninit (t ++ [')']) shape [] = _
      rw [parseSingleDimLoop_digits uninit t _ h2]
      unfold parseSingleDimLoop
      simp [hex]
    | cons t2 rest =>
      rw [joinWith_cons_cons, List.append_assoc, List.cons_append,
        parseSingleDimLoop_digits uninit t _ h2]
      unfold parseSingleDimLoop
      simp only [List.nil_append, hex, if_true]
      rw [ih (by simp) (fun x hx => htok x (List.mem_cons_of_mem _ hx))]
      simp

/-- The numerals of a list of dimensions in range are runs of digits with
the dimensions as their values. -/
theorem decimal_tokens (shape : List Nat) (hfit : ∀ n ∈ shape, n < 2 ^ 63) :
    (∀ t ∈ shape.map decimal,
      t ≠ [] ∧ (∀ c ∈ t, isdigit c = true) ∧ digitsValue t < 2 ^ 63) ∧
    ((shape.map decimal).map fun t => (digitsValue t : Int)) = shape.map Int.ofNat := by
  constructor
  · intro t ht
    obtain ⟨n, hn, rfl⟩ := List.mem_map.mp ht
    obtain ⟨h1, h2, h3⟩ := decimal_spec n
    exact ⟨h1, h2, by rw [h3]; exact hfit n hn⟩
  · rw [List.map_map]
    apply List.map_congr_left
    intro n _
    simp [(decimal_spec n).2.2]

/-- The loop of `parseSingleDim` on the text of a shape, spaces aside. -/
theorem parseSingleDimLoop_shapeText (uninit : Int) (shape : List Nat) (text : Str)
    (hne : shape ≠ []) (hfit : ∀ n ∈ shape, n < 2 ^ 63)
    (htext : withoutSpaces text = shapeText shape) :
    parseSingleDimLoop uninit text [] [] = some (shape.map Int.ofNat) := by
  obtain ⟨h1, h2⟩ := decimal_tokens shape hfit
  rw [← parseSingleDimLoop_withoutSpaces, htext]
  unfold shapeText
  rw [List.cons_append]
  unfold parseSingleDimLoop
  simp only [true_or, if_true]
  rw [parseSingleDimLoop_tokens uninit _ (by simpa using hne) h1, h2]
  simp

theorem shapeText_isShapeText (shape : List Nat) (hne : shape ≠ []) :
    IsShapeText (shapeText shape) := by
  refine ⟨shape.map decimal, by simpa using hne, ?_, rfl⟩
  intro t ht
  obtain ⟨n, _, rfl⟩ := List.mem_map.mp ht
  exact ⟨(decimal_spec n).1, (decimal_spec n).2.1⟩

theorem singleDim_shapeText (uninit : Int) (shape : List Nat) (hne : shape ≠ [])
    (hfit : ∀ n ∈ shape, n < 2 ^ 63) :
    singleDim uninit (shapeText shape) = shape.map Int.ofNat := by
  unfold singleDim
  rw [parseSingleDimLoop_shapeText uninit shape (shapeText shape) hne hfit]
  · rfl
  · have h := shapeText_isShapeText shape hne
    unfold withoutSpaces
    rw [List.filter_eq_self]
    intro c hc
    by_contra hsp
    have : c = ' ' := by simpa using hsp
    subst this
    exact h.not_mem (by decide) (by decide) (by decide) (by decide) hc

/-- C13: round trip of the static shape syntax. For every non-empty list of
natural numbers below `2 ^ 63` and every text that, spaces aside, is "("
followed by their decimal numerals joined by "," and ")", `parseSingleDim`
returns exactly that list, in order, and leaves the log alone. -/
theorem parseSingleDim_round_trip (uninit : Int) (shape : List Nat) (text : Str) (s : St)
    (hne : shape ≠ []) (hfit : ∀ n ∈ shape, n < 2 ^ 63)
    (htext : withoutSpaces text = shapeText shape) :
    parseSingleDim uninit text s = (Res.ok (shape.map Int.ofNat), s) := by
  unfold parseSingleDim
  rw [parseSingleDimLoop_shapeText uninit shape text hne hfit htext]
  rfl

/-- The text "(3,3,200,200)" gives the shape 3, 3, 200, 200, and so does the
same text with spaces. -/
theorem parseSingleDim_round_trip_witness :
    parseSingleDim 0 "(3,3,200,200)".toList St.init = (Res.ok [3, 3, 200, 200], St.init) ∧
    parseSingleDim 0 "( 3, 3 ,200,  200 )".toList St.init =
      (Res.ok [3, 3, 200, 200], St.init) :=
  ⟨parseSingleDim_round_trip 0 [3, 3, 200, 200] "(3,3,200,200)".toList St.init
      (by decide) (by decide) (by decide),
   parseSingleDim_round_trip 0 [3, 3, 200, 200] "( 3, 3 ,200,  200 )".toList St.init
      (by decide) (by decide) (by decide)⟩

/-! ## What `parseSingleDim` rejects -/

/-- An empty list and an empty element are read from the uninitialised
`dim`. -/
theorem empty_element_reads_uninit (uninit : Int) :
    parseSingleDim uninit "()".toList St.init = (Res.ok [uninit], St.init) ∧
    parseSingleDim uninit "(3,,4)".toList St.init = (Res.ok [3, uninit, 4], St.init) :=
  ⟨rfl, rfl⟩

/-- C14, counterexample: a non-numeric element and a missing opening
parenthesis are not rejected. The text "(3,x)" gives the shape 3, 0 and the
text "3,4)" the shape 3, 4, without any log entry, whatever the
uninitialised `dim` holds. -/
theorem malformed_shapes_accepted :
    parseSingleDim 0 "(3,x)".toList St.init = (Res.ok [3, 0], St.init) ∧
    parseSingleDim 0 "3,4)".toList St.init = (Res.ok [3, 4], St.init) ∧
    (∀ uninit : Int,
      parseSingleDim uninit "(3,x)".toList St.init = (Res.ok [3, 0], St.init) ∧
      parseSingleDim uninit "3,4)".toList St.init = (Res.ok [3, 4], St.init)) :=
  ⟨by decide, by decide, fun _ => ⟨rfl, rfl⟩⟩

/-- C14, as the code has it. The function `parseSingleDim` logs the
shape-format error and ends the process with exit status 1 exactly on the
strings without a closing parenthesis; on every string with one it returns a
shape and leaves the log alone. -/
theorem parseSingleDim_rejects_iff_unclosed (uninit : Int) (str : Str) (s : St) :
    (parseSingleDim uninit str s =
        (Res.exit 1, { s with trace := s.trace ++ [Event.log Level.kERROR Msg.shapeFormat] })
      ↔ ')' ∉ str) ∧
    ((∃ shape, parseSingleDim uninit str s = (Res.ok shape, s)) ↔ ')' ∈ str) := by
  by_cases h : ')' ∈ str
  · have hrun := parseSingleDim_of_mem uninit str h s
    rw [hrun]
    simp [h]
  · have hrun := parseSingleDim_of_not_mem uninit str h s
    rw [hrun]
    simp [h]

/-! ## The round trip of dynamic shapes -/

/-- C15: round trip of the dynamic shape syntax. For all non-empty lists of
natural numbers below `2 ^ 63`, `parseDynamicDim` on "[" followed by their
three shape texts joined by ";" and "]" returns exactly the three lists in
that order, and the body of the loop over the input specs of `main` builds
the `Input` with the first as minimum, the second as optimal and the third
as maximum shape. -/
theorem parseDynamicDim_round_trip (env : Env) (min opt max : List Nat) (s : St)
    (hmin : min ≠ []) (hopt : opt ≠ []) (hmax : max ≠ [])
    (hfit : ∀ n ∈ min ++ opt ++ max, n < 2 ^ 63) :
    parseDynamicDim env.uninit (dynamicText min opt max) s =
      (Res.ok [min.map Int.ofNat, opt.map Int.ofNat, max.map Int.ofNat], s) ∧
    parseInputSpec env (dynamicText min opt max) s =
      (Res.ok { shape := ShapeSpec.range (min.map Int.ofNat) (opt.map Int.ofNat)
                  (max.map Int.ofNat), dtype := none, format := none },
        { s with trace := s.trace ++ [Event.log Level.kDEBUG (Msg.parsedInput
            { shape := ShapeSpec.range (min.map Int.ofNat) (opt.map Int.ofNat)
                (max.map Int.ofNat), dtype := none, format := none })] }) := by
  have f1 : ∀ n ∈ min, n < 2 ^ 63 := fun n hn => hfit n (by simp [hn])
  have f2 : ∀ n ∈ opt, n < 2 ^ 63 := fun n hn => hfit n (by simp [hn])
  have f3 : ∀ n ∈ max, n < 2 ^ 63 := fun n hn => hfit n (by simp [hn])
  have t1 := shapeText_isShapeText min hmin
  have t2 := shapeText_isShapeText opt hopt
  have t3 := shapeText_isShapeText max hmax
  have e1 := singleDim_shapeText env.uninit min hmin f1
  have e2 := singleDim_shapeText env.uninit opt hopt f2
  have e3 := singleDim_shapeText env.uninit max hmax f3
  constructor
  · have hdyn := parseDynamicDim_joinWith env.uninit [shapeText min, shapeText opt, shapeText max]
      (by simp) (by
        intro g hg
        simp only [List.mem_cons, List.mem_singleton, List.not_mem_nil, or_false] at hg
        rcases hg with rfl | rfl | rfl
        · exact ⟨t1.mem_close, t1.not_mem_semicolon⟩
        · exact ⟨t2.mem_close, t2.not_mem_semicolon⟩
        · exact ⟨t3.mem_close, t3.not_mem_semicolon⟩) s
    unfold dynamicText
    rw [hdyn]
    simp [e1, e2, e3]
  · have h := parseInputSpec_dynamic env _ _ _ s t1 t2 t3
    rw [e1, e2, e3] at h
    exact h

/-- The spec "[(3,3,100,100);(3,3,200,200);(3,3,300,300)]" gives the three
shapes in order, and `main` compiles with them as the minimum, optimal and
maximum shape of the one `Input`. -/
theorem parseDynamicDim_round_trip_witness :
    parseDynamicDim 0 "[(3,3,100,100);(3,3,200,200);(3,3,300,300)]".toList St.init =
      (Res.ok [[3, 3, 100, 100], [3, 3, 200, 200], [3, 3, 300, 300]], St.init) ∧
    (parseInputSpec (Env.sample [] []) "[(3,3,100,100);(3,3,200,200);(3,3,300,300)]".toList
        St.init).1 =
      Res.ok { shape := ShapeSpec.range [3, 3, 100, 100] [3, 3, 200, 200] [3, 3, 300, 300],
               dtype := none, format := none } ∧
    Event.compile { CompileSpec.sample with
        inputs := [{ shape := ShapeSpec.range [3, 3, 100, 100] [3, 3, 200, 200] [3, 3, 300, 300],
                     dtype := none, format := none }] }
      ∈ (main Args.dynamic (Env.sample [] []) St.init).2.trace := by
  have h := parseDynamicDim_round_trip (Env.sample [] []) [3, 3, 100, 100] [3, 3, 200, 200]
    [3, 3, 300, 300] St.init (by decide) (by decide) (by decide) (by decide)
  exact ⟨h.1, congrArg Prod.fst h.2, by decide⟩

/-! ## The parts of an input spec -/

theorem dataTypeOf_eq (d : Str) : dataTypeOf d = lookupDataType (asciiLower d) := by
  unfold dataTypeOf
  rw [parseDataType_run]

theorem tensorFormatOf_eq (f : Str) : tensorFormatOf f = lookupTensorFormat (asciiLower f) := by
  unfold tensorFormatOf
  rw [parseTensorFormat_run]

theorem not_mem_of_asciiLower {c : Char} (hc : c.toLower = c) {str : Str}
    (h : c ∉ asciiLower str) : c ∉ str := by
  intro hmem
  apply h
  unfold asciiLower
  rw [← hc]
  exact List.mem_map_of_mem _ hmem

/-- A token known to `parseDataType` is parsed without a log entry and holds
neither "@" nor "%". -/
theorem parseDataType_valid {d : Str} (h : dataTypeOf d ≠ DataType.kUnknown) :
    (∀ s, parseDataType d s = (Res.ok (dataTypeOf d), s)) ∧ '@' ∉ d ∧ '%' ∉ d := by
  rw [dataTypeOf_eq] at h
  have hmem : asciiLower d ∈ dataTypeNames := by
    by_contra hn
    exact h ((lookupDataType_iff _).2.2.2.2.2.mpr hn)
  have hall : ∀ n ∈ dataTypeNames, '@' ∉ n ∧ '%' ∉ n := by decide
  refine ⟨?_, not_mem_of_asciiLower rfl (hall _ hmem).1, not_mem_of_asciiLower rfl (hall _ hmem).2⟩
  intro s
  rw [parseDataType_run, dataTypeOf_eq, if_neg h]

/-- A token known to `parseTensorFormat` is parsed without a log entry and
holds neither "@" nor "%". -/
theorem parseTensorFormat_valid {f : Str} (h : tensorFormatOf f ≠ TensorFormat.kUnknown) :
    (∀ s, parseTensorFormat f s = (Res.ok (tensorFormatOf f), s)) ∧ '@' ∉ f ∧ '%' ∉ f := by
  rw [tensorFormatOf_eq] at h
  have hmem : asciiLower f ∈ tensorFormatNames := by
    by_contra hn
    exact h ((lookupTensorFormat_iff _).2.2.mpr hn)
  have hall : ∀ n ∈ tensorFormatNames, '@' ∉ n ∧ '%' ∉ n := by decide
  refine ⟨?_, not_mem_of_asciiLower rfl (hall _ hmem).1, not_mem_of_asciiLower rfl (hall _ hmem).2⟩
  intro s
  rw [parseTensorFormat_run, tensorFormatOf_eq, if_neg h]

/-- The test on the first character for a shape text in parentheses. -/
theorem makeInput_static (env : Env) {shapes : Str} (hopen : startsWith shapes '(' = true)
    (hclose : ')' ∈ shapes) (dtype : Option DataType) (format : Option TensorFormat) (s : St) :
    makeInput env shapes dtype format s =
      (Res.ok { shape := ShapeSpec.fixed (singleDim env.uninit shapes), dtype := dtype,
                format := format }, s) := by
  unfold makeInput
  rw [hopen]
  simp [Proc.bind_apply, parseSingleDim_of_mem env.uninit shapes hclose]

theorem substr_prefix (a b : Str) (s : St) : substr (a ++ b) 0 a.length s = (Res.ok a, s) := by
  rw [substr_of_le _ _ _ (Nat.zero_le _)]
  simp

theorem substr_middle (a b c : Str) (x : Char) (n : Nat) (hn : n = b.length) (s : St) :
    substr (a ++ x :: b ++ c) (a.length + 1) n s = (Res.ok b, s) := by
  rw [substr_of_le _ _ _ (by simp)]
  subst hn
  have : List.drop (a.length + 1) (a ++ x :: b ++ c) = b ++ c := by
    rw [List.append_assoc, List.drop_append_eq_append_drop]
    simp
  rw [this]
  simp

theorem substr_suffix (a b : Str) (x : Char) (n : Nat) (hn : b.length ≤ n) (s : St) :
    substr (a ++ x :: b) (a.length + 1) n s = (Res.ok b, s) := by
  rw [substr_of_le _ _ _ (by simp)]
  have : List.drop (a.length + 1) (a ++ x :: b) = b := by
    rw [List.drop_append_eq_append_drop]
    simp
  rw [this, List.take_of_length_le hn]
  rfl

/-- The body of the loop over the input specs on a spec given in its parts:
the `Input` of the parts and one debug entry. -/
theorem parseInputSpec_parts (env : Env) (p : SpecParts) (h : p.WellFormed) (s : St) :
    parseInputSpec env p.text s =
      (Res.ok (p.input env.uninit),
        { s with trace := s.trace ++
            [Event.log Level.kDEBUG (Msg.parsedInput (p.input env.uninit))] }) := by
  obtain ⟨shapes, dtype, format⟩ := p
  obtain ⟨hopen, hclose, hat, hpc, hd, hf⟩ := h
  simp only at hopen hclose hat hpc hd hf
  have hmk := makeInput_static env hopen hclose
  cases dtype with
  | none =>
    cases format with
    | none =>
      have e1 : find shapes '@' = none := find_eq_none hat
      have e2 : find shapes '%' = none := find_eq_none hpc
      simp only [SpecParts.text, SpecParts.input, List.append_nil, Option.map_none']
      unfold parseInputSpec
      simp only [e1, e2, bind_eq, pure_eq, Proc.bind_apply, log_apply, Proc.pure_apply, hmk]
    | some f =>
      have hf1 : tensorFormatOf f ≠ TensorFormat.kUnknown := by simpa using hf
      obtain ⟨hrun, fat, _⟩ := parseTensorFormat_valid hf1
      have e1 : find (shapes ++ '%' :: f) '@' = none := find_eq_none (by simp [hat, fat])
      have e2 : find (shapes ++ '%' :: f) '%' = some shapes.length := find_append f hpc
      have e3 := substr_prefix shapes ('%' :: f) s
      have e4 := substr_suffix shapes f '%' (shapes ++ '%' :: f).length (by simp; omega) s
      simp only [SpecParts.text, SpecParts.input, List.append_nil, Option.map_none',
        Option.map_some']
      generalize shapes ++ '%' :: f = spec at e1 e2 e3 e4 ⊢
      unfold parseInputSpec
      simp only [e1, e2, e3, e4, bind_eq, pure_eq, Proc.bind_apply, log_apply, Proc.pure_apply,
        hrun, hf1, if_false, hmk]
  | some d =>
    have hd1 : dataTypeOf d ≠ DataType.kUnknown := by simpa using hd
    obtain ⟨drun, _, dpc⟩ := parseDataType_valid hd1
    cases format with
    | none =>
      have e1 : find (shapes ++ '@' :: d) '@' = some shapes.length := find_append d hat
      have e2 : find (shapes ++ '@' :: d) '%' = none := find_eq_none (by simp [hpc, dpc])
      have e3 := substr_prefix shapes ('@' :: d) s
      have e4 := substr_suffix shapes d '@' (shapes ++ '@' :: d).length (by simp; omega) s
      simp only [SpecParts.text, SpecParts.input, List.append_nil, Option.map_none',
        Option.map_some']
      generalize shapes ++ '@' :: d = spec at e1 e2 e3 e4 ⊢
      unfold parseInputSpec
      simp only [e1, e2, e3, e4, bind_eq, pure_eq, Proc.bind_apply, log_apply, Proc.pure_apply,
        drun, hd1, if_false, hmk]
    | some f =>
      have hf1 : tensorFormatOf f ≠ TensorFormat.kUnknown := by simpa using hf
      obtain ⟨hrun, _, _⟩ := parseTensorFormat_valid hf1
      have e1 : find (shapes ++ '@' :: d ++ '%' :: f) '@' = some shapes.length := by
        rw [List.append_assoc]
        exact find_append _ hat
      have e2 : find (shapes ++ '@' :: d ++ '%' :: f) '%' =
          some (shapes.length + 1 + d.length) := by
        have := find_append (g := shapes ++ '@' :: d) (c := '%') f (by simp [hpc, dpc])
        rw [this]
        simp only [List.length_append, List.length_cons]
        congr 1
        omega
      have e3 : subSize (shapes.length + 1 + d.length) (shapes.length + 1) = d.length := by
        unfold subSize
        rw [if_pos (by omega)]
        omega
      have e4 : substr (shapes ++ '@' :: d ++ '%' :: f) 0 shapes.length s = (Res.ok shapes, s) := by
        rw [List.append_assoc]
        exact substr_prefix _ _ s
      have e5 : substr (shapes ++ '@' :: d ++ '%' :: f) (shapes.length + 1 + d.length + 1)
          (shapes ++ '@' :: d ++ '%' :: f).length s = (Res.ok f, s) := by
        have := substr_suffix (shapes ++ '@' :: d) f '%'
          (shapes ++ '@' :: d ++ '%' :: f).length (by simp; omega) s
        rw [← this]
        congr 1
        simp only [List.length_append, List.length_cons]
        omega
      have e6 := substr_middle shapes d ('%' :: f) '@' d.length rfl s
      simp only [SpecParts.text, SpecParts.input, Option.map_some']
      generalize shapes ++ '@' :: d ++ '%' :: f = spec at e1 e2 e4 e5 e6 ⊢
      unfold parseInputSpec
      simp only [e1, e2, e3, e4, e5, e6, bind_eq, pure_eq, Proc.bind_apply, log_apply,
        Proc.pure_apply, drun, hrun, hd1, hf1, if_false, hmk]

/-- The loop over the input specs on specs given in their parts: it appends
the `Input` of each, in order, and logs each at debug level. -/
theorem parseInputSpecs_parts (env : Env) (parts : List SpecParts)
    (h : ∀ p ∈ parts, p.WellFormed) :
    ∀ (ranges : List Input) (s : St),
      parseInputSpecs env (parts.map SpecParts.text) ranges s =
        (Res.ok (ranges ++ parts.map (SpecParts.input env.uninit)),
          { s with trace := s.trace ++ parts.map fun p =>
              Event.log Level.kDEBUG (Msg.parsedInput (p.input env.uninit)) }) := by
  induction parts with
  | nil =>
    intro ranges s
    simp [parseInputSpecs, Proc.pure_apply]
  | cons p rest ih =>
    intro ranges s
    rw [List.map_cons]
    unfold parseInputSpecs
    simp only [bind_eq, Proc.bind_apply,
      parseInputSpec_parts env p (h p (List.mem_cons_self _ _))]
    rw [ih (fun q hq => h q (List.mem_cons_of_mem _ hq))]
    simp

/-- A spec whose shape text starts with "(" and is, spaces aside, a
well-formed shape text, and whose tokens are known, is well-formed. -/
theorem SpecParts.wellFormed_of_shapeText (p : SpecParts)
    (hopen : startsWith p.shapes '(' = true) (hshape : IsShapeText (withoutSpaces p.shapes))
    (hd : p.dtype.map dataTypeOf ≠ some DataType.kUnknown)
    (hf : p.format.map tensorFormatOf ≠ some TensorFormat.kUnknown) : p.WellFormed := by
  have hmem : ∀ c : Char, c ≠ ' ' → c ∈ p.shapes → c ∈ withoutSpaces p.shapes := by
    intro c hc hm
    unfold withoutSpaces
    exact List.mem_filter.mpr ⟨hm, by simpa using hc⟩
  refine ⟨hopen, ?_, ?_, ?_, hd, hf⟩
  · have := hshape.mem_close
    unfold withoutSpaces at this
    exact (List.mem_filter.mp this).1
  · intro h
    exact hshape.not_mem (by decide) (by decide) (by decide) (by decide)
      (hmem _ (by decide) h)
  · intro h
    exact hshape.not_mem (by decide) (by decide) (by decide) (by decide)
      (hmem _ (by decide) h)

/-- C12: an input spec decomposes as shape, "@" dtype, "%" format, the last
two optional. For every list of specs whose shape text starts with "(",
holds a ")" and neither "@" nor "%", and whose dtype and format tokens, where
given, are known to `parseDataType` and `parseTensorFormat`, the loop over
the input specs appends to `ranges` exactly one `Input` per spec, in the
order of the specs: the one built from the shape `parseSingleDim` returns on
the shape text, the value of `parseDataType` on the dtype token when there is
one, and the value of `parseTensorFormat` on the format token when there is
one. Each of the three parsers leaves the log alone on its part. -/
theorem input_spec_decomposes (env : Env) (parts : List SpecParts) (ranges : List Input)
    (s : St) (h : ∀ p ∈ parts, p.WellFormed) :
    parseInputSpecs env (parts.map SpecParts.text) ranges s =
      (Res.ok (ranges ++ parts.map (SpecParts.input env.uninit)),
        { s with trace := s.trace ++ parts.map fun p =>
            Event.log Level.kDEBUG (Msg.parsedInput (p.input env.uninit)) }) ∧
    ∀ p ∈ parts,
      parseSingleDim env.uninit p.shapes s = (Res.ok (singleDim env.uninit p.shapes), s) ∧
      (∀ d ∈ p.dtype, parseDataType d s = (Res.ok (dataTypeOf d), s)) ∧
      (∀ f ∈ p.format, parseTensorFormat f s = (Res.ok (tensorFormatOf f), s)) := by
  refine ⟨parseInputSpecs_parts env parts h ranges s, ?_⟩
  intro p hp
  obtain ⟨_, hclose, _, _, hd, hf⟩ := h p hp
  refine ⟨parseSingleDim_of_mem _ _ hclose s, ?_, ?_⟩
  · intro d hdm
    rw [Option.mem_def] at hdm
    rw [hdm] at hd
    exact (parseDataType_valid (by simpa using hd)).1 s
  · intro f hfm
    rw [Option.mem_def] at hfm
    rw [hfm] at hf
    exact (parseTensorFormat_valid (by simpa using hf)).1 s

/-- The spec "(3, 3, 32, 32)@f16%NHWC" yields the shape 3, 3, 32, 32, the
dtype half and the channels-last format, and `main` compiles with that
`Input`. -/
theorem input_spec_decomposes_witness :
    SpecParts.sample.WellFormed ∧
    (parseInputSpecs (Env.sample [] []) ["(3, 3, 32, 32)@f16%NHWC".toList] [] St.init).1 =
      Res.ok [{ shape := ShapeSpec.fixed [3, 3, 32, 32], dtype := some DataType.kHalf,
                format := some TensorFormat.kChannelsLast }] ∧
    Event.compile { CompileSpec.sample with
        inputs := [{ shape := ShapeSpec.fixed [3, 3, 32, 32], dtype := some DataType.kHalf,
                     format := some TensorFormat.kChannelsLast }] }
      ∈ (main Args.typed (Env.sample [] []) St.init).2.trace := by
  have hw : ∀ p ∈ [SpecParts.sample], p.WellFormed := by decide
  have h := input_spec_decomposes (Env.sample [] []) [SpecParts.sample] [] St.init hw
  exact ⟨hw _ (List.mem_singleton_self _), congrArg Prod.fst h.1, by decide⟩

/-! ## The loop over `--enabled-precision` -/

theorem parseDataType_settings (str : Str) (s : St) :
    ∃ evs, parseDataType str s =
      (Res.ok (dataTypeOf str), { s with trace := s.trace ++ evs }) := by
  rw [parseDataType_run, dataTypeOf_eq]
  split_ifs
  · exact ⟨_, rfl⟩
  · exact ⟨[], by simp⟩

/-- The body of the loop on a type that is accepted: the type is inserted
into `enabled_precisions`. -/
theorem enablePrecision_valid (calibrator : Option Str) {d : DataType}
    (hd : d.isKernelPrecision = true) {s : St} {c : CompileSpec}
    (hc : s.compile_settings = some c) :
    ∃ s1 c1, enablePrecision calibrator d s = (Res.ok (), s1) ∧
      s1.compile_settings = some c1 ∧
      c1.enabled_precisions = insert d c.enabled_precisions := by
  unfold enablePrecision
  cases d <;> simp only [DataType.isKernelPrecision, Bool.false_eq_true] at hd
  · simp [modifySettings_apply, hc]
  · simp [modifySettings_apply, hc]
  · cases calibrator <;>
      simp [modifySettings_apply, hc, Proc.bind_apply, log_apply, emit_apply]

/-- The body of the loop on a type that is accepted ends normally, whatever
the state. -/
theorem enablePrecision_ok (calibrator : Option Str) {d : DataType}
    (hd : d.isKernelPrecision = true) (s : St) :
    ∃ s1, enablePrecision calibrator d s = (Res.ok (), s1) := by
  unfold enablePrecision
  cases d <;> simp only [DataType.isKernelPrecision, Bool.false_eq_true] at hd
  · simp [modifySettings_apply]
  · simp [modifySettings_apply]
  · cases calibrator <;>
      simp [modifySettings_apply, Proc.bind_apply, log_apply, emit_apply]

/-- The body of the loop on a type that is not accepted: the error entry,
the usage text, and exit status 1. -/
theorem enablePrecision_invalid (calibrator : Option Str) {d : DataType}
    (hd : d.isKernelPrecision = false) (s : St) :
    enablePrecision calibrator d s =
      (Res.exit 1, { s with trace := s.trace ++
        [Event.log Level.kERROR (Msg.invalidEnabledPrecision d), Event.usage] }) := by
  unfold enablePrecision
  cases d <;> simp only [DataType.isKernelPrecision, Bool.true_eq_false] at hd <;>
    simp [Proc.bind_apply, log_apply, emit_apply, exit_apply]

/-- The loop over tokens that are all accepted: it ends normally with the
types of the tokens added to `enabled_precisions`. -/
theorem setEnabledPrecisions_valid (calibrator : Option Str) (tokens : List Str)
    (h : ∀ t ∈ tokens, (dataTypeOf t).isKernelPrecision = true) :
    ∀ (s : St) (c : CompileSpec), s.compile_settings = some c →
      ∃ s1 c1, setEnabledPrecisions calibrator tokens s = (Res.ok (), s1) ∧
        s1.compile_settings = some c1 ∧
        c1.enabled_precisions = c.enabled_precisions ∪ (tokens.map dataTypeOf).toFinset := by
  induction tokens with
  | nil =>
    intro s c hc
    exact ⟨s, c, rfl, hc, by simp⟩
  | cons t rest ih =>
    intro s c hc
    obtain ⟨evs, hp⟩ := parseDataType_settings t s
    obtain ⟨s1, c1, h1, hc1, e1⟩ := enablePrecision_valid calibrator
      (h t (List.mem_cons_self _ _)) (s := { s with trace := s.trace ++ evs }) hc
    obtain ⟨s2, c2, h2, hc2, e2⟩ := ih (fun x hx => h x (List.mem_cons_of_mem _ hx)) s1 c1 hc1
    refine ⟨s2, c2, ?_, hc2, ?_⟩
    · unfold setEnabledPrecisions
      simp only [bind_eq, Proc.bind_apply, hp, h1, h2]
    · rw [e2, e1]
      ext x
      simp only [Finset.mem_union, Finset.mem_insert, List.mem_toFinset, List.map_cons,
        List.mem_cons]
      tauto

/-- The loop over tokens of which one is not accepted: it ends the process
at the first such token, with exit status 1 after the error entry that names
the type of the token and the usage text. -/
theorem setEnabledPrecisions_invalid (calibrator : Option Str) (pre : List Str) (t : Str)
    (post : List Str) (hpre : ∀ p ∈ pre, (dataTypeOf p).isKernelPrecision = true)
    (ht : (dataTypeOf t).isKernelPrecision = false) :
    ∀ s : St, ∃ s1 evs,
      setEnabledPrecisions calibrator (pre ++ t :: post) s = (Res.exit 1, s1) ∧
      s1.trace = s.trace ++ evs ++
        [Event.log Level.kERROR (Msg.invalidEnabledPrecision (dataTypeOf t)), Event.usage] := by
  induction pre with
  | nil =>
    intro s
    obtain ⟨evs, hp⟩ := parseDataType_settings t s
    refine ⟨{ s with trace := s.trace ++ evs ++
        [Event.log Level.kERROR (Msg.invalidEnabledPrecision (dataTypeOf t)), Event.usage] },
      evs, ?_, rfl⟩
    rw [List.nil_append]
    unfold setEnabledPrecisions
    simp only [bind_eq, Proc.bind_apply, hp, enablePrecision_invalid calibrator ht]
  | cons p pre ih =>
    intro s
    obtain ⟨evs, hp⟩ := parseDataType_settings p s
    obtain ⟨s1, hres⟩ := enablePrecision_ok calibrator (hpre p (List.mem_cons_self _ _))
      { s with trace := s.trace ++ evs }
    obtain ⟨evs1, htr, _, _⟩ := step_run (step_enablePrecision calibrator (dataTypeOf p)) hres
    obtain ⟨s2, evs2, h2, htr2⟩ := ih (fun x hx => hpre x (List.mem_cons_of_mem _ hx)) s1
    refine ⟨s2, evs ++ evs1 ++ evs2, ?_, ?_⟩
    · rw [List.cons_append]
      unfold setEnabledPrecisions
      simp only [bind_eq, Proc.bind_apply, hp, hres, h2]
    · rw [htr2, htr]
      simp

/-- A list with an element that fails a test splits at the first such
element. -/
theorem exists_first_failing {α : Type} (P : α → Bool) (l : List α)
    (h : ∃ x ∈ l, P x = false) :
    ∃ pre x post, l = pre ++ x :: post ∧ (∀ p ∈ pre, P p = true) ∧ P x = false := by
  induction l with
  | nil => simp at h
  | cons a rest ih =>
    by_cases ha : P a = true
    · obtain ⟨x, hx, hpx⟩ := h
      have hx2 : x ∈ rest := by
        rcases List.mem_cons.mp hx with e | e
        · subst e
          rw [ha] at hpx
          exact absurd hpx (by decide)
        · exact e
      obtain ⟨pre, y, post, hl, hpre, hy⟩ := ih ⟨x, hx2, hpx⟩
      refine ⟨a :: pre, y, post, by rw [hl]; rfl, ?_, hy⟩
      intro p hp
      rcases List.mem_cons.mp hp with e | e
      · rw [e]; exact ha
      · exact hpre p e
    · exact ⟨[], a, rest, rfl, by simp, by simpa using ha⟩

/-- The types that `--enabled-precision` accepts are those of the names of
float, half and char precision. -/
theorem isKernelPrecision_iff (t : Str) :
    (dataTypeOf t).isKernelPrecision = true ↔
      asciiLower t ∈ floatNames ++ halfNames ++ charNames := by
  obtain ⟨h1, h2, h3, h4, h5, h6⟩ := lookupDataType_iff (asciiLower t)
  rw [dataTypeOf_eq]
  simp only [List.mem_append, ← h1, ← h2, ← h3]
  cases lookupDataType (asciiLower t) <;> simp [DataType.isKernelPrecision]

/-- The loop over the tokens ends normally exactly when every token is
accepted. -/
theorem setEnabledPrecisions_ok_iff (calibrator : Option Str) (tokens : List Str) (s : St) :
    (∃ s1, setEnabledPrecisions calibrator tokens s = (Res.ok (), s1)) ↔
      ∀ t ∈ tokens, (dataTypeOf t).isKernelPrecision = true := by
  constructor
  · rintro ⟨s1, h1⟩
    by_contra hn
    push_neg at hn
    obtain ⟨pre, x, post, hl, hpre, hx⟩ :=
      exists_first_failing (fun t => (dataTypeOf t).isKernelPrecision) tokens
        (by obtain ⟨t, ht, hv⟩ := hn; exact ⟨t, ht, by simpa using hv⟩)
    obtain ⟨s2, _, h2, _⟩ := setEnabledPrecisions_invalid calibrator pre x post hpre hx s
    rw [hl, h2] at h1
    simp at h1
  · intro h
    induction tokens generalizing s with
    | nil => exact ⟨s, rfl⟩
    | cons t rest ih =>
      obtain ⟨evs, hp⟩ := parseDataType_settings t s
      obtain ⟨s1, h1⟩ := enablePrecision_ok calibrator (h t (List.mem_cons_self _ _))
        { s with trace := s.trace ++ evs }
      obtain ⟨s2, h2⟩ := ih s1 (fun x hx => h x (List.mem_cons_of_mem _ hx))
      refine ⟨s2, ?_⟩
      unfold setEnabledPrecisions
      simp only [bind_eq, Proc.bind_apply, hp, h1, h2]

/-- When the configuration phase cannot end normally, `main` ends in it, with
exit status 1 after an error entry, and with set-up events only. -/
theorem main_of_configure_fails (args : Args) (env : Env)
    (h : ∀ v sf, configure args env St.init ≠ (Res.ok v, sf)) :
    ∃ sf, main args env St.init = (Res.exit 1, sf) ∧
      configure args env St.init = (Res.exit 1, sf) ∧
      (∃ msg, Event.log Level.kERROR msg ∈ sf.trace) ∧ ∀ e ∈ sf.trace, Setup e := by
  rcases hres : configure args env St.init with ⟨r, sf⟩
  have hfail := fails_configure args env St.init
  rw [hres] at hfail
  have hsetup : ∀ e ∈ sf.trace, Setup e := configure_trace_setup hres
  cases r with
  | ok v => exact absurd hres (h v sf)
  | threw => exact absurd rfl hfail.1
  | exit code =>
    obtain ⟨hcode, herr⟩ := hfail.2 code rfl
    subst hcode
    exact ⟨sf, main_of_configure_exit hres, rfl, herr, hsetup⟩

/-- After a run of the configuration phase that does not end the process,
every token of `--enabled-precision` is accepted and `enabled_precisions`
holds the initial precisions and the types of the tokens. -/
theorem configure_enabled_precisions {args : Args} {env : Env} {sf : St} {ranges : List Input}
    {inp out : Str} (h : configure args env St.init = (Res.ok (ranges, inp, out), sf)) :
    (∀ t ∈ args.enabled_precision, (dataTypeOf t).isKernelPrecision = true) ∧
    ∃ cs, sf.compile_settings = some cs ∧
      cs.enabled_precisions = env.default_settings.enabled_precisions ∪
        (args.enabled_precision.map dataTypeOf).toFinset := by
  obtain ⟨s3, s5, s6, s7, cal, _, h5, h6, h7, k⟩ := configure_ok h
  have hall := (setEnabledPrecisions_ok_iff _ _ _).mp ⟨s7, h7⟩
  refine ⟨hall, ?_⟩
  obtain ⟨_, _, _, k5⟩ := step_run (step_setFlags args env) h5
  obtain ⟨_, _, _, k6⟩ := step_run (step_setTorchExecuted args) h6
  obtain ⟨c5, e5, p5⟩ := keeps_some k5 rfl
  obtain ⟨c6, e6, p6⟩ := keeps_some k6 e5
  obtain ⟨s7b, c7, h7b, e7, p7⟩ := setEnabledPrecisions_valid _ _ hall s6 c6 e6
  rw [h7] at h7b
  simp only [Prod.mk.injEq, true_and] at h7b
  subst h7b
  obtain ⟨c8, e8, p8⟩ := keeps_some k e7
  refine ⟨c8, e8, ?_⟩
  simp only [CompileSpec.core, Prod.mk.injEq] at p5 p6 p8
  rw [p8.2.2.2.2, p7, p6.2.1, p5.2.2.2.2.1]

/-- C19: the tokens of `--enabled-precision`. A token is accepted when
`parseDataType` maps it to float, half or char, that is when its lower-cased
text is one of float, float32, f32, fp32, half, float16, f16, fp16, char,
int8, i8. The loop of `main` over the tokens ends normally exactly when every
token is accepted, and then `enabled_precisions` holds, besides what it held
before, the type of each token; at the first token that is not accepted the
loop logs the error that names its type, prints the usage text and ends the
process with exit status 1. For `main` as a whole: a run that passes the
configuration phase has every token accepted and the settings hold the
initial precisions and the type of each token; with a token that is not
accepted `main` ends with exit status 1 after an error entry, in the
configuration phase. -/
theorem enabled_precision_accepted_iff_valid (args : Args) (env : Env) :
    (∀ t, (dataTypeOf t).isKernelPrecision = true ↔
      asciiLower t ∈ floatNames ++ halfNames ++ charNames) ∧
    (∀ calibrator tokens s,
      (∃ s1, setEnabledPrecisions calibrator tokens s = (Res.ok (), s1)) ↔
        ∀ t ∈ tokens, (dataTypeOf t).isKernelPrecision = true) ∧
    (∀ calibrator tokens s c s1, s.compile_settings = some c →
      setEnabledPrecisions calibrator tokens s = (Res.ok (), s1) →
      ∃ c1, s1.compile_settings = some c1 ∧
        c1.enabled_precisions = c.enabled_precisions ∪ (tokens.map dataTypeOf).toFinset) ∧
    (∀ calibrator pre t post s, (∀ p ∈ pre, (dataTypeOf p).isKernelPrecision = true) →
      (dataTypeOf t).isKernelPrecision = false →
      ∃ s1 evs, setEnabledPrecisions calibrator (pre ++ t :: post) s = (Res.exit 1, s1) ∧
        s1.trace = s.trace ++ evs ++
          [Event.log Level.kERROR (Msg.invalidEnabledPrecision (dataTypeOf t)),
           Event.usage]) ∧
    (∀ ranges inp out sf, configure args env St.init = (Res.ok (ranges, inp, out), sf) →
      (∀ t ∈ args.enabled_precision, (dataTypeOf t).isKernelPrecision = true) ∧
      ∃ cs, sf.compile_settings = some cs ∧
        cs.enabled_precisions = env.default_settings.enabled_precisions ∪
          (args.enabled_precision.map dataTypeOf).toFinset) ∧
    ((∃ t ∈ args.enabled_precision, (dataTypeOf t).isKernelPrecision = false) →
      (main args env St.init).1 = Res.exit 1 ∧
      (∃ msg, Event.log Level.kERROR msg ∈ (main args env St.init).2.trace) ∧
      ∀ e ∈ (main args env St.init).2.trace, e.isSetup = true) := by
  refine ⟨isKernelPrecision_iff, setEnabledPrecisions_ok_iff, ?_, ?_, ?_, ?_⟩
  · intro calibrator tokens s c s1 hc hrun
    have hall := (setEnabledPrecisions_ok_iff calibrator tokens s).mp ⟨s1, hrun⟩
    obtain ⟨s2, c2, h2, e2, p2⟩ := setEnabledPrecisions_valid calibrator tokens hall s c hc
    rw [hrun] at h2
    simp only [Prod.mk.injEq, true_and] at h2
    subst h2
    exact ⟨c2, e2, p2⟩
  · intro calibrator pre t post s hpre ht
    exact setEnabledPrecisions_invalid calibrator pre t post hpre ht s
  · intro ranges inp out sf h
    exact configure_enabled_precisions h
  · rintro ⟨t, ht, hv⟩
    have hno : ∀ v sf, configure args env St.init ≠ (Res.ok v, sf) := by
      rintro ⟨ranges, inp, out⟩ sf h
      have := (configure_enabled_precisions h).1 t ht
      rw [hv] at this
      exact absurd this (by decide)
    obtain ⟨sf, hmain, _, herr, hsetup⟩ := main_of_configure_fails args env hno
    rw [hmain]
    exact ⟨rfl, herr, hsetup⟩

/-- The command line `-p FP16 -p i8 -p f32` passes the configuration phase
with float, half and char precision enabled; on `-p fp16 -p int32 -p int8`
the loop ends the process at "int32" and `main` returns 1. -/
theorem enabled_precision_accepted_iff_valid_witness :
    (∃ cs, (configure Args.precisions (Env.sample [] []) St.init).2.compile_settings = some cs ∧
      DataType.kFloat ∈ cs.enabled_precisions ∧ DataType.kHalf ∈ cs.enabled_precisions ∧
      DataType.kChar ∈ cs.enabled_precisions) ∧
    (∃ s1 evs,
      setEnabledPrecisions none Args.badPrecision.enabled_precision St.init = (Res.exit 1, s1) ∧
      s1.trace = St.init.trace ++ evs ++
        [Event.log Level.kERROR (Msg.invalidEnabledPrecision DataType.kInt), Event.usage]) ∧
    (main Args.badPrecision (Env.sample [] []) St.init).1 = Res.exit 1 := by
  have h := enabled_precision_accepted_iff_valid Args.badPrecision (Env.sample [] [])
  have hcfg : configure Args.precisions (Env.sample [] []) St.init =
      (Res.ok (Input.sampleRanges, "/m.ts".toList, "/o.ts".toList),
        (configure Args.precisions (Env.sample [] []) St.init).2) :=
    Prod.ext (by decide) rfl
  obtain ⟨cs, hcs, hp⟩ :=
    ((enabled_precision_accepted_iff_valid Args.precisions (Env.sample [] [])).2.2.2.2.1
      _ _ _ _ hcfg).2
  refine ⟨⟨cs, hcs, ?_, ?_, ?_⟩, ?_, (h.2.2.2.2.2 ⟨"int32".toList, by decide, by decide⟩).1⟩
  · rw [hp]; decide
  · rw [hp]; decide
  · rw [hp]; decide
  · exact h.2.2.2.1 none ["fp16".toList] "int32".toList ["int8".toList] St.init
      (by decide) (by decide)

/-! ## Runs that yield a value log no error -/

section OkRules

variable {α β : Type}

theorem okrun_pure (a : α) : OkRun (Proc.pure a) := by
  intro s b s1 h
  simp only [Proc.pure_apply, Prod.mk.injEq] at h
  exact ⟨[], by rw [← h.2]; simp, by simp⟩

theorem okrun_exit (code : Nat) : OkRun (exit code : Proc α) := by
  intro s b s1 h
  simp [exit_apply] at h

theorem okrun_throw : OkRun (throw : Proc α) := by
  intro s b s1 h
  simp [throw_apply] at h

theorem okrun_emit (e : Event) (he : e.isErrorLog = false) : OkRun (emit e) := by
  intro s b s1 h
  simp only [emit_apply, Prod.mk.injEq] at h
  exact ⟨[e], by rw [← h.2], by simpa using he⟩

theorem okrun_log (lvl : Level) (msg : Msg) (he : (Event.log lvl msg).isErrorLog = false) :
    OkRun (log lvl msg) :=
  okrun_emit _ he

theorem okrun_modifySettings (f : CompileSpec → CompileSpec) : OkRun (modifySettings f) := by
  intro s b s1 h
  simp only [modifySettings_apply, Prod.mk.injEq] at h
  exact ⟨[], by rw [← h.2]; simp, by simp⟩

theorem okrun_bind {m : Proc α} {f : α → Proc β} (hm : OkRun m) (hf : ∀ a, OkRun (f a)) :
    OkRun (Proc.bind m f) := by
  intro s b s2 h
  obtain ⟨a, s1, h1, h2⟩ := Proc.bind_eq_ok.mp h
  obtain ⟨evs1, t1, p1⟩ := hm s a s1 h1
  obtain ⟨evs2, t2, p2⟩ := hf a s1 b s2 h2
  refine ⟨evs1 ++ evs2, by rw [t2, t1, List.append_assoc], ?_⟩
  intro e he
  rcases List.mem_append.mp he with h3 | h3
  · exact p1 e h3
  · exact p2 e h3

theorem okrun_ite {c : Prop} [Decidable c] {x y : Proc α} (hx : OkRun x) (hy : OkRun y) :
    OkRun (if c then x else y) := by
  split
  · exact hx
  · exact hy

/-- A step that never yields a value. -/
theorem okrun_of_never {m : Proc α} (h : ∀ s a s1, m s ≠ (Res.ok a, s1)) : OkRun m :=
  fun s a s1 hr => absurd hr (h s a s1)

/-- An error entry followed by `exit(1)`. -/
theorem okrun_error_exit (msg : Msg) :
    OkRun (Proc.bind (log Level.kERROR msg) fun _ => (exit 1 : Proc α)) :=
  okrun_of_never fun s a s1 => by simp [Proc.bind_apply, log_apply, exit_apply]

/-- An error entry followed by the usage text and `exit(1)`. -/
theorem okrun_error_usage_exit (msg : Msg) :
    OkRun (Proc.bind (log Level.kERROR msg) fun _ =>
      Proc.bind (emit Event.usage) fun _ => (exit 1 : Proc α)) :=
  okrun_of_never fun s a s1 => by simp [Proc.bind_apply, log_apply, emit_apply, exit_apply]

/-- The parser `parseDataType` followed by a step that ends the process on
`kUnknown`. -/
theorem okrun_parseDataType_bind (str : Str) {f : DataType → Proc β}
    (hf : ∀ d, d ≠ DataType.kUnknown → OkRun (f d))
    (hu : ∀ s a s1, f DataType.kUnknown s ≠ (Res.ok a, s1)) :
    OkRun (Proc.bind (parseDataType str) f) := by
  intro s a s1 h
  rw [Proc.bind_apply, parseDataType_run] at h
  by_cases hk : lookupDataType (asciiLower str) = DataType.kUnknown
  · rw [if_pos hk, hk] at h
    exact absurd h (hu _ _ _)
  · rw [if_neg hk] at h
    exact hf _ hk s a s1 h

/-- The parser `parseTensorFormat` followed by a step that ends the process
on `kUnknown`. -/
theorem okrun_parseTensorFormat_bind (str : Str) {f : TensorFormat → Proc β}
    (hf : ∀ d, d ≠ TensorFormat.kUnknown → OkRun (f d))
    (hu : ∀ s a s1, f TensorFormat.kUnknown s ≠ (Res.ok a, s1)) :
    OkRun (Proc.bind (parseTensorFormat str) f) := by
  intro s a s1 h
  rw [Proc.bind_apply, parseTensorFormat_run] at h
  by_cases hk : lookupTensorFormat (asciiLower str) = TensorFormat.kUnknown
  · rw [if_pos hk, hk] at h
    exact absurd h (hu _ _ _)
  · rw [if_neg hk] at h
    exact hf _ hk s a s1 h

end OkRules

theorem okrun_substr (str : Str) (pos count : Nat) : OkRun (substr str pos count) := by
  unfold substr
  exact okrun_ite okrun_throw (okrun_pure _)

theorem okrun_parseSingleDim (uninit : Int) (str : Str) : OkRun (parseSingleDim uninit str) := by
  unfold parseSingleDim
  split
  · exact okrun_pure _
  · exact okrun_error_exit _

theorem okrun_parseDynamicDimLoop (uninit : Int) (fuel : Nat) (str : Str)
    (shape : List (List Int)) : OkRun (parseDynamicDimLoop uninit fuel str shape) := by
  induction fuel generalizing str shape with
  | zero => exact okrun_pure _
  | succ f ih =>
    unfold parseDynamicDimLoop
    split
    · exact okrun_pure _
    · simp only [bind_eq]
      exact okrun_bind (okrun_substr _ _ _) fun _ =>
        okrun_bind (okrun_parseSingleDim _ _) fun _ => ih _ _

theorem okrun_parseDynamicDim (uninit : Int) (str : Str) :
    OkRun (parseDynamicDim uninit str) := by
  unfold parseDynamicDim
  simp only [bind_eq, pure_eq]
  refine okrun_bind (okrun_substr _ _ _) fun _ =>
    okrun_bind (okrun_parseDynamicDimLoop _ _ _ _) fun _ =>
      okrun_bind (okrun_parseSingleDim _ _) fun _ => ?_
  exact okrun_ite (okrun_error_exit _) (okrun_pure _)

theorem okrun_rejectSpec {α : Type} (msg : Msg) : OkRun (rejectSpec msg : Proc α) := by
  unfold rejectSpec
  simp only [bind_eq]
  exact okrun_error_usage_exit _

theorem rejectSpec_ne_ok {α : Type} (msg : Msg) (s : St) (a : α) (s1 : St) :
    rejectSpec msg s ≠ (Res.ok a, s1) := by
  simp [rejectSpec, Proc.bind_apply, log_apply, emit_apply, exit_apply]

theorem okrun_makeInput (env : Env) (shapes : Str) (dtype : Option DataType)
    (format : Option TensorFormat) : OkRun (makeInput env shapes dtype format) := by
  unfold makeInput
  simp only [bind_eq, pure_eq]
  repeat' first
    | exact okrun_pure _
    | exact okrun_parseSingleDim _ _
    | exact okrun_parseDynamicDim _ _
    | exact okrun_rejectSpec _
    | apply okrun_ite
    | apply okrun_bind
    | intro _

theorem okrun_parseInputSpec (env : Env) (spec : Str) : OkRun (parseInputSpec env spec) := by
  unfold parseInputSpec
  simp only [bind_eq, pure_eq]
  refine okrun_bind ?_ fun _ => okrun_bind (okrun_log _ _ rfl) fun _ => okrun_pure _
  have hd : ∀ (g : DataType → Proc Input) (msg : Msg), (∀ d, OkRun (g d)) →
      ∀ str, OkRun (Proc.bind (parseDataType str) fun parsed_dtype =>
        if parsed_dtype = DataType.kUnknown then rejectSpec msg else g parsed_dtype) := by
    intro g msg hg str
    refine okrun_parseDataType_bind str (fun d hd => ?_) (fun s a s1 => ?_)
    · rw [if_neg hd]
      exact hg d
    · rw [if_pos rfl]
      exact rejectSpec_ne_ok _ _ _ _
  have hf : ∀ (g : TensorFormat → Proc Input) (msg : Msg), (∀ d, OkRun (g d)) →
      ∀ str, OkRun (Proc.bind (parseTensorFormat str) fun parsed_format =>
        if parsed_format = TensorFormat.kUnknown then rejectSpec msg else g parsed_format) := by
    intro g msg hg str
    refine okrun_parseTensorFormat_bind str (fun d hd => ?_) (fun s a s1 => ?_)
    · rw [if_neg hd]
      exact hg d
    · rw [if_pos rfl]
      exact rejectSpec_ne_ok _ _ _ _
  split <;> split
  · refine okrun_bind (okrun_substr _ _ _) fun shapes =>
      okrun_bind (okrun_substr _ _ _) fun dtype =>
        okrun_bind (okrun_substr _ _ _) fun format => ?_
    exact hd (fun d => Proc.bind (parseTensorFormat format) fun parsed_format =>
        if parsed_format = TensorFormat.kUnknown then rejectSpec (Msg.invalidInputFormat spec)
        else makeInput env shapes (some d) (some parsed_format)) _
      (fun d => hf (fun f => makeInput env shapes (some d) (some f)) _
        (fun f => okrun_makeInput _ _ _ _) _) _
  · refine okrun_bind (okrun_substr _ _ _) fun shapes =>
      okrun_bind (okrun_substr _ _ _) fun dtype => ?_
    exact hd (fun d => makeInput env shapes (some d) none) _
      (fun d => okrun_makeInput _ _ _ _) _
  · refine okrun_bind (okrun_substr _ _ _) fun shapes =>
      okrun_bind (okrun_substr _ _ _) fun format => ?_
    exact hf (fun f => makeInput env shapes none (some f)) _
      (fun f => okrun_makeInput _ _ _ _) _
  · exact okrun_makeInput _ _ _ _

theorem okrun_parseInputSpecs (env : Env) (specs : List Str) (ranges : List Input) :
    OkRun (parseInputSpecs env specs ranges) := by
  induction specs generalizing ranges with
  | nil => exact okrun_pure _
  | cons spec rest ih =>
    unfold parseInputSpecs
    simp only [bind_eq]
    exact okrun_bind (okrun_parseInputSpec _ _) fun _ => ih _

theorem okrun_resolve_path (env : Env) (path : Str) : OkRun (resolve_path env path) := by
  unfold resolve_path get_cwd
  simp only [bind_eq, pure_eq]
  repeat' first
    | exact okrun_pure _
    | exact okrun_error_exit _
    | apply okrun_ite
    | apply okrun_bind
    | split
    | intro _

theorem okrun_setVerbosity (args : Args) : OkRun (setVerbosity args) := by
  unfold setVerbosity
  repeat' first
    | exact okrun_pure _
    | exact okrun_emit _ rfl
    | apply okrun_ite

theorem okrun_constructSettings (env : Env) (ranges : List Input) :
    OkRun (constructSettings env ranges) := by
  intro s a s1 h
  simp only [constructSettings, Prod.mk.injEq] at h
  exact ⟨[], by rw [← h.2]; simp, by simp⟩

theorem okrun_setFlags (args : Args) (env : Env) : OkRun (setFlags args env) := by
  unfold setFlags
  simp only [bind_eq, pure_eq]
  repeat' first
    | exact okrun_pure _
    | exact okrun_modifySettings _
    | exact okrun_resolve_path _ _
    | apply okrun_ite
    | apply okrun_bind
    | split
    | intro _

theorem okrun_setTorchExecuted (args : Args) : OkRun (setTorchExecuted args) := by
  unfold setTorchExecuted
  simp only [bind_eq, pure_eq]
  repeat' first
    | exact okrun_pure _
    | exact okrun_modifySettings _
    | exact okrun_error_exit _
    | apply okrun_ite
    | apply okrun_bind
    | intro _

theorem okrun_enablePrecision (calibrator : Option Str) (dtype : DataType) :
    OkRun (enablePrecision calibrator dtype) := by
  unfold enablePrecision
  simp only [bind_eq, pure_eq]
  repeat' first
    | exact okrun_pure _
    | exact okrun_modifySettings _
    | exact okrun_log _ _ rfl
    | exact okrun_error_usage_exit _
    | apply okrun_ite
    | apply okrun_bind
    | split
    | intro _

theorem okrun_setEnabledPrecisions (calibrator : Option Str) (tokens : List Str) :
    OkRun (setEnabledPrecisions calibrator tokens) := by
  induction tokens with
  | nil => exact okrun_pure _
  | cons precision rest ih =>
    unfold setEnabledPrecisions
    simp only [bind_eq]
    refine okrun_parseDataType_bind precision
      (fun d _ => okrun_bind (okrun_enablePrecision _ _) fun _ => ih) (fun s a s1 => ?_)
    rw [Proc.bind_apply, enablePrecision_invalid calibrator (d := DataType.kUnknown) rfl]
    simp

theorem okrun_setDevice (args : Args) : OkRun (setDevice args) := by
  unfold setDevice
  simp only [bind_eq, pure_eq]
  repeat' first
    | exact okrun_pure _
    | exact okrun_modifySettings _
    | exact okrun_emit _ rfl
    | exact okrun_error_usage_exit _
    | apply okrun_ite
    | apply okrun_bind
    | split
    | intro _

theorem okrun_setCapability (args : Args) : OkRun (setCapability args) := by
  unfold setCapability
  simp only [bind_eq, pure_eq]
  repeat' first
    | exact okrun_pure _
    | exact okrun_modifySettings _
    | exact okrun_error_usage_exit _
    | apply okrun_ite
    | apply okrun_bind
    | split

theorem okrun_setBuilderOptions (args : Args) : OkRun (setBuilderOptions args) := by
  unfold setBuilderOptions
  simp only [bind_eq, pure_eq]
  repeat' first
    | exact okrun_pure _
    | exact okrun_modifySettings _
    | apply okrun_ite
    | apply okrun_bind
    | split
    | intro _

/-- A run of the configuration phase that does not end the process has
logged nothing at error level. -/
theorem okrun_configure (args : Args) (env : Env) : OkRun (configure args env) := by
  unfold configure
  simp only [bind_eq, pure_eq]
  refine okrun_bind (okrun_emit _ rfl) fun _ => ?_
  refine okrun_bind (okrun_setVerbosity _) fun _ => ?_
  refine okrun_bind (okrun_parseInputSpecs _ _ _) fun _ => ?_
  refine okrun_bind (okrun_constructSettings _ _) fun _ => ?_
  refine okrun_bind (okrun_setFlags _ _) fun _ => ?_
  refine okrun_bind (okrun_setTorchExecuted _) fun _ => ?_
  refine okrun_bind (okrun_setEnabledPrecisions _ _) fun _ => ?_
  refine okrun_bind (okrun_setDevice _) fun _ => ?_
  refine okrun_bind (okrun_setCapability _) fun _ => ?_
  refine okrun_bind (okrun_setBuilderOptions _) fun _ => ?_
  refine okrun_bind (okrun_resolve_path _ _) fun _ => ?_
  exact okrun_bind (okrun_resolve_path _ _) fun _ => okrun_pure _

/-! ## Configuration errors end the run before the module is loaded -/

theorem comparison_not_configError {e : Event} (h : Comparison e) : e.isConfigError = false := by
  cases e with
  | log lvl msg =>
    cases lvl <;> cases msg <;> first
      | rfl
      | (exact absurd h (by simp [Comparison, Event.isComparison, Msg.isComparison]))
  | _ => rfl

theorem step_drawInputs_noConfigError (ranges : List Input) :
    Step (fun e => e.isConfigError = false) Unchanged (drawInputs ranges) := by
  induction ranges with
  | nil => exact step_pure _
  | cons i rest ih =>
    unfold drawInputs
    simp only [bind_eq]
    exact step_bind (step_emit _ rfl) fun _ => ih

theorem step_checkThreshold_noConfigError (args : Args) (env : Env) (cs : CompileSpec)
    (ranges : List Input) :
    Step (fun e => e.isConfigError = false) Unchanged (checkThreshold args env cs ranges) := by
  unfold checkThreshold
  simp only [bind_eq, pure_eq]
  repeat' first
    | exact step_pure _
    | exact step_throw
    | exact step_drawInputs_noConfigError _
    | exact step_weaken (step_compareResults _ _ _ _) (fun _ h => comparison_not_configError h)
        (fun _ _ h => h)
    | (apply step_log; rfl)
    | (apply step_emit; rfl)
    | apply step_ite
    | apply step_bind
    | split
    | intro _

/-- The part of `main` that uses the input file logs no configuration
error. -/
theorem step_build_noConfigError (args : Args) (env : Env) (cs : CompileSpec)
    (ranges : List Input) (inp out : Str) :
    Step (fun e => e.isConfigError = false) Unchanged (build args env cs ranges inp out) := by
  unfold build requireSupport compileAndSave saveEngine
  simp only [bind_eq, pure_eq]
  repeat' first
    | exact step_pure _
    | exact step_exit _
    | exact step_throw
    | exact step_checkThreshold_noConfigError _ _ _ _
    | (apply step_log; rfl)
    | (apply step_emit; rfl)
    | apply step_ite
    | apply step_bind
    | intro _

/-- The device options on settings with `gpu_id` set: a run that does not end
the process leaves `gpu_id` as `selectedGpu` says. -/
theorem setDevice_gpu_id {args : Args} {s s1 : St} {c : CompileSpec}
    (h : setDevice args s = (Res.ok (), s1)) (hc : s.compile_settings = some c) :
    ∃ c1, s1.compile_settings = some c1 ∧
      c1.device.gpu_id = selectedGpu args c.device.gpu_id := by
  unfold setDevice at h
  unfold selectedGpu
  cases hd : args.device_type with
  | none =>
    simp only [hd, Proc.pure_apply, Prod.mk.injEq, true_and] at h
    subst h
    exact ⟨c, hc, rfl⟩
  | some d =>
    simp only [hd, bind_eq, pure_eq] at h
    cases hg : args.gpu_id <;> cases hdla : args.dla_core <;>
      simp only [hg, hdla, Proc.bind_apply, Proc.pure_apply, modifySettings_apply,
        emit_apply] at h <;>
      split_ifs at h <;>
      first
        | (simp only [modifySettings_apply, Proc.bind_apply, Proc.pure_apply, Prod.mk.injEq,
            true_and] at h
           subst h
           simp only [hc, Option.map_some']
           exact ⟨_, rfl, rfl⟩)
        | (simp [Proc.bind_apply, log_apply, emit_apply, exit_apply] at h)

/-- After a run of the configuration phase that does not end the process,
`gpu_id` is that of `--gpu-id` when `--device-type` is given too, and the
initial one otherwise. -/
theorem configure_gpu_id {args : Args} {env : Env} {s sf : St} {ranges : List Input}
    {inp out : Str} (h : configure args env s = (Res.ok (ranges, inp, out), sf)) :
    ∃ cs, sf.compile_settings = some cs ∧
      cs.device.gpu_id = selectedGpu args env.default_settings.device.gpu_id := by
  unfold configure at h
  simp only [bind_eq, pure_eq, Proc.bind_eq_ok, emit_apply, Proc.pure_apply, Prod.mk.injEq,
    Res.ok.injEq] at h
  obtain ⟨_, s1, ⟨_, rfl⟩, _, s2, h2, rg, s3, h3, _, s4, h4, cal, s5, h5, _, s6, h6, _, s7, h7,
    _, s8, h8, _, s9, h9, _, s10, h10, i1, s11, h11, o1, s12, h12, ⟨hr, _, _⟩, hs⟩ := h
  subst hs
  have e4 : s4.compile_settings = some { env.default_settings with inputs := rg } := by
    simp only [constructSettings, Prod.mk.injEq, true_and] at h4
    rw [← h4]
  obtain ⟨_, _, _, k5⟩ := step_run (step_setFlags args env) h5
  obtain ⟨_, _, _, k6⟩ := step_run (step_setTorchExecuted args) h6
  obtain ⟨_, _, _, k7⟩ := step_run (step_setEnabledPrecisions _ _) h7
  obtain ⟨_, _, _, k9⟩ := step_run (step_setCapability args) h9
  obtain ⟨_, _, _, k10⟩ := step_run (step_setBuilderOptions args) h10
  obtain ⟨_, _, _, k11⟩ := step_run (step_resolve_path env _) h11
  obtain ⟨_, _, _, k12⟩ := step_run (step_resolve_path env _) h12
  obtain ⟨c5, e5, p5⟩ := keeps_some k5 e4
  obtain ⟨c6, e6, p6⟩ := keeps_some k6 e5
  obtain ⟨c7, e7, p7⟩ := keeps_some k7 e6
  obtain ⟨c8, e8, p8⟩ := setDevice_gpu_id h8 e7
  obtain ⟨c9, e9, p9⟩ := keeps_some k9 e8
  obtain ⟨c10, e10, p10⟩ := keeps_some k10 e9
  have e11 := unchanged_some k11 e10
  have e12 := unchanged_some k12 e11
  refine ⟨c10, e12, ?_⟩
  simp only [CompileSpec.core, Prod.mk.injEq] at p5 p6 p7 p9 p10
  rw [p10.2.2.2.2.2, p9.2.2.2.2.2, p8, p7.2.2.2.2, p6.2.2, p5.2.2.2.2.2]

/-- C20, failing input: `--gpu-id` without `--device-type` is ignored. On
the command line `torchtrtc --gpu-id 1 /m.ts /o.ts "(3,3,32,32)"` the module
is compiled with the initial `gpu_id` 0 and `set_device` is never called,
and `main` returns 0; in general, without `--device-type` a run that passes
the configuration phase keeps the initial `gpu_id`, whatever `--gpu-id`
says. With `--device-type gpu` added, the module is compiled with `gpu_id` 1
after the call `set_device(1)`. -/
theorem gpu_id_ignored_without_device_type :
    Args.gpuOnly.gpu_id = some 1 ∧
    Event.compile { CompileSpec.sample with inputs := Input.sampleRanges }
      ∈ (main Args.gpuOnly (Env.sample [] []) St.init).2.trace ∧
    CompileSpec.sample.device.gpu_id = 0 ∧
    (∀ e ∈ (main Args.gpuOnly (Env.sample [] []) St.init).2.trace, e.isSetDevice = false) ∧
    (main Args.gpuOnly (Env.sample [] []) St.init).1 = Res.exit 0 ∧
    (∀ (args : Args) (env : Env) ranges inp out sf,
      args.device_type = none →
      configure args env St.init = (Res.ok (ranges, inp, out), sf) →
      ∃ cs, sf.compile_settings = some cs ∧
        cs.device.gpu_id = env.default_settings.device.gpu_id) ∧
    (main Args.gpuWithType (Env.sample [] []) St.init).2.trace.take 4 =
      [Event.set_reportable_log_level Level.kWARNING,
       Event.log Level.kDEBUG (Msg.parsedInput
         { shape := ShapeSpec.fixed [3, 3, 32, 32], dtype := none, format := none }),
       Event.set_device 1,
       Event.load "/m.ts".toList] ∧
    Event.compile { CompileSpec.sample with
        inputs := Input.sampleRanges
        device := { CompileSpec.sample.device with gpu_id := 1 } }
      ∈ (main Args.gpuWithType (Env.sample [] []) St.init).2.trace := by
  refine ⟨rfl, by decide, rfl, by decide, by decide, ?_, by decide, by decide⟩
  intro args env ranges inp out sf hd h
  obtain ⟨cs, hcs, hg⟩ := configure_gpu_id h
  refine ⟨cs, hcs, ?_⟩
  rw [hg]
  unfold selectedGpu
  rw [hd]

/-! ## The calls of `almostEqual` in the comparison -/

theorem step_absMax_quiet {P : Event → Prop} (t : Tensor) : Step P Unchanged (absMax t) := by
  unfold absMax
  split
  · exact step_pure _
  · exact step_throw

theorem step_checkRtolLoop_quiet {P : Event → Prop} (inputs : List Tensor) (maxValue : ℚ) :
    Step P Unchanged (checkRtolLoop inputs maxValue) := by
  induction inputs generalizing maxValue with
  | nil => exact step_pure _
  | cons t rest ih =>
    unfold checkRtolLoop
    simp only [bind_eq]
    exact step_bind (step_absMax_quiet _) fun _ => ih _

/-- The function `almostEqual` records no call of itself: the calls are
recorded by the loop of `main`. -/
theorem step_almostEqual_noCall (a b : Tensor) (threshold : ℚ) :
    Step (fun e => e.isAlmostEqual = false) Unchanged (almostEqual a b threshold) := by
  unfold almostEqual checkRtol Tensor.sub
  simp only [bind_eq, pure_eq]
  repeat' first
    | exact step_pure _
    | exact step_throw
    | exact step_absMax_quiet _
    | exact step_checkRtolLoop_quiet _ _
    | (apply step_log; rfl)
    | apply step_ite
    | apply step_bind
    | intro _

/-- The body of the loop over the results, for an output that has a
counterpart of its size: it calls `almostEqual` on the pair, once, whatever
happens afterwards. -/
theorem compareResult_calls (threshold_val : ℚ) (jit_results : List Tensor) (trt jit : Tensor)
    (i : Nat) (hget : jit_results.get? i = some jit) (hlen : trt.length = jit.length) (s : St) :
    ∃ evs, (compareResult threshold_val jit_results trt i s).2.trace =
        s.trace ++ Event.almostEqual i :: evs ∧
      ∀ e ∈ evs, e.isAlmostEqual = false := by
  have hrest : Step (fun e => e.isAlmostEqual = false) Unchanged
      (Proc.bind (almostEqual jit trt threshold_val) fun equal =>
        if (!equal) = true then log Level.kWARNING (Msg.thresholdExceeded threshold_val)
        else Proc.pure ()) :=
    step_bind (step_almostEqual_noCall _ _ _) fun _ =>
      step_ite (step_log _ _ rfl) (step_pure _)
  obtain ⟨evs, htr, hP, _⟩ := hrest { s with trace := s.trace ++ [Event.almostEqual i] }
  refine ⟨evs, ?_, hP⟩
  unfold compareResult
  simp only [hget, hlen, ne_eq, not_true_eq_false, if_false, bind_eq, pure_eq, Proc.bind_apply,
    emit_apply]
  simp only [Proc.bind_apply] at htr
  rw [htr]
  simp

/-- The loop over the results, when every comparison yields a verdict: it
calls `almostEqual` once on each output, in the order of the outputs. -/
theorem compareResults_calls (threshold_val : ℚ) (jit_results : List Tensor)
    (trt_results : List Tensor) (i : Nat)
    (hlen : trt_results.length ≤ (jit_results.drop i).length)
    (hpair : ∀ p ∈ (jit_results.drop i).zip trt_results, p.1 ≠ [] ∧ p.2.length = p.1.length)
    (s : St) :
    ∃ evs, compareResults threshold_val jit_results trt_results i s =
        (Res.ok (), { s with trace := s.trace ++ evs }) ∧
      evs.filter Event.isAlmostEqual =
        (List.range' i trt_results.length).map Event.almostEqual := by
  induction trt_results generalizing i s with
  | nil => exact ⟨[], by simp [compareResults], by simp⟩
  | cons trt rest ih =>
    have hi : i < jit_results.length := by
      simp only [List.length_cons, List.length_drop] at hlen
      omega
    have hdrop : jit_results.drop i = jit_results[i] :: jit_results.drop (i + 1) :=
      List.drop_eq_getElem_cons hi
    have hget : jit_results.get? i = some jit_results[i] := by
      simp [List.getElem?_eq_getElem hi]
    rw [hdrop] at hlen hpair
    obtain ⟨hj, hl⟩ := hpair (jit_results[i], trt)
      (by rw [List.zip_cons_cons]; exact List.mem_cons_self _ _)
    obtain ⟨evs1, hrun1, _, _, _⟩ :=
      compareResult_run threshold_val jit_results trt jit_results[i] i hget hj hl s
    obtain ⟨evs0, htr0, hq0⟩ :=
      compareResult_calls threshold_val jit_results trt jit_results[i] i hget hl s
    have he1 : evs1 = Event.almostEqual i :: evs0 := by
      rw [hrun1] at htr0
      exact List.append_cancel_left htr0
    obtain ⟨evs2, hrun2, hf2⟩ :=
      ih (i + 1) (by simp only [List.length_cons] at hlen; omega)
        (fun p hp => hpair p (by simp only [List.zip_cons_cons, List.mem_cons]; exact Or.inr hp))
        { s with trace := s.trace ++ evs1 }
    refine ⟨evs1 ++ evs2, ?_, ?_⟩
    · unfold compareResults
      simp only [bind_eq, Proc.bind_apply, hrun1, hrun2, List.append_assoc]
    · have h0 : evs0.filter Event.isAlmostEqual = [] := by
        rw [List.filter_eq_nil_iff]
        intro e he
        simp [hq0 e he]
      rw [List.filter_append, hf2, he1, List.filter_cons, h0]
      simp [Event.isAlmostEqual, List.range'_succ]

/-- The loop that draws the sample inputs calls nothing. -/
theorem step_drawInputs_noCall (ranges : List Input) :
    Step (fun e => e.isAlmostEqual = false) Unchanged (drawInputs ranges) := by
  induction ranges with
  | nil => exact step_pure _
  | cons i rest ih =>
    unfold drawInputs
    simp only [bind_eq]
    exact step_bind (step_emit _ rfl) fun _ => ih

/-- The threshold check, when it is enabled and every comparison yields a
verdict: it returns after one call of `almostEqual` for each output, in
order. -/
theorem checkThreshold_calls (args : Args) (env : Env) (cs : CompileSpec) (ranges : List Input)
    {jit_results trt_results : List Tensor} (h : thresholdCheckEnabled args cs = true)
    (hj : env.jit_results = some jit_results) (ht : env.trt_results = some trt_results)
    (hlen : trt_results.length ≤ jit_results.length)
    (hpair : ∀ p ∈ jit_results.zip trt_results, p.1 ≠ [] ∧ p.2.length = p.1.length) (s : St) :
    ∃ evs, checkThreshold args env cs ranges s =
        (Res.ok (), { s with trace := s.trace ++ evs }) ∧
      evs.filter Event.isAlmostEqual =
        (List.range trt_results.length).map Event.almostEqual := by
  obtain ⟨evs1, hdraw, _, _⟩ := drawInputs_run ranges s
  obtain ⟨evs1b, htr1, hq1, _⟩ := step_drawInputs_noCall ranges s
  have he1 : evs1b = evs1 := by
    rw [hdraw] at htr1
    exact (List.append_cancel_left htr1).symm
  subst he1
  obtain ⟨evs2, hrun, hf2⟩ :=
    compareResults_calls (args.threshold.getD (2 / 100000)) jit_results trt_results 0
      (by simpa using hlen) (by simpa using hpair)
      { s with trace := s.trace ++ evs1b ++ [Event.forward_jit] ++ [Event.forward_trt] }
  refine ⟨evs1b ++ [Event.forward_jit, Event.forward_trt] ++ evs2, ?_, ?_⟩
  · unfold checkThreshold
    simp only [h, if_true, bind_eq, Proc.bind_apply, hdraw, emit_apply, hj, ht, hrun]
    simp
  · have h1 : evs1b.filter Event.isAlmostEqual = [] := by
      rw [List.filter_eq_nil_iff]
      intro e he
      simp [hq1 e he]
    rw [List.filter_append, List.filter_append, h1, hf2, List.range_eq_range']
    simp [Event.isAlmostEqual]

/-- The threshold check, when it is enabled and both forward runs return
with a first output of one size: `almostEqual` is called on that output,
whatever happens afterwards. -/
theorem checkThreshold_first_call (args : Args) (env : Env) (cs : CompileSpec)
    (ranges : List Input) {jit trt : Tensor} {jit_rest trt_rest : List Tensor}
    (h : thresholdCheckEnabled args cs = true)
    (hj : env.jit_results = some (jit :: jit_rest))
    (ht : env.trt_results = some (trt :: trt_rest))
    (hlen : trt.length = jit.length) (s : St) :
    Event.almostEqual 0 ∈ (checkThreshold args env cs ranges s).2.trace := by
  obtain ⟨evs1, hdraw, _, _⟩ := drawInputs_run ranges s
  have hrest : Step (fun _ => True) Unchanged
      (compareResults (args.threshold.getD (2 / 100000)) (jit :: jit_rest) trt_rest 1) :=
    step_weaken (step_compareResults _ _ _ _) (fun _ _ => trivial) (fun _ _ h => h)
  obtain ⟨evs0, htr0, _⟩ := compareResult_calls (args.threshold.getD (2 / 100000))
    (jit :: jit_rest) trt jit 0 rfl hlen
    { s with trace := s.trace ++ evs1 ++ [Event.forward_jit] ++ [Event.forward_trt] }
  unfold checkThreshold
  simp only [h, if_true, bind_eq, Proc.bind_apply, hdraw, emit_apply, hj, ht]
  unfold compareResults
  simp only [bind_eq, Proc.bind_apply]
  rcases hres : compareResult (args.threshold.getD (2 / 100000)) (jit :: jit_rest) trt 0
    { s with trace := s.trace ++ evs1 ++ [Event.forward_jit] ++ [Event.forward_trt] }
    with ⟨r, s1⟩
  rw [hres] at htr0
  simp only at htr0
  cases r with
  | ok u =>
    obtain ⟨evs2, htr2, _⟩ := hrest s1
    simp only [zero_add]
    rw [htr2, htr0]
    simp
  | exit code =>
    simp only [htr0]
    simp
  | threw =>
    simp only [htr0]
    simp

theorem isAlmostEqual_of_not_comparison {e : Event} (h : e.isComparison = false) :
    e.isAlmostEqual = false := by
  cases e <;> first | rfl | (exact absurd h (by simp [Event.isComparison]))

/-! ## The comparison runs exactly for float precision -/

/-- C2. In compile mode (neither `--embed-engine` nor `--save-engine`, a
valid configuration, the module loaded and compiled), `main` runs the
comparison of the outputs exactly when `--no-threshold-check` is absent and
the enabled precisions are exactly float. Then it runs the original module
and, when that returns, the compiled one, and calls `almostEqual` on the
outputs: on the first output whenever both runs return one of the same size,
and once on each output, in order, when every comparison yields a verdict.
In every other case its trace holds no event of the comparison, no call of
`almostEqual` among them, and holds an advisory warning. -/
theorem comparison_runs_iff_float_only (args : Args) (env : Env) (ranges : List Input)
    (inp out : Str) (sf : St) (cs : CompileSpec)
    (hembed : args.embed_engine = false) (hsave : args.save_engine = false)
    (hcfg : configure args env St.init = (Res.ok (ranges, inp, out), sf))
    (hcs : sf.compile_settings = some cs) (hload : env.load inp = true)
    (hsup : args.require_full_compilation = true → env.supported = true)
    (hcomp : env.compile cs = true) :
    Event.compile cs ∈ (main args env St.init).2.trace ∧
    ((args.no_threshold_check = false ∧ cs.enabled_precisions = {DataType.kFloat}) ↔
      Event.forward_jit ∈ (main args env St.init).2.trace) ∧
    ((args.no_threshold_check = false ∧ cs.enabled_precisions = {DataType.kFloat}) →
      env.jit_results.isSome = true → Event.forward_trt ∈ (main args env St.init).2.trace) ∧
    (¬ (args.no_threshold_check = false ∧ cs.enabled_precisions = {DataType.kFloat}) →
      (∀ e ∈ (main args env St.init).2.trace, e.isComparison = false) ∧
      (Event.log Level.kWARNING Msg.thresholdCheckSkipped ∈ (main args env St.init).2.trace ∨
        Event.log Level.kWARNING Msg.precisionNotChecked ∈ (main args env St.init).2.trace)) ∧
    (∀ jit trt jit_rest trt_rest, env.jit_results = some (jit :: jit_rest) →
      env.trt_results = some (trt :: trt_rest) → trt.length = jit.length →
      ((args.no_threshold_check = false ∧ cs.enabled_precisions = {DataType.kFloat}) ↔
        Event.almostEqual 0 ∈ (main args env St.init).2.trace)) ∧
    (∀ jit_results trt_results, env.jit_results = some jit_results →
      env.trt_results = some trt_results → trt_results.length ≤ jit_results.length →
      (∀ p ∈ jit_results.zip trt_results, p.1 ≠ [] ∧ p.2.length = p.1.length) →
      (args.no_threshold_check = false ∧ cs.enabled_precisions = {DataType.kFloat}) →
      (main args env St.init).2.trace.filter Event.isAlmostEqual =
        (List.range trt_results.length).map Event.almostEqual) ∧
    (¬ (args.no_threshold_check = false ∧ cs.enabled_precisions = {DataType.kFloat}) →
      ∀ i, Event.almostEqual i ∉ (main args env St.init).2.trace) := by
  obtain ⟨h1, h2, h3, h4⟩ :=
    comparison_forward_runs args env ranges inp out sf cs hembed hsave hcfg hcs hload hsup hcomp
  have hnone : ¬ (args.no_threshold_check = false ∧ cs.enabled_precisions = {DataType.kFloat}) →
      ∀ i, Event.almostEqual i ∉ (main args env St.init).2.trace := by
    intro hg i hmem
    have := (h4 hg).1 _ hmem
    simp [Event.isComparison] at this
  refine ⟨h1, h2, h3, h4, ?_, ?_, hnone⟩
  · intro jit trt jit_rest trt_rest hj ht hlen
    constructor
    · intro hg
      obtain ⟨pre, _, _, hmain⟩ := main_compile_mode hembed hsave hcfg hcs hload hsup hcomp
      have hen := (thresholdCheckEnabled_iff args cs).mpr hg
      have hcall := checkThreshold_first_call args env cs ranges hen hj ht hlen
        { sf with trace := pre }
      rw [hmain]
      rcases hchk : checkThreshold args env cs ranges { sf with trace := pre } with ⟨r, s3⟩
      rw [hchk] at hcall
      cases r
      · simp only [List.mem_append]
        exact Or.inl hcall
      · exact hcall
      · exact hcall
    · intro hmem
      by_contra hg
      exact hnone hg 0 hmem
  · intro jit_results trt_results hj ht hlen hpair hg
    obtain ⟨pre, hpre, _, hmain⟩ := main_compile_mode hembed hsave hcfg hcs hload hsup hcomp
    have hen := (thresholdCheckEnabled_iff args cs).mpr hg
    obtain ⟨evs, hrun, hf⟩ := checkThreshold_calls args env cs ranges hen hj ht hlen hpair
      { sf with trace := pre }
    have hp : pre.filter Event.isAlmostEqual = [] := by
      rw [List.filter_eq_nil_iff]
      intro e he
      simp [isAlmostEqual_of_not_comparison (hpre e he).1]
    rw [hmain, hrun]
    simp [List.filter_append, hp, hf, Event.isAlmostEqual]

/-- The hypotheses of `comparison_runs_iff_float_only` hold of the command
line `torchtrtc /m.ts /o.ts "(3,3,32,32)"` with one output of each module:
its run executes both modules and calls `almostEqual` on the output, once. -/
theorem comparison_runs_iff_float_only_witness :
    Args.sample.embed_engine = false ∧ Args.sample.save_engine = false ∧
    configure Args.sample (Env.sample [[1, 2]] [[1, 3]]) St.init =
      (Res.ok (Input.sampleRanges, "/m.ts".toList, "/o.ts".toList),
        (configure Args.sample (Env.sample [[1, 2]] [[1, 3]]) St.init).2) ∧
    (configure Args.sample (Env.sample [[1, 2]] [[1, 3]]) St.init).2.compile_settings =
      some { CompileSpec.sample with inputs := Input.sampleRanges } ∧
    (Env.sample [[1, 2]] [[1, 3]]).load "/m.ts".toList = true ∧
    (Args.sample.require_full_compilation = true →
      (Env.sample [[1, 2]] [[1, 3]]).supported = true) ∧
    (Env.sample [[1, 2]] [[1, 3]]).compile
      { CompileSpec.sample with inputs := Input.sampleRanges } = true ∧
    Event.forward_jit ∈ (main Args.sample (Env.sample [[1, 2]] [[1, 3]]) St.init).2.trace ∧
    Event.forward_trt ∈ (main Args.sample (Env.sample [[1, 2]] [[1, 3]]) St.init).2.trace ∧
    Event.almostEqual 0 ∈ (main Args.sample (Env.sample [[1, 2]] [[1, 3]]) St.init).2.trace ∧
    (main Args.sample (Env.sample [[1, 2]] [[1, 3]]) St.init).2.trace.filter Event.isAlmostEqual
      = [Event.almostEqual 0] :=
  have hcfg : configure Args.sample (Env.sample [[1, 2]] [[1, 3]]) St.init =
      (Res.ok (Input.sampleRanges, "/m.ts".toList, "/o.ts".toList),
        (configure Args.sample (Env.sample [[1, 2]] [[1, 3]]) St.init).2) :=
    Prod.ext (by decide) rfl
  have hcs : (configure Args.sample (Env.sample [[1, 2]] [[1, 3]]) St.init).2.compile_settings =
      some { CompileSpec.sample with inputs := Input.sampleRanges } := by decide
  have hpair : ∀ p ∈ ([[1, 2]] : List Tensor).zip ([[1, 3]] : List Tensor),
      p.1 ≠ [] ∧ p.2.length = p.1.length := by
    intro p hp
    simp only [List.zip_cons_cons, List.zip_nil_right, List.mem_singleton] at hp
    subst hp
    exact ⟨by simp, rfl⟩
  have h := comparison_runs_iff_float_only Args.sample (Env.sample [[1, 2]] [[1, 3]])
    Input.sampleRanges "/m.ts".toList "/o.ts".toList
    (configure Args.sample (Env.sample [[1, 2]] [[1, 3]]) St.init).2
    { CompileSpec.sample with inputs := Input.sampleRanges }
    rfl rfl hcfg hcs rfl (fun _ => rfl) rfl
  ⟨rfl, rfl, hcfg, hcs, rfl, fun _ => rfl, rfl,
    h.2.1.mp ⟨rfl, rfl⟩,
    h.2.2.1 ⟨rfl, rfl⟩ rfl,
    (h.2.2.2.2.1 [1, 2] [1, 3] [] [] rfl rfl rfl).mp ⟨rfl, rfl⟩,
    h.2.2.2.2.2.1 [[1, 2]] [[1, 3]] rfl rfl (by simp) hpair ⟨rfl, rfl⟩⟩

end Torchtrtc
